import Mathlib

/-!
# fxtract-backend: upload pairing, work dispatch and completion handling

A shallow embedding of three pieces of the backend:

* `uploadHandler` of `controller/project-controller.go` (pairing of uploaded geometry files),
* `ProcessCADFile` and `BatchProcessCADFiles` of `controller/fre-controller.go` (dispatch),
* `handleEvent` of `listener/event_listener.go` (completion events).

Handlers are written in explicit state passing style: every effect of the Go code (a store
call, an emitted event, a file created on disk, a reply written to the client) is recorded in
the state that the embedded function returns, also when the function stops with an error.
Go `int`, `int64` and durations are only copied and compared by this code, so they are `Int`.
-/

set_option autoImplicit false

namespace Fxtract

/-! ## Identifiers -/

/-- An ObjectID of the document store: twelve bytes, read as one big-endian number. -/
structure ObjectID where
  val : Nat
  lt : val < 2 ^ 96
deriving DecidableEq

/-- The ObjectID with the given number (reduced to twelve bytes). -/
def ObjectID.ofNat (n : Nat) : ObjectID :=
  ⟨n % 2 ^ 96, Nat.mod_lt _ (by norm_num)⟩

/-- One lowercase hexadecimal digit. -/
def hexChar (d : Nat) : Char :=
  if d < 10 then Char.ofNat (48 + d) else Char.ofNat (87 + d)

/-- The last `n` hexadecimal digits of `v`, most significant first. -/
def hexDigits : Nat → Nat → List Char
  | 0, _ => []
  | n + 1, v => hexDigits n (v / 16) ++ [hexChar (v % 16)]

/-- `ObjectID.Hex`: the 24 character lowercase hexadecimal rendering. -/
def ObjectID.Hex (o : ObjectID) : String :=
  ⟨hexDigits 24 o.val⟩

/-- Value of a hexadecimal digit, either case, as `encoding/hex` reads it. -/
def hexVal (c : Char) : Option Nat :=
  if 48 ≤ c.toNat ∧ c.toNat ≤ 57 then some (c.toNat - 48)
  else if 97 ≤ c.toNat ∧ c.toNat ≤ 102 then some (c.toNat - 87)
  else if 65 ≤ c.toNat ∧ c.toNat ≤ 70 then some (c.toNat - 55)
  else none

/-- Reads hexadecimal digits left to right onto the accumulator. -/
def parseHex : List Char → Nat → Option Nat
  | [], acc => some acc
  | c :: cs, acc =>
    match hexVal c with
    | none => none
    | some d => parseHex cs (acc * 16 + d)

/-- `primitive.ObjectIDFromHex`: fails unless the text is 24 hexadecimal digits. -/
def ObjectIDFromHex (s : String) : Option ObjectID :=
  if s.data.length = 24 then
    match parseHex s.data 0 with
    | none => none
    | some v => if h : v < 2 ^ 96 then some ⟨v, h⟩ else none
  else none

/-! ## Entities (package `entity`, fields as the handlers use them) -/

/-- Processing state of a CADFile: level, bend count, recognition time, serialized features. -/
structure FeatureProps where
  ProcessLevel : Int
  BendCount : Int
  FRETime : Int
  SerialData : List Nat
deriving DecidableEq

/-- One bend of a part: its angle and the tool resolved for it. -/
structure BendFeature where
  Angle : Int
  ToolID : ObjectID
deriving DecidableEq

/-- A geometry artifact pair with its feature metadata. -/
structure CADFile where
  ID : ObjectID
  FileName : String
  StepURL : String
  ObjpURL : String
  Material : String
  Filesize : Int
  CreatedAt : Int
  ProjectID : ObjectID
  FeatureProps : FeatureProps
  BendFeatures : List BendFeature
deriving DecidableEq

/-- The Go zero value of a CADFile (`var cadFile entity.CADFile`). -/
def CADFile.zero : CADFile :=
  ⟨ObjectID.ofNat 0, "", "", "", "", 0, 0, ObjectID.ofNat 0, ⟨0, 0, 0, []⟩, []⟩

/-- Status of a Task. -/
inductive TaskStatus where
  | Processing
  | Complete
deriving DecidableEq

/-- Kind of work a Task asks for. -/
inductive ProcessType where
  | FeatureRecognition
  | ProcessPlanning
deriving DecidableEq

/-- A tracked unit of work. -/
structure Task where
  TaskID : ObjectID
  UserID : ObjectID
  Status : TaskStatus
  ProcessType : List ProcessType
  CADFiles : List String
  Quantity : Int
  ProcessingTime : Int
  CreatedAt : Int
deriving DecidableEq

/-- Output of plan generation. `TotalToolDistance` is only ever copied. -/
structure ProcessingPlan where
  ID : ObjectID
  CADFileID : ObjectID
  Rotations : List Int
  Flips : List Int
  Tools : List Int
  Modules : List Int
  ProcessingTime : Int
  EstimatedManufacturingTime : Int
  TotalToolDistance : Int
  BendingSequences : List Int
  Quantity : Int
  CreatedAt : Int
deriving DecidableEq

/-- A bending tool, looked up by angle. -/
structure Tool where
  ToolID : ObjectID
  Angle : Int
deriving DecidableEq

/-! ## Entity store -/

/-- Persistent records of the four entity kinds. -/
structure Store where
  cadFiles : List CADFile
  tasks : List Task
  plans : List ProcessingPlan
  tools : List Tool
deriving DecidableEq

/-- Replaces the first element satisfying `p`; `none` when there is none. -/
def replaceFirst {α : Type} (p : α → Bool) (new : α) : List α → Option (List α)
  | [] => none
  | x :: xs => if p x then some (new :: xs) else (replaceFirst p new xs).map (fun r => x :: r)

/-- Modelled from the spec: `CadFileService.Find(id)` of the entity store, which is not in the
sources. It decodes the hex id and returns the stored CADFile with that identity; it fails when
the id is malformed or no such record is stored. -/
def CadFileService.Find (s : Store) (id : String) : Option CADFile :=
  match ObjectIDFromHex id with
  | none => none
  | some oid => s.cadFiles.find? (fun c => c.ID = oid)

/-- Modelled from the spec: `CadFileService.FindAll(scopeID)`, the CADFiles of one project in
stored order; it fails when the project id is malformed. -/
def CadFileService.FindAll (s : Store) (projectID : String) : Option (List CADFile) :=
  match ObjectIDFromHex projectID with
  | none => none
  | some pid => some (s.cadFiles.filter (fun c => c.ProjectID = pid))

/-- Modelled from the spec: `CadFileService.Update(record)`, which overwrites the stored record
of the same identity and fails when none is stored. -/
def CadFileService.Update (s : Store) (c : CADFile) : Option Store :=
  (replaceFirst (fun x => x.ID = c.ID) c s.cadFiles).map (fun l => { s with cadFiles := l })

/-- Modelled from the spec: `TaskService.Create`, which adds one Task row. -/
def TaskService.Create (s : Store) (t : Task) : Option Store :=
  some { s with tasks := s.tasks ++ [t] }

/-- Modelled from the spec: `TaskService.Find(id)`, as for CADFiles. -/
def TaskService.Find (s : Store) (id : String) : Option Task :=
  match ObjectIDFromHex id with
  | none => none
  | some oid => s.tasks.find? (fun t => t.TaskID = oid)

/-- Modelled from the spec: `TaskService.Update(record)`, as for CADFiles. -/
def TaskService.Update (s : Store) (t : Task) : Option Store :=
  (replaceFirst (fun x => x.TaskID = t.TaskID) t s.tasks).map (fun l => { s with tasks := l })

/-- Modelled from the spec: `ProcessingPlanService.Create`, which adds one plan row. -/
def ProcessingPlanService.Create (s : Store) (p : ProcessingPlan) : Option Store :=
  some { s with plans := s.plans ++ [p] }

/-- Modelled from the spec: `ProcessingPlanService.Find(cadFileID)`, the stored plan of the
CADFile with the given hex id; it fails when the id is malformed or no plan is stored. -/
def ProcessingPlanService.Find (s : Store) (cadFileID : String) : Option ProcessingPlan :=
  match ObjectIDFromHex cadFileID with
  | none => none
  | some oid => s.plans.find? (fun p => p.CADFileID = oid)

/-- Modelled from the spec: `ToolService.FindByAngle`, the Tool table keyed by bend angle. -/
def ToolService.FindByAngle (s : Store) (angle : Int) : Option Tool :=
  s.tools.find? (fun t => t.Angle = angle)

/-! ## Event contracts (package `contracts`) -/

/-- Outbound request for feature recognition. -/
structure FeatureRecognitionStarted where
  UserID : String
  CADFileID : String
  URL : String
deriving DecidableEq

/-- Outbound request for process planning. -/
structure ProcessPlanningStarted where
  CADFileID : String
  UserID : String
  BendCount : Int
  SerializedData : List Nat
deriving DecidableEq

/-- Events this service emits. -/
inductive OutEvent where
  | featureRecognitionStarted (e : FeatureRecognitionStarted)
  | processPlanningStarted (e : ProcessPlanningStarted)
deriving DecidableEq

/-- Inbound result of feature recognition. -/
structure FeatureRecognitionComplete where
  UserID : String
  CADFileID : String
  TaskID : String
  FeatureProps : FeatureProps
  BendFeatures : List BendFeature
deriving DecidableEq

/-- Inbound result of process planning. -/
structure ProcessPlanningComplete where
  UserID : String
  CADFileID : String
  TaskID : String
  ProcessLevel : Int
  ProcessingPlan : ProcessingPlan
deriving DecidableEq

/-- Events the listener receives, by dynamic type; `other` is any further kind. -/
inductive Event where
  | featureRecognitionComplete (e : FeatureRecognitionComplete)
  | processPlanningComplete (e : ProcessPlanningComplete)
  | other (eventName : String)
deriving DecidableEq

/-! ## Completion handler (`listener/event_listener.go`) -/

/-- A call of the entity store, as `handleEvent` issues it. -/
inductive StoreCall where
  | cadFileFind (id : String)
  | cadFileUpdate (c : CADFile)
  | toolFindByAngle (angle : Int)
  | taskFind (id : String)
  | taskUpdate (t : Task)
  | planCreate (p : ProcessingPlan)
deriving DecidableEq

/-- How `handleEvent` ends: it returns, or `log.Fatalf` stops the consumer process. -/
inductive Outcome where
  | done
  | fatal (msg : String)
deriving DecidableEq

/-- Store contents when `handleEvent` ends, the store calls it made, and how it ended. -/
structure Handled where
  store : Store
  calls : List StoreCall
  outcome : Outcome
deriving DecidableEq

/-- The loop `for i, bend := range cadFile.BendFeatures` of `handleEvent`: every bend gets the id
of the tool found for its angle; `none` when a lookup fails (the first such stops the process). -/
def resolveTools (s : Store) : List BendFeature → Option (List BendFeature)
  | [] => some []
  | bend :: rest =>
    match ToolService.FindByAngle s bend.Angle with
    | none => none
    | some tool => (resolveTools s rest).map (fun r => { bend with ToolID := tool.ToolID } :: r)

/-- The `FindByAngle` calls of that loop, up to and including the first that fails. -/
def toolCalls (s : Store) : List BendFeature → List StoreCall
  | [] => []
  | bend :: rest =>
    .toolFindByAngle bend.Angle ::
      (match ToolService.FindByAngle s bend.Angle with
       | none => []
       | some _ => toolCalls s rest)

/-- `EventProcessor.handleEvent`. `newID` is the value of `primitive.NewObjectID()` and `now`
that of `time.Now().Unix()` in the process planning branch. -/
def handleEvent (newID : ObjectID) (now : Int) (s : Store) : Event → Handled
  | .featureRecognitionComplete e =>
    let c1 := [StoreCall.cadFileFind e.CADFileID]
    match CadFileService.Find s e.CADFileID with
    | none => ⟨s, c1, .fatal "Failed to unmarshal data: "⟩
    | some found =>
      let cadFile := { found with FeatureProps := e.FeatureProps, BendFeatures := e.BendFeatures }
      let c2 := c1 ++ toolCalls s cadFile.BendFeatures
      match resolveTools s cadFile.BendFeatures with
      | none => ⟨s, c2, .fatal "Failed to retrieve tool data: "⟩
      | some bends =>
        let cadFile := { cadFile with BendFeatures := bends }
        let c3 := c2 ++ [.cadFileUpdate cadFile]
        match CadFileService.Update s cadFile with
        | none => ⟨s, c3, .fatal "Failed to update data: "⟩
        | some s1 =>
          let c4 := c3 ++ [.taskFind e.TaskID]
          match TaskService.Find s1 e.TaskID with
          | none => ⟨s1, c4, .fatal "Failed to retrieve task data: "⟩
          | some found =>
            let task :=
              { found with Status := .Complete, ProcessingTime := e.FeatureProps.FRETime }
            let c5 := c4 ++ [.taskUpdate task]
            match TaskService.Update s1 task with
            | none => ⟨s1, c5, .fatal "Failed to update data: "⟩
            | some s2 => ⟨s2, c5, .done⟩
  | .processPlanningComplete e =>
    let c1 := [StoreCall.cadFileFind e.ProcessingPlan.CADFileID.Hex]
    match CadFileService.Find s e.ProcessingPlan.CADFileID.Hex with
    | none => ⟨s, c1, .fatal "Cadfile does not exist "⟩
    | some found =>
      let processingPlan : ProcessingPlan :=
        { ID := newID
          CADFileID := e.ProcessingPlan.CADFileID
          Rotations := e.ProcessingPlan.Rotations
          Flips := e.ProcessingPlan.Flips
          Tools := e.ProcessingPlan.Tools
          Modules := e.ProcessingPlan.Modules
          ProcessingTime := e.ProcessingPlan.ProcessingTime
          EstimatedManufacturingTime := e.ProcessingPlan.EstimatedManufacturingTime
          TotalToolDistance := e.ProcessingPlan.TotalToolDistance
          BendingSequences := e.ProcessingPlan.BendingSequences
          Quantity := e.ProcessingPlan.Quantity
          CreatedAt := now }
      let c2 := c1 ++ [.planCreate processingPlan]
      match ProcessingPlanService.Create s processingPlan with
      | none => ⟨s, c2, .fatal "Failed to save processing plan: "⟩
      | some s1 =>
        let cadFile :=
          { found with FeatureProps := { found.FeatureProps with ProcessLevel := e.ProcessLevel } }
        let c3 := c2 ++ [.cadFileUpdate cadFile]
        match CadFileService.Update s1 cadFile with
        | none => ⟨s1, c3, .fatal "Cadfile update failed "⟩
        | some s2 =>
          let c4 := c3 ++ [.taskFind e.TaskID]
          match TaskService.Find s2 e.TaskID with
          | none => ⟨s2, c4, .fatal "Failed to retrieve task data: "⟩
          | some found =>
            let task :=
              { found with
                Status := .Complete
                ProcessingTime := e.ProcessingPlan.EstimatedManufacturingTime }
            let c5 := c4 ++ [.taskUpdate task]
            match TaskService.Update s2 task with
            | none => ⟨s2, c5, .fatal "Failed to update data: "⟩
            | some s3 => ⟨s3, c5, .done⟩
  | .other _ => ⟨s, [], .done⟩

/-! ## Work dispatcher (`controller/fre-controller.go`) -/

/-- Payload of a reply: `helper.EmptyObj`, a processing plan or a delete count. -/
inductive ResponseData where
  | empty
  | plan (p : ProcessingPlan)
  | count (n : Int)
deriving DecidableEq

/-- The reply body `helper.Response`. -/
structure Response where
  status : Bool
  message : String
  errors : String
  data : ResponseData
deriving DecidableEq

/-- Modelled from the spec: `helper.BuildResponse`, which is not in the sources; a structured
payload with a status flag, a human message and the data. -/
def BuildResponse (status : Bool) (message : String) (data : ResponseData) : Response :=
  ⟨status, message, "", data⟩

/-- Modelled from the spec: `helper.BuildErrorResponse`, which is not in the sources; a
structured failure payload with a human message and a machine detail string. -/
def BuildErrorResponse (message : String) (err : String) (data : ResponseData) : Response :=
  ⟨false, message, err, data⟩

/-- What a dispatch request carries once the router and the token service have run. -/
structure Request where
  /-- Whether `jwtService.GetAuthenticationToken` returned an error. -/
  tokenErr : Bool
  /-- Whether the claims are map claims and the token is valid. -/
  claimsOk : Bool
  /-- The claim `user_id`. -/
  userID : String
  /-- Whether `userService.Profile(id)` returned an error. -/
  profileErr : Bool
  /-- The route variable (`id` for one file, `pid` for a project). -/
  param : String
deriving DecidableEq

/-- What the dispatcher reads from its surroundings. -/
structure DispatchEnv where
  /-- Value of `primitive.NewObjectID()`. -/
  newID : ObjectID
  /-- Value of `time.Now().Unix()`. -/
  now : Int
  /-- The cache key constant `TASKCACHE`, which is not in the sources. -/
  TASKCACHE : String
  /-- Whether `eventEmitter.Emit` succeeds on an event. -/
  emitOk : OutEvent → Bool
  /-- Text of the error of `primitive.ObjectIDFromHex`. -/
  hexError : String

/-- Everything a dispatch handler can change. -/
structure World where
  store : Store
  /-- Events handed to `eventEmitter.Emit`, in order. -/
  emitted : List OutEvent
  /-- Those of them the emitter reported as published. -/
  delivered : List OutEvent
  /-- Keys handed to `persistence.ClearCache`. -/
  cleared : List String
  /-- Status codes given to `w.WriteHeader`, in order. -/
  headers : List Nat
  /-- Bodies encoded onto the reply, in order. -/
  bodies : List Response
deriving DecidableEq

/-- The pair `w.WriteHeader(code)` and `json.NewEncoder(w).Encode(body)`. -/
def World.reply (w : World) (code : Nat) (body : Response) : World :=
  { w with headers := w.headers ++ [code], bodies := w.bodies ++ [body] }

/-- The call `c.eventEmitter.Emit(request)`; its result is dropped by both callers. -/
def World.emit (env : DispatchEnv) (w : World) (e : OutEvent) : World :=
  { w with
    emitted := w.emitted ++ [e]
    delivered := if env.emitOk e then w.delivered ++ [e] else w.delivered }

/-- `freController.ExtractBendFeatures`. -/
def ExtractBendFeatures (env : DispatchEnv) (w : World) (UserID : String) (cadFile : CADFile) :
    World :=
  w.emit env (.featureRecognitionStarted
    { UserID := UserID, CADFileID := cadFile.ID.Hex, URL := cadFile.StepURL })

/-- `freController.GenerateProcessingPlan`. -/
def GenerateProcessingPlan (env : DispatchEnv) (w : World) (UserID : String)
    (cadFile : CADFile) : World :=
  w.emit env (.processPlanningStarted
    { CADFileID := cadFile.ID.Hex
      UserID := UserID
      BendCount := cadFile.FeatureProps.BendCount
      SerializedData := cadFile.FeatureProps.SerialData })

/-- `freController.ProcessCADFile`. -/
def ProcessCADFile (env : DispatchEnv) (w : World) (r : Request) : World :=
  if r.tokenErr then
    w.reply 403 (BuildErrorResponse "Unauthorised" "User not authenticated" .empty)
  else if !r.claimsOk then w
  else
    let id := r.userID
    if r.profileErr then
      w.reply 400 (BuildErrorResponse "Invalid token" "User does not exist" .empty)
    else
      let cadFileID := r.param
      match CadFileService.Find w.store cadFileID with
      | none => w.reply 404 (BuildErrorResponse "Process failed" "CAD file not found" .empty)
      | some cadFile =>
        if cadFile.FeatureProps.ProcessLevel = 0 ∨ cadFile.FeatureProps.ProcessLevel = 1 then
          match ObjectIDFromHex id with
          | none => w.reply 500 (BuildErrorResponse "Process failed" env.hexError .empty)
          | some uid =>
            let task : Task :=
              { TaskID := env.newID
                UserID := uid
                Status := .Processing
                ProcessType := []
                CADFiles := [cadFile.FileName]
                Quantity := 1
                ProcessingTime := 0
                CreatedAt := env.now }
            let (res, w1, task) :=
              if cadFile.FeatureProps.ProcessLevel = 0 then
                (BuildResponse true "Feature recognition started" .empty,
                  ExtractBendFeatures env w id cadFile,
                  { task with ProcessType := task.ProcessType ++ [.FeatureRecognition] })
              else if cadFile.FeatureProps.ProcessLevel = 1 then
                (BuildResponse true "Process planning started" .empty,
                  GenerateProcessingPlan env w id cadFile,
                  { task with ProcessType := task.ProcessType ++ [.ProcessPlanning] })
              else ((⟨false, "", "", .empty⟩ : Response), w, task)
            match TaskService.Create w1.store task with
            | none =>
              w1.reply 500 (BuildErrorResponse "Failed to process request" "" .empty)
            | some st =>
              World.reply { w1 with store := st, cleared := w1.cleared ++ [env.TASKCACHE] } 200 res
        else
          match ProcessingPlanService.Find w.store cadFileID with
          | none =>
            w.reply 404 (BuildErrorResponse "Process failed" "Processing plan not found" .empty)
          | some processingPlan =>
            w.reply 200
              (BuildResponse true "CAD file has been fully processed" (.plan processingPlan))

/-- Loop state of `BatchProcessCADFiles`: the world, the task under construction and the two
counters `freNum` and `ppNum`. -/
structure BatchState where
  world : World
  task : Task
  freNum : Int
  ppNum : Int

/-- One iteration of `for _, cadFile := range cadFiles` in `BatchProcessCADFiles`. -/
def batchStep (env : DispatchEnv) (id : String) (b : BatchState) (cadFile : CADFile) :
    BatchState :=
  let b1 : BatchState :=
    if cadFile.FeatureProps.ProcessLevel = 0 then
      let res := BuildResponse true ("Feature recognition started: " ++ cadFile.FileName) .empty
      let w1 := ExtractBendFeatures env b.world id cadFile
      { world := { w1 with bodies := w1.bodies ++ [res] }
        task := { b.task with ProcessType := b.task.ProcessType ++ [.FeatureRecognition] }
        freNum := b.freNum + 1
        ppNum := b.ppNum }
    else if cadFile.FeatureProps.ProcessLevel = 1 then
      let res := BuildResponse true ("Process planning started: " ++ cadFile.FileName) .empty
      let w1 := GenerateProcessingPlan env b.world id cadFile
      { world := { w1 with bodies := w1.bodies ++ [res] }
        task := { b.task with ProcessType := b.task.ProcessType ++ [.ProcessPlanning] }
        freNum := b.freNum
        ppNum := b.ppNum + 1 }
    else b
  { b1 with task := { b1.task with CADFiles := b1.task.CADFiles ++ [cadFile.FileName] } }

/-- `freController.BatchProcessCADFiles`. -/
def BatchProcessCADFiles (env : DispatchEnv) (w : World) (r : Request) : World :=
  if r.tokenErr then
    w.reply 403 (BuildErrorResponse "Unauthorised" "User not authenticated" .empty)
  else if !r.claimsOk then w
  else
    let id := r.userID
    if r.profileErr then
      w.reply 400 (BuildErrorResponse "Invalid token" "User does not exist" .empty)
    else
      let projectID := r.param
      match CadFileService.FindAll w.store projectID with
      | none => w.reply 404 (BuildErrorResponse "Process failed" "CAD file not found" .empty)
      | some cadFiles =>
        match ObjectIDFromHex id with
        | none => w.reply 500 (BuildErrorResponse "Process failed" env.hexError .empty)
        | some uid =>
          let task : Task :=
            { TaskID := env.newID
              UserID := uid
              Status := .Processing
              ProcessType := [.FeatureRecognition, .ProcessPlanning]
              CADFiles := []
              Quantity := 0
              ProcessingTime := 0
              CreatedAt := env.now }
          let b := cadFiles.foldl (batchStep env id) ⟨w, task, 0, 0⟩
          if b.ppNum > 0 ∨ b.freNum > 0 then
            -- `task.Quantity = int64(ppNum) + int64(freNum)` is set, then the handler returns
            b.world
          else
            match TaskService.Create b.world.store b.task with
            | none =>
              b.world.reply 500 (BuildErrorResponse "Failed to process request" "" .empty)
            | some st =>
              World.reply { b.world with store := st, cleared := b.world.cleared ++ [env.TASKCACHE] }
                200 (BuildResponse true "Process planning strted." .empty)

/-! ## Upload pairing (`controller/project-controller.go`) -/

/-- Scan of `filepath.Ext` over the reversed path: `acc` holds the characters passed so far. -/
def extScan : List Char → List Char → List Char
  | [], _ => []
  | c :: cs, acc =>
    if c = '/' then [] else if c = '.' then '.' :: acc else extScan cs (c :: acc)

/-- `filepath.Ext`: the suffix from the last dot of the last path element, or nothing. -/
def filepathExt (path : String) : String :=
  ⟨extScan path.data.reverse []⟩

/-- `filepath.Base`: the last element of the path, trailing slashes removed. -/
def filepathBase (path : String) : String :=
  if path.data = [] then "."
  else
    let last := ((path.data.reverse.dropWhile (fun c => c = '/')).takeWhile
      (fun c => c ≠ '/')).reverse
    if last = [] then "/" else ⟨last⟩

/-- Modelled from the spec: `helper.FileNameWithoutExtSlice`, which is not in the sources; the
base filename, that is the name stripped of its extension. -/
def FileNameWithoutExtSlice (fileName : String) : String :=
  ⟨fileName.data.take (fileName.data.length - (filepathExt fileName).data.length)⟩

/-- Reads decimal digits left to right onto the accumulator. -/
def parseDigits : List Char → Nat → Option Nat
  | [], acc => some acc
  | c :: cs, acc =>
    if 48 ≤ c.toNat ∧ c.toNat ≤ 57 then parseDigits cs (acc * 10 + (c.toNat - 48)) else none

/-- An unsigned digit string as a number; `none` when empty or not all digits. -/
def parseUnsigned (ds : List Char) : Option Nat :=
  if ds = [] then none else parseDigits ds 0

/-- The value left by `n, _ = strconv.ParseInt(s, 10, 64)`: the number read, the nearest
64 bit bound when it is out of range, and 0 when the text is not a number. -/
def ParseInt (s : String) : Int :=
  let clamp (v : Int) : Int :=
    if v > 2 ^ 63 - 1 then 2 ^ 63 - 1 else if v < -(2 ^ 63) then -(2 ^ 63) else v
  match s.data with
  | '-' :: ds => match parseUnsigned ds with
    | none => 0
    | some v => clamp (-(v : Int))
  | '+' :: ds => match parseUnsigned ds with
    | none => 0
    | some v => clamp v
  | ds => match parseUnsigned ds with
    | none => 0
    | some v => clamp v

/-- A Go map with string keys, as an association list read from the front. -/
abbrev GoMap (β : Type) := List (String × β)

/-- Map read `m[k]` with the presence flag. -/
def GoMap.get {β : Type} (m : GoMap β) (k : String) : Option β :=
  match m with
  | [] => none
  | (k1, v) :: rest => if k1 = k then some v else GoMap.get rest k

/-- Map write `m[k] = v`. -/
def GoMap.set {β : Type} (m : GoMap β) (k : String) (v : β) : GoMap β :=
  (k, v) :: m

/-- Map removal `delete(m, k)`. -/
def GoMap.delete {β : Type} (m : GoMap β) (k : String) : GoMap β :=
  m.filter (fun e => e.1 ≠ k)

/-- The header of an uploaded part. -/
structure FileHeader where
  Filename : String
  Size : Int
deriving DecidableEq

/-- The step of handling one part at which the file system or the store fails. -/
inductive Fault where
  /-- `fileHeader.Open()`. -/
  | openPart
  /-- `file.Read(buff)`, for instance on an empty part. -/
  | readPart
  /-- `file.Seek(0, io.SeekStart)`. -/
  | seekPart
  /-- `os.Create`. -/
  | createFile
  /-- `io.Copy`. -/
  | copyFile
  /-- `cadFileService.Create` or `cadFileService.Update`. -/
  | storeWrite
deriving DecidableEq

/-- One uploaded part together with what its loop iteration reads from the surroundings. -/
structure UploadPart where
  header : FileHeader
  /-- The operation that fails while this part is handled, if any. -/
  fault : Option Fault
  /-- Value of `time.Now().UnixNano()`. -/
  nowNano : Int
  /-- Value of `primitive.NewObjectID()`. -/
  newID : ObjectID
  /-- Value of `time.Now().Unix()`. -/
  nowUnix : Int
deriving DecidableEq

/-- The upload request after routing. -/
structure UploadRequest where
  /-- Whether `r.ParseMultipartForm` fails. -/
  parseErr : Bool
  /-- The parts `r.MultipartForm.File["file"]`. -/
  files : List UploadPart
  /-- The values `r.MultipartForm.Value["material"]`. -/
  material : List String
deriving DecidableEq

/-- The error value `uploadHandler` returns. -/
inductive UploadError where
  /-- An error built by `fmt.Errorf`. -/
  | message (text : String)
  /-- The error of a failed file system or store operation, passed on. -/
  | cause (f : Fault)
  /-- The error of `r.ParseMultipartForm`. -/
  | parse
deriving DecidableEq

/-- How `uploadHandler` ends. -/
inductive UploadResult where
  | ok (uploadedFiles : List CADFile)
  | error (e : UploadError)
  /-- Index out of range at run time. -/
  | panic
deriving DecidableEq

/-- Locals and effects of `uploadHandler`. -/
structure UploadState where
  tempCache : GoMap String
  fileCache : GoMap CADFile
  uploadedFiles : List CADFile
  /-- Paths of the files `os.Create` made, in order. -/
  written : List String
  /-- Records stored by `cadFileService.Create`, in order. -/
  created : List CADFile
  /-- Records stored by `cadFileService.Update`, in order. -/
  updated : List CADFile
deriving DecidableEq

/-- State at entry of `uploadHandler`. -/
def UploadState.init : UploadState :=
  ⟨[], [], [], [], [], []⟩

/-- Whether the extension is a step format one. -/
def isStepExt (ext : String) : Bool :=
  ext = ".stp" ∨ ext = ".step"

/-- The file path `fmt.Sprintf(projectFolder+"/%d%s", newName, ext)`; `projectFolder` is built
from hex ids by the caller and holds no formatting verb. -/
def uploadPath (projectFolder : String) (newName : Int) (ext : String) : String :=
  projectFolder ++ "/" ++ toString newName ++ ext

/-- One iteration of `for _, fileHeader := range files` in `uploadHandler`; the second component
is the error on which the handler returns, if any. -/
def uploadStep (MaxUploadSize : Int) (projectFolder : String) (material : String)
    (id : ObjectID) (s : UploadState) (p : UploadPart) : UploadState × Option UploadError :=
  let fileHeader := p.header
  if fileHeader.Size > MaxUploadSize then
    (s, some (.message ("The uploaded image is too big: " ++ fileHeader.Filename ++
      ". Please use an image less than 1MB in size")))
  else
    let ext := filepathExt fileHeader.Filename
    if ext ≠ ".stp" ∧ ext ≠ ".step" ∧ ext ≠ ".obj" then
      (s, some (.message ("The provided file format is not allowed. " ++ ext)))
    else if p.fault = some .openPart then (s, some (.cause .openPart))
    else if p.fault = some .readPart then (s, some (.cause .readPart))
    else if p.fault = some .seekPart then (s, some (.cause .seekPart))
    else
      let filename := FileNameWithoutExtSlice fileHeader.Filename
      let (newName, processed) :=
        match s.tempCache.get filename with
        | some key => (ParseInt key, true)
        | none => (p.nowNano, false)
      if p.fault = some .createFile then (s, some (.cause .createFile))
      else
        let fName := uploadPath projectFolder newName (filepathExt fileHeader.Filename)
        let s := { s with written := s.written ++ [fName] }
        if p.fault = some .copyFile then (s, some (.cause .copyFile))
        else if processed = false then
          let tempCache := s.tempCache.set filename (FileNameWithoutExtSlice (filepathBase fName))
          let cadFile : CADFile :=
            { CADFile.zero with
              ID := p.newID
              FileName := filename ++ ".stp"
              StepURL := if isStepExt ext then fName else ""
              ObjpURL := if isStepExt ext then "" else fName
              Material := material
              Filesize := fileHeader.Size
              CreatedAt := p.nowUnix
              ProjectID := id }
          let fileCache := s.fileCache.set ((tempCache.get filename).getD "") cadFile
          let s := { s with tempCache := tempCache, fileCache := fileCache }
          if p.fault = some .storeWrite then (s, some (.cause .storeWrite))
          else ({ s with created := s.created ++ [cadFile] }, none)
        else
          let fl := (s.tempCache.get filename).getD ""
          let cadFile := (s.fileCache.get fl).getD CADFile.zero
          let cadFile :=
            if isStepExt ext then { cadFile with StepURL := fName }
            else { cadFile with ObjpURL := fName }
          if p.fault = some .storeWrite then (s, some (.cause .storeWrite))
          else
            ({ s with
               updated := s.updated ++ [cadFile]
               uploadedFiles := s.uploadedFiles ++ [cadFile]
               tempCache := s.tempCache.delete filename }, none)

/-- The loop `for _, fileHeader := range files`: it stops at the first error. -/
def uploadLoop (MaxUploadSize : Int) (projectFolder : String) (material : String)
    (id : ObjectID) : UploadState → List UploadPart → UploadState × Option UploadError
  | s, [] => (s, none)
  | s, p :: rest =>
    match uploadStep MaxUploadSize projectFolder material id s p with
    | (s1, some e) => (s1, some e)
    | (s1, none) => uploadLoop MaxUploadSize projectFolder material id s1 rest

/-- `controller.uploadHandler`. The balance check `helper.UploadBalanced` and the constant
`MaxUploadSize` are not in the sources and are taken as parameters. -/
def uploadHandler (UploadBalanced : List FileHeader → Bool) (MaxUploadSize : Int)
    (r : UploadRequest) (projectFolder : String) (id : ObjectID) :
    UploadState × UploadResult :=
  let s := UploadState.init
  if r.parseErr then (s, .error .parse)
  else
    let files := r.files
    match r.material with
    | [] => (s, .panic)
    | material :: _ =>
      let nFiles := files.length
      if nFiles = 0 then (s, .error (.message "Select a file(s) to upload"))
      else if nFiles % 2 ≠ 0 then
        (s, .error (.message "Each STEP file must be uploaded with its corresponding obj file"))
      else if !UploadBalanced (files.map (fun p => p.header)) then
        (s, .error (.message
          "Unbalanced: Each STEP file must be uploaded with its corresponding obj file"))
      else
        match uploadLoop MaxUploadSize projectFolder material id s files with
        | (s1, some e) => (s1, .error e)
        | (s1, none) => (s1, .ok s1.uploadedFiles)

/-! ## Vocabulary of the upload claims -/

/-- The extensions `uploadHandler` accepts. -/
def acceptedExt (ext : String) : Prop :=
  ext = ".stp" ∨ ext = ".step" ∨ ext = ".obj"

instance (ext : String) : Decidable (acceptedExt ext) := by
  unfold acceptedExt
  infer_instance

/-- Extension of a part. -/
def partExt (p : UploadPart) : String :=
  filepathExt p.header.Filename

/-- Base filename of a part: its name stripped of the extension. -/
def baseName (p : UploadPart) : String :=
  FileNameWithoutExtSlice p.header.Filename

/-- The storage key a part gets when it is the first of its base filename. -/
def storageKey (projectFolder : String) (p : UploadPart) : String :=
  FileNameWithoutExtSlice (filepathBase (uploadPath projectFolder p.nowNano (partExt p)))

/-- The record `uploadHandler` creates for a part that is the first of its base filename. -/
def firstRecord (projectFolder : String) (material : String) (id : ObjectID) (p : UploadPart) :
    CADFile :=
  { CADFile.zero with
    ID := p.newID
    FileName := baseName p ++ ".stp"
    StepURL :=
      if isStepExt (partExt p) then uploadPath projectFolder p.nowNano (partExt p) else ""
    ObjpURL :=
      if isStepExt (partExt p) then "" else uploadPath projectFolder p.nowNano (partExt p)
    Material := material
    Filesize := p.header.Size
    CreatedAt := p.nowUnix
    ProjectID := id }

/-- The record `uploadHandler` passes to Update for a part whose base filename is in
`tempCache`: the cached record with the location of this part's format filled in. -/
def secondRecord (projectFolder : String) (s : UploadState) (p : UploadPart) : CADFile :=
  let fl := (s.tempCache.get (baseName p)).getD ""
  let cadFile := (s.fileCache.get fl).getD CADFile.zero
  if isStepExt (partExt p) then
    { cadFile with StepURL := uploadPath projectFolder (ParseInt fl) (partExt p) }
  else { cadFile with ObjpURL := uploadPath projectFolder (ParseInt fl) (partExt p) }

/-- Number of parts with base filename `b` and of step format (`k = true`) or not. -/
def formatCount (b : String) (k : Bool) (ps : List UploadPart) : Nat :=
  ps.countP (fun q => decide (baseName q = b) && (isStepExt (partExt q) == k))

/-- A request made of matched pairs: every part has an accepted extension, and its base filename
occurs on exactly one step format part and exactly one mesh part. -/
def MatchedPairs (files : List UploadPart) : Prop :=
  ∀ p ∈ files, acceptedExt (partExt p) ∧
    formatCount (baseName p) true files = 1 ∧ formatCount (baseName p) false files = 1

instance (files : List UploadPart) : Decidable (MatchedPairs files) := by
  unfold MatchedPairs
  infer_instance

/-- A sample value for the parameter `UploadBalanced`, used where a statement is evaluated at a
concrete request: it accepts the parts when every base filename has as many step format parts
as mesh parts. `helper.UploadBalanced` itself is not in the sources, and no statement about
every request depends on its being this function. -/
def stepObjBalanced (files : List FileHeader) : Bool :=
  files.all (fun f =>
    (files.countP (fun g => decide (FileNameWithoutExtSlice g.Filename =
        FileNameWithoutExtSlice f.Filename) && isStepExt (filepathExt g.Filename))) =
    (files.countP (fun g => decide (FileNameWithoutExtSlice g.Filename =
        FileNameWithoutExtSlice f.Filename) && !isStepExt (filepathExt g.Filename))))

/-- A part with the given name, size, clock reading and fresh id, handled without fault. -/
def samplePart (name : String) (size : Int) (nano : Int) (n : Nat) : UploadPart :=
  ⟨⟨name, size⟩, none, nano, ObjectID.ofNat n, 1700000000⟩

/-- The error `uploadHandler` returns on a part over the size ceiling or of a wrong extension;
the size is checked first. -/
def partRejection (MaxUploadSize : Int) (p : UploadPart) : UploadError :=
  if p.header.Size > MaxUploadSize then
    .message ("The uploaded image is too big: " ++ p.header.Filename ++
      ". Please use an image less than 1MB in size")
  else .message ("The provided file format is not allowed. " ++ partExt p)

/-- The state of the pairing when the parts `ps` are still to be handled: their storage keys
are pairwise distinct and differ from the keys in `tempCache`; a base filename outside
`tempCache` has no part left or one of each format; a base filename in `tempCache` has exactly
one part left, and the cached record holds the location of the other format. -/
def PairingInv (projectFolder : String) (s : UploadState) (ps : List UploadPart) : Prop :=
  (ps.map (storageKey projectFolder)).Nodup ∧
  (∀ b k, s.tempCache.get b = some k → k ∉ ps.map (storageKey projectFolder)) ∧
  (∀ b, s.tempCache.get b = none →
    formatCount b true ps = formatCount b false ps ∧ formatCount b true ps ≤ 1) ∧
  (∀ b k, s.tempCache.get b = some k → ∃ c, s.fileCache.get k = some c ∧
    ((formatCount b true ps = 1 ∧ formatCount b false ps = 0 ∧ c.ObjpURL ≠ "") ∨
      (formatCount b true ps = 0 ∧ formatCount b false ps = 1 ∧ c.StepURL ≠ "")))

/-- The request `part.stp`, `part.obj`, `bracket.stp`, `bracket.obj` with one material value. -/
def sampleUpload : UploadRequest :=
  ⟨false, [samplePart "part.stp" 10 100 1, samplePart "part.obj" 10 101 2,
    samplePart "bracket.stp" 10 102 3, samplePart "bracket.obj" 10 103 4], ["steel"]⟩

/-- Value of a decimal digit string given least significant digit first. -/
def decodeRev : List Char → Nat
  | [] => 0
  | c :: cs => (c.toNat - 48) + 10 * decodeRev cs

/-! ## Sample data -/

/-- A user id. -/
def sampleUser : ObjectID := ObjectID.ofNat 0x5f1b2c3d4e5f60718293a4b5

/-- A stored CADFile of project `b1` at the given processing level. -/
def sampleCad (level : Int) : CADFile :=
  { ID := ObjectID.ofNat 0xa1
    FileName := "part.stp"
    StepURL := "/uploads/100.stp"
    ObjpURL := "/uploads/100.obj"
    Material := "steel"
    Filesize := 10
    CreatedAt := 1
    ProjectID := ObjectID.ofNat 0xb1
    FeatureProps := ⟨level, 2, 0, [1, 2]⟩
    BendFeatures := [] }

/-- A stored plan of the sample CADFile. -/
def samplePlan : ProcessingPlan :=
  { ID := ObjectID.ofNat 0xd1
    CADFileID := ObjectID.ofNat 0xa1
    Rotations := [1]
    Flips := [0]
    Tools := [3]
    Modules := [4]
    ProcessingTime := 5
    EstimatedManufacturingTime := 60
    TotalToolDistance := 7
    BendingSequences := [1, 2]
    Quantity := 2
    CreatedAt := 9 }

/-- Surroundings of a dispatch in which every emission succeeds. -/
def sampleEnv : DispatchEnv :=
  ⟨ObjectID.ofNat 0xc1, 1700000000, "tasks", fun _ => true, "invalid hex"⟩

/-- A world whose store holds the sample CADFile and the given plans, before any reply. -/
def sampleWorld (level : Int) (plans : List ProcessingPlan) : World :=
  ⟨⟨[sampleCad level], [], plans, []⟩, [], [], [], [], []⟩

/-- An authenticated request of the sample user for the id `target`. -/
def sampleRequest (target : ObjectID) : Request :=
  ⟨false, true, sampleUser.Hex, false, target.Hex⟩

/-- How a resolved bend relates to the bend of the event: same angle, and the tool id of the
tool the store returns for that angle. -/
def Resolved (s : Store) (b r : BendFeature) : Prop :=
  r.Angle = b.Angle ∧ ∃ tool, ToolService.FindByAngle s b.Angle = some tool ∧ r.ToolID = tool.ToolID

/-- A Task in progress for the sample CADFile. -/
def sampleTask : Task :=
  { TaskID := ObjectID.ofNat 0xe1
    UserID := sampleUser
    Status := .Processing
    ProcessType := [.FeatureRecognition]
    CADFiles := ["part.stp"]
    Quantity := 1
    ProcessingTime := 0
    CreatedAt := 3 }

/-- A store with the sample CADFile at the given level, the sample Task and two tools. -/
def sampleStore (level : Int) : Store :=
  { cadFiles := [sampleCad level]
    tasks := [sampleTask]
    plans := []
    tools := [⟨ObjectID.ofNat 0xf1, 90⟩, ⟨ObjectID.ofNat 0xf2, 45⟩] }

/-- A feature recognition result for the sample CADFile with two bends. -/
def sampleRecognition : FeatureRecognitionComplete :=
  { UserID := "5f1b2c3d4e5f60718293a4b5"
    CADFileID := "0000000000000000000000a1"
    TaskID := "0000000000000000000000e1"
    FeatureProps := ⟨1, 2, 17, [9, 9]⟩
    BendFeatures := [⟨45, ObjectID.ofNat 0⟩, ⟨90, ObjectID.ofNat 0⟩] }

/-- A process planning result for the sample CADFile. -/
def samplePlanning : ProcessPlanningComplete :=
  { UserID := "5f1b2c3d4e5f60718293a4b5"
    CADFileID := "0000000000000000000000a1"
    TaskID := "0000000000000000000000e1"
    ProcessLevel := 2
    ProcessingPlan := samplePlan }

/-! ## Consumer loop and vocabulary of the later claims -/

/-- What the consumer loop of `ProcessEvents` takes from its two channels: an event, with the
values of `primitive.NewObjectID()` and `time.Now().Unix()` its handling reads, or an error. -/
inductive Delivery where
  | received (newID : ObjectID) (now : Int) (evt : Event)
  | failed (err : String)
deriving DecidableEq

/-- `EventProcessor.ProcessEvents` after `Listen` has succeeded, on the deliveries that arrive:
an event is handled, an error is only printed, and a fatal log ends the process with the store
as it is then. -/
def ProcessEvents : Store → List Delivery → Store
  | s, [] => s
  | s, .failed _ :: rest => ProcessEvents s rest
  | s, .received newID now evt :: rest =>
    match (handleEvent newID now s evt).outcome with
    | .done => ProcessEvents (handleEvent newID now s evt).store rest
    | .fatal _ => (handleEvent newID now s evt).store

/-- Whether an event is a ProcessPlanningComplete whose plan is for the CADFile `cad`. -/
def isPlanningFor (cad : ObjectID) : Event → Bool
  | .processPlanningComplete e => e.ProcessingPlan.CADFileID = cad
  | _ => false

/-- Number of stored ProcessingPlans of the CADFile `cad`. -/
def planCount (s : Store) (cad : ObjectID) : Nat :=
  s.plans.countP (fun p => p.CADFileID = cad)

/-- Number of deliveries that are ProcessPlanningComplete events for the CADFile `cad`. -/
def planningDeliveries (cad : ObjectID) (ds : List Delivery) : Nat :=
  ds.countP (fun d =>
    match d with
    | .received _ _ evt => isPlanningFor cad evt
    | .failed _ => false)

/-- The naming half of the pairing state: every base filename in `tempCache` leads, through
its storage key, to a cached record named by that base filename followed by ".stp". -/
def NamesInv (s : UploadState) : Prop :=
  ∀ b k, s.tempCache.get b = some k →
    ∃ c, s.fileCache.get k = some c ∧ c.FileName = b ++ ".stp"

/-- The loop state after the parts `part.stp` and `bracket.obj`. -/
def sampleAfterFirst : UploadState :=
  (uploadLoop 1048576 "/uploads/u/p" "steel" (ObjectID.ofNat 0xb1) UploadState.init
    [samplePart "part.stp" 10 100 1, samplePart "bracket.obj" 10 101 2]).1


/-! ## CAD file deletion (`controller/project-controller.go`) -/

/-- How a handler run ends: it returns, or it calls `Error()` on a nil error value. -/
inductive Completion where
  | returned
  | nilError
deriving DecidableEq

/-- A run of `DeleteCADFile`: the world it leaves, the paths handed to `helper.DeleteFile` in
order, and how the run ended. -/
structure DeleteRun where
  world : World
  removed : List String
  completion : Completion
deriving DecidableEq

/-- `controller.DeleteCADFile`. The calls `processingPlanService.Delete` and
`cadFileService.Delete` are not in the sources; they are the parameters `planDelete` and
`cadFileDelete`, giving the store after the call, the delete count and the error, `none` for
a nil error. -/
def DeleteCADFile (planDelete cadFileDelete : Store → String → Store × Int × Option String)
    (w : World) (r : Request) : DeleteRun :=
  if r.tokenErr then
    ⟨w.reply 403 (BuildErrorResponse "Unauthorised" "User not authenticated" .empty), [],
      .returned⟩
  else if !r.claimsOk then ⟨w, [], .returned⟩
  else
    let id := r.param
    match CadFileService.Find w.store id with
    | none =>
      ⟨w.reply 404 (BuildErrorResponse "Process failed" "CAD file not found" .empty), [],
        .returned⟩
    | some cadFile =>
      match planDelete w.store id with
      | (s1, _, some e) =>
        ⟨World.reply { w with store := s1 } 404
          (BuildErrorResponse "Processing plan deletion failed" e .empty), [], .returned⟩
      | (s1, _, none) =>
        match cadFileDelete s1 id with
        | (s2, _, some e) =>
          ⟨World.reply { w with store := s2 } 404
            (BuildErrorResponse "Process failed" e .empty), [], .returned⟩
        | (s2, deleteCount, err@none) =>
          if 0 = deleteCount then
            match err with
            | none => ⟨{ w with store := s2 }, [], .nilError⟩
            | some e =>
              ⟨World.reply { w with store := s2 } 404
                (BuildErrorResponse "File not found: " e .empty), [], .returned⟩
          else
            ⟨World.reply { w with store := s2 } 200
              (BuildResponse true "OK!" (.count deleteCount)),
              [cadFile.StepURL, cadFile.ObjpURL], .returned⟩

/-- A store call that deletes nothing and reports a count of 0 without error. -/
def deleteNothing (s : Store) (_ : String) : Store × Int × Option String :=
  (s, 0, none)


/-! ## Registration checks (`controller/auth-controller.go`) -/

/-- The pattern handed to `regexp.MustCompile` in `isEmailValid`. -/
def emailPattern : String :=
  "^[a-zA-Z0-9.!#$%&\x27*+\\/=?^_\x60\x7b|\x7d~-]+@[a-zA-Z0-9](?:[a-zA-Z0-9-]\x7b0,61\x7d[a-zA-Z0-9])?(?:\\.[a-zA-Z0-9](?:[a-zA-Z0-9-]\x7b0,61\x7d[a-zA-Z0-9])?)*$"

/-- `net.MX`, a mail exchanger record. -/
structure MX where
  Host : String
  Pref : Nat
deriving DecidableEq

/-- Pieces of a character list between occurrences of `sep`. -/
def splitChars (sep : Char) : List Char → List (List Char)
  | [] => [[]]
  | c :: cs =>
    if c = sep then [] :: splitChars sep cs
    else
      match splitChars sep cs with
      | [] => [[c]]
      | p :: ps => (c :: p) :: ps

/-- `strings.Split` for a separator of one character. -/
def Split (s : String) (sep : Char) : List String :=
  (splitChars sep s.data).map String.mk

/-- `isEmailValid`. The matcher of package `regexp` and the resolver call `net.LookupMX` are
parameters: `MatchString pattern text` is `regexp.MustCompile(pattern).MatchString(text)`, and
`LookupMX host` is the list of records, `none` when the lookup returns an error. The result is
`none` when the index `parts[1]` is out of range. -/
def isEmailValid (MatchString : String → String → Bool) (LookupMX : String → Option (List MX))
    (email : String) : Option Bool :=
  if email.utf8ByteSize < 5 ∧ email.utf8ByteSize > 254 then some false
  else if !MatchString emailPattern email then some false
  else
    let parts := Split email '@'
    match parts[1]? with
    | none => none
    | some host =>
      match LookupMX host with
      | none => some false
      | some mx => if mx.length = 0 then some false else some true

/-- The four flags `isPasswordValid` sets while it ranges over the characters. -/
structure PasswordFlags where
  hasUpper : Bool
  hasLower : Bool
  hasNumber : Bool
  hasSpecial : Bool
deriving DecidableEq

/-- The `switch` in the loop of `isPasswordValid`: the first class the character is in sets its
flag. The five predicates of package `unicode` are parameters. -/
def passwordStep (IsUpper IsLower IsNumber IsPunct IsSymbol : Char → Bool)
    (flags : PasswordFlags) (char : Char) : PasswordFlags :=
  if IsUpper char then { flags with hasUpper := true }
  else if IsLower char then { flags with hasLower := true }
  else if IsNumber char then { flags with hasNumber := true }
  else if IsPunct char || IsSymbol char then { flags with hasSpecial := true }
  else flags

/-- `isPasswordValid`. -/
def isPasswordValid (IsUpper IsLower IsNumber IsPunct IsSymbol : Char → Bool) (s : String) :
    Bool :=
  let hasMinLen := decide (s.utf8ByteSize ≥ 7)
  let flags := s.data.foldl (passwordStep IsUpper IsLower IsNumber IsPunct IsSymbol)
    ⟨false, false, false, false⟩
  hasMinLen && flags.hasUpper && flags.hasLower && flags.hasNumber && flags.hasSpecial

/-- The ASCII part of `unicode.IsUpper`. -/
def asciiUpper (c : Char) : Bool :=
  decide (65 ≤ c.toNat ∧ c.toNat ≤ 90)

/-- The ASCII part of `unicode.IsLower`. -/
def asciiLower (c : Char) : Bool :=
  decide (97 ≤ c.toNat ∧ c.toNat ≤ 122)

/-- The ASCII part of `unicode.IsNumber`. -/
def asciiNumber (c : Char) : Bool :=
  decide (48 ≤ c.toNat ∧ c.toNat ≤ 57)

/-- The ASCII part of `unicode.IsPunct`. -/
def asciiPunct (c : Char) : Bool :=
  decide (c.toNat ∈ [33, 34, 35, 37, 38, 39, 40, 41, 42, 44, 45, 46, 47, 58, 59, 63, 64, 91, 92,
    93, 95, 123, 125])

/-- The ASCII part of `unicode.IsSymbol`. -/
def asciiSymbol (c : Char) : Bool :=
  decide (c.toNat ∈ [36, 43, 60, 61, 62, 94, 96, 124, 126])


/-! ## Vocabulary of the completion claims -/

/-- The record `handleEvent` passes to `CadFileService.Update` for a process planning result:
the record found, with the process level of the event. -/
def plannedCadFile (found : CADFile) (e : ProcessPlanningComplete) : CADFile :=
  { found with FeatureProps := { found.FeatureProps with ProcessLevel := e.ProcessLevel } }

/-- The plan `handleEvent` passes to `ProcessingPlanService.Create`. -/
def createdPlan (newID : ObjectID) (now : Int) (e : ProcessPlanningComplete) : ProcessingPlan :=
  { ID := newID
    CADFileID := e.ProcessingPlan.CADFileID
    Rotations := e.ProcessingPlan.Rotations
    Flips := e.ProcessingPlan.Flips
    Tools := e.ProcessingPlan.Tools
    Modules := e.ProcessingPlan.Modules
    ProcessingTime := e.ProcessingPlan.ProcessingTime
    EstimatedManufacturingTime := e.ProcessingPlan.EstimatedManufacturingTime
    TotalToolDistance := e.ProcessingPlan.TotalToolDistance
    BendingSequences := e.ProcessingPlan.BendingSequences
    Quantity := e.ProcessingPlan.Quantity
    CreatedAt := now }

/-- The record `handleEvent` passes to `TaskService.Update`: the Task found, complete, with the
given processing time. -/
def completedTask (found : Task) (processingTime : Int) : Task :=
  { found with Status := .Complete, ProcessingTime := processingTime }


/-! ## Effects of the batch dispatcher in program order -/

/-- One effect of a dispatch handler on its surroundings. -/
inductive Effect where
  /-- `c.eventEmitter.Emit(request)`. -/
  | emit (e : OutEvent)
  /-- `json.NewEncoder(w).Encode(res)`. -/
  | encode (body : Response)
  /-- `w.WriteHeader(code)`. -/
  | writeHeader (code : Nat)
  /-- `c.taskService.Create(&task)`. -/
  | taskCreate (t : Task)
  /-- `go persistence.ClearCache(key)`. -/
  | clearCache (key : String)
deriving DecidableEq

/-- What an effect does to the world. -/
def Effect.apply (env : DispatchEnv) (w : World) : Effect → World
  | .emit e => w.emit env e
  | .encode body => { w with bodies := w.bodies ++ [body] }
  | .writeHeader code => { w with headers := w.headers ++ [code] }
  | .taskCreate t =>
    match TaskService.Create w.store t with
    | none => w
    | some st => { w with store := st }
  | .clearCache key => { w with cleared := w.cleared ++ [key] }

/-- The event of an effect that is an emission. -/
def Effect.emitted : Effect → Option OutEvent
  | .emit e => some e
  | _ => none

theorem hexVal_hexChar (d : Nat) (h : d < 16) : hexVal (hexChar d) = some d := by
  interval_cases d <;> decide

theorem parseHex_append (xs : List Char) (c : Char) (acc : Nat) :
    parseHex (xs ++ [c]) acc =
      (parseHex xs acc).bind (fun a => (hexVal c).map (fun d => a * 16 + d)) := by
  induction xs generalizing acc with
  | nil =>
    simp only [List.nil_append, parseHex, Option.some_bind]
    cases hexVal c <;> simp
  | cons x xs ih =>
    simp only [List.cons_append, parseHex]
    cases hexVal x with
    | none => simp
    | some d => simpa using ih (acc * 16 + d)

theorem hexDigits_length (n v : Nat) : (hexDigits n v).length = n := by
  induction n generalizing v with
  | zero => rfl
  | succ n ih => simp [hexDigits, ih]

theorem parseHex_hexDigits (n v : Nat) : parseHex (hexDigits n v) 0 = some (v % 16 ^ n) := by
  induction n generalizing v with
  | zero => simp [hexDigits, parseHex, Nat.mod_one]
  | succ n ih =>
    rw [hexDigits, parseHex_append, ih, hexVal_hexChar _ (Nat.mod_lt _ (by norm_num))]
    simp only [Option.some_bind, Option.map_some', Option.some.injEq]
    rw [pow_succ, Nat.mul_comm (16 ^ n) 16, Nat.mod_mul]
    omega

/-- Decoding the hex rendering of an ObjectID gives the ObjectID back. -/
theorem ObjectIDFromHex_Hex (o : ObjectID) : ObjectIDFromHex o.Hex = some o := by
  have h : parseHex (hexDigits 24 o.val) 0 = some o.val := by
    rw [parseHex_hexDigits, Nat.mod_eq_of_lt]
    have h16 : (16 : Nat) ^ 24 = 2 ^ 96 := by norm_num
    rw [h16]
    exact o.lt
  unfold ObjectIDFromHex ObjectID.Hex
  rw [if_pos (hexDigits_length 24 o.val)]
  simp only [h]
  rw [dif_pos o.lt]

/-! ## Work dispatcher -/

/-- C2: for a user id that is a well formed id and a found CADFile at ProcessLevel 0,
`ProcessCADFile` emits exactly one event, a FeatureRecognitionStarted carrying the user id, the
CADFile id in hex and the CADFile StepURL, and adds exactly one Task to the store, with status
Processing, quantity 1, process list [FeatureRecognition] and file list [FileName]. -/
theorem ProcessCADFile_level_zero (env : DispatchEnv) (w : World) (r : Request)
    (uid : ObjectID) (cadFile : CADFile)
    (htoken : r.tokenErr = false) (hclaims : r.claimsOk = true) (hprofile : r.profileErr = false)
    (huid : ObjectIDFromHex r.userID = some uid)
    (hfind : CadFileService.Find w.store r.param = some cadFile)
    (hlevel : cadFile.FeatureProps.ProcessLevel = 0) :
    (ProcessCADFile env w r).emitted = w.emitted ++
        [.featureRecognitionStarted
          { UserID := r.userID, CADFileID := cadFile.ID.Hex, URL := cadFile.StepURL }] ∧
      (ProcessCADFile env w r).store = { w.store with
        tasks := w.store.tasks ++
          [{ TaskID := env.newID
             UserID := uid
             Status := .Processing
             ProcessType := [.FeatureRecognition]
             CADFiles := [cadFile.FileName]
             Quantity := 1
             ProcessingTime := 0
             CreatedAt := env.now }] } := by
  simp [ProcessCADFile, htoken, hclaims, hprofile, huid, hfind, hlevel, TaskService.Create,
    World.reply, ExtractBendFeatures, World.emit]

/-- Witness of C2 on the sample CADFile at level 0. -/
theorem ProcessCADFile_level_zero_witness :
    (ProcessCADFile sampleEnv (sampleWorld 0 []) (sampleRequest (ObjectID.ofNat 0xa1))).emitted =
        [.featureRecognitionStarted
          { UserID := "5f1b2c3d4e5f60718293a4b5"
            CADFileID := "0000000000000000000000a1"
            URL := "/uploads/100.stp" }] ∧
      (ProcessCADFile sampleEnv (sampleWorld 0 [])
          (sampleRequest (ObjectID.ofNat 0xa1))).store.tasks =
        [{ TaskID := ObjectID.ofNat 0xc1
           UserID := sampleUser
           Status := .Processing
           ProcessType := [.FeatureRecognition]
           CADFiles := ["part.stp"]
           Quantity := 1
           ProcessingTime := 0
           CreatedAt := 1700000000 }] := by
  have h := ProcessCADFile_level_zero sampleEnv (sampleWorld 0 [])
    (sampleRequest (ObjectID.ofNat 0xa1)) sampleUser (sampleCad 0)
    (by decide) (by decide) (by decide) (by decide) (by decide) (by decide)
  exact ⟨h.1.trans (by decide), (congrArg Store.tasks h.2).trans (by decide)⟩

/-- C9: for a user id that is a well formed id and a found CADFile at ProcessLevel 1,
`ProcessCADFile` emits exactly one event, a ProcessPlanningStarted carrying the user id, the
CADFile id in hex, the bend count and the serialized feature payload as stored, and adds exactly
one Task to the store, with status Processing, quantity 1 and process list [ProcessPlanning]. -/
theorem ProcessCADFile_level_one (env : DispatchEnv) (w : World) (r : Request)
    (uid : ObjectID) (cadFile : CADFile)
    (htoken : r.tokenErr = false) (hclaims : r.claimsOk = true) (hprofile : r.profileErr = false)
    (huid : ObjectIDFromHex r.userID = some uid)
    (hfind : CadFileService.Find w.store r.param = some cadFile)
    (hlevel : cadFile.FeatureProps.ProcessLevel = 1) :
    (ProcessCADFile env w r).emitted = w.emitted ++
        [.processPlanningStarted
          { CADFileID := cadFile.ID.Hex
            UserID := r.userID
            BendCount := cadFile.FeatureProps.BendCount
            SerializedData := cadFile.FeatureProps.SerialData }] ∧
      (ProcessCADFile env w r).store = { w.store with
        tasks := w.store.tasks ++
          [{ TaskID := env.newID
             UserID := uid
             Status := .Processing
             ProcessType := [.ProcessPlanning]
             CADFiles := [cadFile.FileName]
             Quantity := 1
             ProcessingTime := 0
             CreatedAt := env.now }] } := by
  simp [ProcessCADFile, htoken, hclaims, hprofile, huid, hfind, hlevel, TaskService.Create,
    World.reply, GenerateProcessingPlan, World.emit]

/-- Witness of C9 on the sample CADFile at level 1. -/
theorem ProcessCADFile_level_one_witness :
    (ProcessCADFile sampleEnv (sampleWorld 1 []) (sampleRequest (ObjectID.ofNat 0xa1))).emitted =
        [.processPlanningStarted
          { CADFileID := "0000000000000000000000a1"
            UserID := "5f1b2c3d4e5f60718293a4b5"
            BendCount := 2
            SerializedData := [1, 2] }] ∧
      (ProcessCADFile sampleEnv (sampleWorld 1 [])
          (sampleRequest (ObjectID.ofNat 0xa1))).store.tasks =
        [{ TaskID := ObjectID.ofNat 0xc1
           UserID := sampleUser
           Status := .Processing
           ProcessType := [.ProcessPlanning]
           CADFiles := ["part.stp"]
           Quantity := 1
           ProcessingTime := 0
           CreatedAt := 1700000000 }] := by
  have h := ProcessCADFile_level_one sampleEnv (sampleWorld 1 [])
    (sampleRequest (ObjectID.ofNat 0xa1)) sampleUser (sampleCad 1)
    (by decide) (by decide) (by decide) (by decide) (by decide) (by decide)
  exact ⟨h.1.trans (by decide), (congrArg Store.tasks h.2).trans (by decide)⟩

/-- C8: for a found CADFile at ProcessLevel 2 or more, `ProcessCADFile` emits no event and leaves
the store as it was (no Task is created); when a plan is stored for the CADFile the reply is 200
and carries that plan, and when none is stored the reply is the 404 failure. -/
theorem ProcessCADFile_level_two_up (env : DispatchEnv) (w : World) (r : Request)
    (cadFile : CADFile)
    (htoken : r.tokenErr = false) (hclaims : r.claimsOk = true) (hprofile : r.profileErr = false)
    (hfind : CadFileService.Find w.store r.param = some cadFile)
    (hlevel : 2 ≤ cadFile.FeatureProps.ProcessLevel) :
    (ProcessCADFile env w r).emitted = w.emitted ∧
      (ProcessCADFile env w r).store = w.store ∧
      (∀ plan, w.store.plans.find? (fun p => p.CADFileID = cadFile.ID) = some plan →
        (ProcessCADFile env w r).headers = w.headers ++ [200] ∧
        (ProcessCADFile env w r).bodies = w.bodies ++
          [BuildResponse true "CAD file has been fully processed" (.plan plan)]) ∧
      (w.store.plans.find? (fun p => p.CADFileID = cadFile.ID) = none →
        (ProcessCADFile env w r).headers = w.headers ++ [404] ∧
        (ProcessCADFile env w r).bodies = w.bodies ++
          [BuildErrorResponse "Process failed" "Processing plan not found" .empty]) := by
  have h0 : ¬ (cadFile.FeatureProps.ProcessLevel = 0 ∨ cadFile.FeatureProps.ProcessLevel = 1) := by
    omega
  obtain ⟨oid, hoid, hcad⟩ : ∃ oid, ObjectIDFromHex r.param = some oid ∧
      w.store.cadFiles.find? (fun c => c.ID = oid) = some cadFile := by
    unfold CadFileService.Find at hfind
    cases hx : ObjectIDFromHex r.param with
    | none => simp [hx] at hfind
    | some oid => exact ⟨oid, rfl, by simpa [hx] using hfind⟩
  have hid : cadFile.ID = oid := by simpa using List.find?_some hcad
  have hplan : ProcessingPlanService.Find w.store r.param =
      w.store.plans.find? (fun p => p.CADFileID = cadFile.ID) := by
    simp [ProcessingPlanService.Find, hoid, hid]
  have hrun : ProcessCADFile env w r =
      match w.store.plans.find? (fun p => p.CADFileID = cadFile.ID) with
      | none =>
        w.reply 404 (BuildErrorResponse "Process failed" "Processing plan not found" .empty)
      | some processingPlan =>
        w.reply 200
          (BuildResponse true "CAD file has been fully processed" (.plan processingPlan)) := by
    simp only [ProcessCADFile, htoken, hclaims, hprofile, hfind, h0, hplan]
    simp
  rw [hrun]
  cases hp : w.store.plans.find? (fun p => p.CADFileID = cadFile.ID) with
  | none => simp [World.reply]
  | some plan => simp [World.reply]

/-- Witness of C8 on the sample CADFile at level 2 with its plan stored. -/
theorem ProcessCADFile_level_two_up_witness :
    (ProcessCADFile sampleEnv (sampleWorld 2 [samplePlan])
        (sampleRequest (ObjectID.ofNat 0xa1))).emitted = [] ∧
      (ProcessCADFile sampleEnv (sampleWorld 2 [samplePlan])
        (sampleRequest (ObjectID.ofNat 0xa1))).store.tasks = [] ∧
      (ProcessCADFile sampleEnv (sampleWorld 2 [samplePlan])
        (sampleRequest (ObjectID.ofNat 0xa1))).bodies =
        [BuildResponse true "CAD file has been fully processed" (.plan samplePlan)] := by
  have h := ProcessCADFile_level_two_up sampleEnv (sampleWorld 2 [samplePlan])
    (sampleRequest (ObjectID.ofNat 0xa1)) (sampleCad 2)
    (by decide) (by decide) (by decide) (by decide) (by decide)
  exact ⟨h.1, (congrArg Store.tasks h.2.1).trans (by decide),
    (h.2.2.1 samplePlan (by decide)).2⟩

theorem batchStep_store (env : DispatchEnv) (id : String) (b : BatchState) (c : CADFile) :
    (batchStep env id b c).world.store = b.world.store := by
  unfold batchStep
  split_ifs <;> rfl

theorem batchStep_counters (env : DispatchEnv) (id : String) (b : BatchState) (c : CADFile)
    (h : 0 ≤ b.freNum ∧ 0 ≤ b.ppNum) :
    b.freNum ≤ (batchStep env id b c).freNum ∧ b.ppNum ≤ (batchStep env id b c).ppNum ∧
      ((c.FeatureProps.ProcessLevel = 0 ∨ c.FeatureProps.ProcessLevel = 1) →
        0 < (batchStep env id b c).freNum ∨ 0 < (batchStep env id b c).ppNum) := by
  unfold batchStep
  split_ifs with h0 h1
  · simp only; omega
  · simp only; omega
  · simp only; omega

theorem batchFold_store (env : DispatchEnv) (id : String) (cs : List CADFile) (b : BatchState) :
    (cs.foldl (batchStep env id) b).world.store = b.world.store := by
  induction cs generalizing b with
  | nil => rfl
  | cons c cs ih => rw [List.foldl_cons, ih, batchStep_store]

theorem batchFold_counters (env : DispatchEnv) (id : String) (cs : List CADFile)
    (b : BatchState) (h : 0 ≤ b.freNum ∧ 0 ≤ b.ppNum) :
    b.freNum ≤ (cs.foldl (batchStep env id) b).freNum ∧
      b.ppNum ≤ (cs.foldl (batchStep env id) b).ppNum := by
  induction cs generalizing b with
  | nil => simp
  | cons c cs ih =>
    have hs := batchStep_counters env id b c h
    have := ih (batchStep env id b c) ⟨by omega, by omega⟩
    rw [List.foldl_cons]
    omega

theorem batchFold_dispatched (env : DispatchEnv) (id : String) (cs : List CADFile)
    (b : BatchState) (h : 0 ≤ b.freNum ∧ 0 ≤ b.ppNum)
    (hc : ∃ c ∈ cs, c.FeatureProps.ProcessLevel = 0 ∨ c.FeatureProps.ProcessLevel = 1) :
    0 < (cs.foldl (batchStep env id) b).freNum ∨ 0 < (cs.foldl (batchStep env id) b).ppNum := by
  induction cs generalizing b with
  | nil => simp at hc
  | cons c cs ih =>
    have hs := batchStep_counters env id b c h
    rw [List.foldl_cons]
    obtain ⟨x, hx, hlevel⟩ := hc
    rcases List.mem_cons.mp hx with rfl | hx
    · have := batchFold_counters env id cs (batchStep env id b x) ⟨by omega, by omega⟩
      have := hs.2.2 hlevel
      omega
    · exact ih _ ⟨by omega, by omega⟩ ⟨x, hx, hlevel⟩

/-- Whenever a project holds a CADFile at ProcessLevel 0 or 1, `BatchProcessCADFiles` returns
with the store as it found it: the aggregate Task is never persisted. -/
theorem BatchProcessCADFiles_store_of_dispatch (env : DispatchEnv) (w : World) (r : Request)
    (cadFiles : List CADFile)
    (hfind : CadFileService.FindAll w.store r.param = some cadFiles)
    (hc : ∃ c ∈ cadFiles, c.FeatureProps.ProcessLevel = 0 ∨ c.FeatureProps.ProcessLevel = 1) :
    (BatchProcessCADFiles env w r).store = w.store := by
  unfold BatchProcessCADFiles
  split_ifs with h1 h2 h3
  · rfl
  · rfl
  · rfl
  · simp only [hfind]
    cases hu : ObjectIDFromHex r.userID with
    | none => rfl
    | some uid =>
      simp only []
      have hd := batchFold_dispatched env r.userID cadFiles
        ⟨w, ⟨env.newID, uid, .Processing, [.FeatureRecognition, .ProcessPlanning], [], 0, 0,
          env.now⟩, 0, 0⟩ ⟨le_refl _, le_refl _⟩ hc
      rw [if_pos (by omega)]
      exact batchFold_store _ _ _ _

/-- The other side of the same branch: for a project whose only CADFile is at ProcessLevel 2,
nothing is dispatched, and this is when `BatchProcessCADFiles` persists its Task, with
quantity 0. -/
theorem BatchProcessCADFiles_task_when_idle :
    (BatchProcessCADFiles sampleEnv (sampleWorld 2 [samplePlan])
        (sampleRequest (ObjectID.ofNat 0xb1))).store.tasks =
        [{ TaskID := ObjectID.ofNat 0xc1
           UserID := sampleUser
           Status := .Processing
           ProcessType := [.FeatureRecognition, .ProcessPlanning]
           CADFiles := ["part.stp"]
           Quantity := 0
           ProcessingTime := 0
           CreatedAt := 1700000000 }] ∧
      (BatchProcessCADFiles sampleEnv (sampleWorld 2 [samplePlan])
        (sampleRequest (ObjectID.ofNat 0xb1))).emitted = [] := by
  decide

/-- C10, the code at its failing input: for a project whose only CADFile is at ProcessLevel 0,
`BatchProcessCADFiles` emits the FeatureRecognitionStarted event and writes one body, but it
creates no Task, clears no cache key and writes no status. -/
theorem BatchProcessCADFiles_dispatch_creates_no_task :
    (BatchProcessCADFiles sampleEnv (sampleWorld 0 [])
        (sampleRequest (ObjectID.ofNat 0xb1))).store.tasks = [] ∧
      (BatchProcessCADFiles sampleEnv (sampleWorld 0 [])
        (sampleRequest (ObjectID.ofNat 0xb1))).emitted =
        [.featureRecognitionStarted
          { UserID := "5f1b2c3d4e5f60718293a4b5"
            CADFileID := "0000000000000000000000a1"
            URL := "/uploads/100.stp" }] ∧
      (BatchProcessCADFiles sampleEnv (sampleWorld 0 [])
        (sampleRequest (ObjectID.ofNat 0xb1))).bodies =
        [BuildResponse true "Feature recognition started: part.stp" .empty] ∧
      (BatchProcessCADFiles sampleEnv (sampleWorld 0 [])
        (sampleRequest (ObjectID.ofNat 0xb1))).cleared = [] ∧
      (BatchProcessCADFiles sampleEnv (sampleWorld 0 [])
        (sampleRequest (ObjectID.ofNat 0xb1))).headers = [] := by
  decide



/-! ## Completion handler -/

theorem replaceFirst_find {α : Type} (p : α → Bool) (new x : α) (l : List α)
    (h : l.find? p = some x) (hnew : p new = true) :
    ∃ l1, replaceFirst p new l = some l1 ∧ l1.find? p = some new ∧ l1.length = l.length := by
  induction l with
  | nil => simp at h
  | cons y ys ih =>
    by_cases hy : p y = true
    · exact ⟨new :: ys, by simp [replaceFirst, hy], by simp [List.find?, hnew], by simp⟩
    · have hy2 : p y = false := by simpa using hy
      rw [List.find?_cons, hy2] at h
      obtain ⟨l1, h1, h2, h3⟩ := ih h
      exact ⟨y :: l1, by simp [replaceFirst, hy2, h1], by simp [List.find?, hy2, h2], by simp [h3]⟩

theorem cadFile_Find_some {s : Store} {id : String} {c : CADFile}
    (h : CadFileService.Find s id = some c) :
    ∃ oid, ObjectIDFromHex id = some oid ∧
      s.cadFiles.find? (fun x => x.ID = oid) = some c ∧ c.ID = oid := by
  unfold CadFileService.Find at h
  cases hx : ObjectIDFromHex id with
  | none => simp [hx] at h
  | some oid =>
    have h2 : s.cadFiles.find? (fun x => x.ID = oid) = some c := by simpa [hx] using h
    exact ⟨oid, rfl, h2, by simpa using List.find?_some h2⟩

theorem task_Find_some {s : Store} {id : String} {t : Task}
    (h : TaskService.Find s id = some t) :
    ∃ oid, ObjectIDFromHex id = some oid ∧
      s.tasks.find? (fun x => x.TaskID = oid) = some t ∧ t.TaskID = oid := by
  unfold TaskService.Find at h
  cases hx : ObjectIDFromHex id with
  | none => simp [hx] at h
  | some oid =>
    have h2 : s.tasks.find? (fun x => x.TaskID = oid) = some t := by simpa [hx] using h
    exact ⟨oid, rfl, h2, by simpa using List.find?_some h2⟩

theorem cadFile_Find_congr (s1 s2 : Store) (h : s1.cadFiles = s2.cadFiles)
    (id : String) : CadFileService.Find s1 id = CadFileService.Find s2 id := by
  unfold CadFileService.Find
  rw [h]

theorem task_Find_congr (s1 s2 : Store) (h : s1.tasks = s2.tasks) (id : String) :
    TaskService.Find s1 id = TaskService.Find s2 id := by
  unfold TaskService.Find
  rw [h]

/-- Updating a CADFile found under `id` by a record of the same identity succeeds, and the
record is then the one found under `id`; nothing else of the store changes. -/
theorem cadFile_Update_found (s : Store) (id : String) (c new : CADFile)
    (h : CadFileService.Find s id = some c) (hid : new.ID = c.ID) :
    ∃ l, CadFileService.Update s new = some { s with cadFiles := l } ∧
      (∀ s1 : Store, s1.cadFiles = l → CadFileService.Find s1 id = some new) ∧
      l.length = s.cadFiles.length := by
  obtain ⟨oid, hoid, hfind, hc⟩ := cadFile_Find_some h
  have hp : (fun x : CADFile => decide (x.ID = new.ID)) = (fun x => decide (x.ID = oid)) := by
    rw [hid, hc]
  obtain ⟨l, h1, h2, h3⟩ := replaceFirst_find (fun x : CADFile => decide (x.ID = oid)) new c
    s.cadFiles hfind (by simp [hid, hc])
  refine ⟨l, ?_, ?_, h3⟩
  · simp [CadFileService.Update, hp, h1]
  · intro s1 hs1
    simp [CadFileService.Find, hoid, hs1, h2]

/-- The same for Tasks. -/
theorem task_Update_found (s : Store) (id : String) (t new : Task)
    (h : TaskService.Find s id = some t) (hid : new.TaskID = t.TaskID) :
    ∃ l, TaskService.Update s new = some { s with tasks := l } ∧
      (∀ s1 : Store, s1.tasks = l → TaskService.Find s1 id = some new) ∧
      l.length = s.tasks.length := by
  obtain ⟨oid, hoid, hfind, hc⟩ := task_Find_some h
  have hp : (fun x : Task => decide (x.TaskID = new.TaskID)) =
      (fun x => decide (x.TaskID = oid)) := by
    rw [hid, hc]
  obtain ⟨l, h1, h2, h3⟩ := replaceFirst_find (fun x : Task => decide (x.TaskID = oid)) new t
    s.tasks hfind (by simp [hid, hc])
  refine ⟨l, ?_, ?_, h3⟩
  · simp [TaskService.Update, hp, h1]
  · intro s1 hs1
    simp [TaskService.Find, hoid, hs1, h2]

theorem resolveTools_ok (s : Store) (bs : List BendFeature)
    (h : ∀ b ∈ bs, ∃ tool, ToolService.FindByAngle s b.Angle = some tool) :
    ∃ rs, resolveTools s bs = some rs ∧ List.Forall₂ (Resolved s) bs rs := by
  induction bs with
  | nil => exact ⟨[], rfl, List.Forall₂.nil⟩
  | cons b bs ih =>
    obtain ⟨tool, ht⟩ := h b (List.mem_cons_self _ _)
    obtain ⟨rs, h1, h2⟩ := ih (fun x hx => h x (List.mem_cons_of_mem _ hx))
    exact ⟨{ b with ToolID := tool.ToolID } :: rs, by simp [resolveTools, ht, h1],
      List.Forall₂.cons ⟨rfl, tool, ht, rfl⟩ h2⟩

/-- C3: for a FeatureRecognitionComplete event whose CADFileID and TaskID find stored records
and whose every bend angle has a Tool, `handleEvent` returns normally; afterwards the CADFile
found under the id is the old record with the FeatureProps of the event and with the bends of
the event, each carrying the id of the Tool found for its angle, and the Task found under the id
is the old record with status Complete and processing time FRETime. No row is added. -/
theorem handleEvent_featureRecognitionComplete (newID : ObjectID) (now : Int) (s : Store)
    (e : FeatureRecognitionComplete) (c : CADFile) (t : Task)
    (hcad : CadFileService.Find s e.CADFileID = some c)
    (htask : TaskService.Find s e.TaskID = some t)
    (htools : ∀ b ∈ e.BendFeatures, ∃ tool, ToolService.FindByAngle s b.Angle = some tool) :
    ∃ bends, List.Forall₂ (Resolved s) e.BendFeatures bends ∧
      (handleEvent newID now s (.featureRecognitionComplete e)).outcome = .done ∧
      CadFileService.Find (handleEvent newID now s (.featureRecognitionComplete e)).store
          e.CADFileID =
        some { c with FeatureProps := e.FeatureProps, BendFeatures := bends } ∧
      TaskService.Find (handleEvent newID now s (.featureRecognitionComplete e)).store e.TaskID =
        some { t with Status := .Complete, ProcessingTime := e.FeatureProps.FRETime } ∧
      (handleEvent newID now s (.featureRecognitionComplete e)).store.cadFiles.length =
        s.cadFiles.length ∧
      (handleEvent newID now s (.featureRecognitionComplete e)).store.tasks.length =
        s.tasks.length ∧
      (handleEvent newID now s (.featureRecognitionComplete e)).store.plans = s.plans ∧
      (handleEvent newID now s (.featureRecognitionComplete e)).store.tools = s.tools := by
  obtain ⟨bends, hres, hrel⟩ := resolveTools_ok s e.BendFeatures htools
  obtain ⟨l1, hup1, hfind1, hlen1⟩ := cadFile_Update_found _ _ _
    { c with FeatureProps := e.FeatureProps, BendFeatures := bends } hcad rfl
  have htask1 : TaskService.Find { s with cadFiles := l1 } e.TaskID = some t :=
    (task_Find_congr { s with cadFiles := l1 } s rfl _).trans htask
  obtain ⟨l2, hup2, hfind2, hlen2⟩ := task_Update_found _ _ _
    { t with Status := .Complete, ProcessingTime := e.FeatureProps.FRETime } htask1 rfl
  have hrun : handleEvent newID now s (.featureRecognitionComplete e) =
      ⟨{ s with cadFiles := l1, tasks := l2 },
        [StoreCall.cadFileFind e.CADFileID] ++ toolCalls s e.BendFeatures ++
          [.cadFileUpdate { c with FeatureProps := e.FeatureProps, BendFeatures := bends }] ++
          [.taskFind e.TaskID] ++
          [.taskUpdate { t with Status := .Complete, ProcessingTime := e.FeatureProps.FRETime }],
        .done⟩ := by
    unfold handleEvent
    simp only [hcad]
    simp only [hres]
    simp only [hup1]
    simp only [htask1]
    simp only [hup2]
  rw [hrun]
  exact ⟨bends, hrel, rfl, hfind1 _ rfl, hfind2 _ rfl, hlen1, hlen2, rfl, rfl⟩

/-- Witness of C3 on the sample store and a result with two bends. -/
theorem handleEvent_featureRecognitionComplete_witness :
    ∃ bends, List.Forall₂ (Resolved (sampleStore 0)) sampleRecognition.BendFeatures bends ∧
      (handleEvent (ObjectID.ofNat 1) 0 (sampleStore 0)
        (.featureRecognitionComplete sampleRecognition)).outcome = .done ∧
      CadFileService.Find (handleEvent (ObjectID.ofNat 1) 0 (sampleStore 0)
          (.featureRecognitionComplete sampleRecognition)).store sampleRecognition.CADFileID =
        some { sampleCad 0 with
          FeatureProps := sampleRecognition.FeatureProps, BendFeatures := bends } ∧
      TaskService.Find (handleEvent (ObjectID.ofNat 1) 0 (sampleStore 0)
          (.featureRecognitionComplete sampleRecognition)).store sampleRecognition.TaskID =
        some { sampleTask with
          Status := .Complete, ProcessingTime := sampleRecognition.FeatureProps.FRETime } ∧
      (handleEvent (ObjectID.ofNat 1) 0 (sampleStore 0)
        (.featureRecognitionComplete sampleRecognition)).store.cadFiles.length =
        (sampleStore 0).cadFiles.length ∧
      (handleEvent (ObjectID.ofNat 1) 0 (sampleStore 0)
        (.featureRecognitionComplete sampleRecognition)).store.tasks.length =
        (sampleStore 0).tasks.length ∧
      (handleEvent (ObjectID.ofNat 1) 0 (sampleStore 0)
        (.featureRecognitionComplete sampleRecognition)).store.plans = (sampleStore 0).plans ∧
      (handleEvent (ObjectID.ofNat 1) 0 (sampleStore 0)
        (.featureRecognitionComplete sampleRecognition)).store.tools = (sampleStore 0).tools :=
  handleEvent_featureRecognitionComplete (ObjectID.ofNat 1) 0 (sampleStore 0) sampleRecognition
    (sampleCad 0) sampleTask (by decide) (by decide)
    (by
      intro b hb
      simp only [sampleRecognition, List.mem_cons, List.mem_singleton, List.not_mem_nil,
        or_false] at hb
      rcases hb with rfl | rfl
      · exact ⟨⟨ObjectID.ofNat 0xf2, 45⟩, by decide⟩
      · exact ⟨⟨ObjectID.ofNat 0xf1, 90⟩, by decide⟩)

/-- C4 fails as stated: an event whose own CADFileID and TaskID name the stored sample CADFile
and Task, while the CADFileID of its plan names no stored CADFile, is not handled to the end:
the consumer halts at the CADFile lookup, no plan is created, and the CADFile and the Task stay
as they were. -/
theorem handleEvent_planning_event_id_counterexample :
    CadFileService.Find (sampleStore 1)
        ({ samplePlanning with
            ProcessingPlan := { samplePlan with CADFileID := ObjectID.ofNat 0xff } }).CADFileID =
        some (sampleCad 1) ∧
      TaskService.Find (sampleStore 1)
        ({ samplePlanning with
            ProcessingPlan := { samplePlan with CADFileID := ObjectID.ofNat 0xff } }).TaskID =
        some sampleTask ∧
      handleEvent (ObjectID.ofNat 0xd2) 50 (sampleStore 1)
        (.processPlanningComplete
          { samplePlanning with
            ProcessingPlan := { samplePlan with CADFileID := ObjectID.ofNat 0xff } }) =
        ⟨sampleStore 1, [.cadFileFind "0000000000000000000000ff"],
          .fatal "Cadfile does not exist "⟩ := by
  decide

/-- C4 as amended: for a ProcessPlanningComplete event whose plan carries the CADFileID of a
stored CADFile (the event's own CADFileID is only logged) and whose TaskID finds a stored Task,
`handleEvent` returns normally; it adds exactly one ProcessingPlan, whose
rotations, flips, tools, modules, times, tool distance, bending sequences and quantity are those
of the payload; the CADFile is the old record with ProcessLevel set to that of the event; the
Task is the old record with status Complete and processing time EstimatedManufacturingTime. -/
theorem handleEvent_processPlanningComplete (newID : ObjectID) (now : Int) (s : Store)
    (e : ProcessPlanningComplete) (c : CADFile) (t : Task)
    (hcad : CadFileService.Find s e.ProcessingPlan.CADFileID.Hex = some c)
    (htask : TaskService.Find s e.TaskID = some t) :
    (handleEvent newID now s (.processPlanningComplete e)).outcome = .done ∧
      (handleEvent newID now s (.processPlanningComplete e)).store.plans = s.plans ++
        [{ ID := newID
           CADFileID := e.ProcessingPlan.CADFileID
           Rotations := e.ProcessingPlan.Rotations
           Flips := e.ProcessingPlan.Flips
           Tools := e.ProcessingPlan.Tools
           Modules := e.ProcessingPlan.Modules
           ProcessingTime := e.ProcessingPlan.ProcessingTime
           EstimatedManufacturingTime := e.ProcessingPlan.EstimatedManufacturingTime
           TotalToolDistance := e.ProcessingPlan.TotalToolDistance
           BendingSequences := e.ProcessingPlan.BendingSequences
           Quantity := e.ProcessingPlan.Quantity
           CreatedAt := now }] ∧
      CadFileService.Find (handleEvent newID now s (.processPlanningComplete e)).store
          e.ProcessingPlan.CADFileID.Hex =
        some { c with FeatureProps := { c.FeatureProps with ProcessLevel := e.ProcessLevel } } ∧
      TaskService.Find (handleEvent newID now s (.processPlanningComplete e)).store e.TaskID =
        some { t with
          Status := .Complete
          ProcessingTime := e.ProcessingPlan.EstimatedManufacturingTime } ∧
      (handleEvent newID now s (.processPlanningComplete e)).store.cadFiles.length =
        s.cadFiles.length ∧
      (handleEvent newID now s (.processPlanningComplete e)).store.tasks.length =
        s.tasks.length ∧
      (handleEvent newID now s (.processPlanningComplete e)).store.tools = s.tools := by
  obtain ⟨plan, hplan⟩ : ∃ plan : ProcessingPlan, plan =
      { ID := newID
        CADFileID := e.ProcessingPlan.CADFileID
        Rotations := e.ProcessingPlan.Rotations
        Flips := e.ProcessingPlan.Flips
        Tools := e.ProcessingPlan.Tools
        Modules := e.ProcessingPlan.Modules
        ProcessingTime := e.ProcessingPlan.ProcessingTime
        EstimatedManufacturingTime := e.ProcessingPlan.EstimatedManufacturingTime
        TotalToolDistance := e.ProcessingPlan.TotalToolDistance
        BendingSequences := e.ProcessingPlan.BendingSequences
        Quantity := e.ProcessingPlan.Quantity
        CreatedAt := now } := ⟨_, rfl⟩
  have hcad1 : CadFileService.Find { s with plans := s.plans ++ [plan] }
      e.ProcessingPlan.CADFileID.Hex = some c :=
    (cadFile_Find_congr { s with plans := s.plans ++ [plan] } s rfl _).trans hcad
  obtain ⟨l1, hup1, hfind1, hlen1⟩ := cadFile_Update_found _ _ _
    { c with FeatureProps := { c.FeatureProps with ProcessLevel := e.ProcessLevel } }
    hcad1 rfl
  have htask1 : TaskService.Find { s with cadFiles := l1, plans := s.plans ++ [plan] } e.TaskID =
      some t :=
    (task_Find_congr { s with cadFiles := l1, plans := s.plans ++ [plan] } s rfl _).trans
      htask
  obtain ⟨l2, hup2, hfind2, hlen2⟩ := task_Update_found _ _ _
    { t with
      Status := .Complete
      ProcessingTime := e.ProcessingPlan.EstimatedManufacturingTime } htask1 rfl
  have hrun : (handleEvent newID now s (.processPlanningComplete e)).store =
        { s with cadFiles := l1, tasks := l2, plans := s.plans ++ [plan] } ∧
      (handleEvent newID now s (.processPlanningComplete e)).outcome = .done := by
    unfold handleEvent
    simp only [hcad]
    simp only [ProcessingPlanService.Create]
    rw [← hplan]
    simp only [hup1]
    simp only [htask1]
    simp only [hup2]
    exact ⟨trivial, trivial⟩
  rw [hrun.1, ← hplan]
  exact ⟨hrun.2, rfl, hfind1 _ rfl, hfind2 _ rfl, hlen1, hlen2, rfl⟩

/-- Witness of the amended C4 on the sample store at level 1 and the sample planning
result. -/
theorem handleEvent_processPlanningComplete_witness :
    (handleEvent (ObjectID.ofNat 0xd2) 50 (sampleStore 1)
        (.processPlanningComplete samplePlanning)).outcome = .done ∧
      (handleEvent (ObjectID.ofNat 0xd2) 50 (sampleStore 1)
        (.processPlanningComplete samplePlanning)).store.plans =
        [{ samplePlan with ID := ObjectID.ofNat 0xd2, CreatedAt := 50 }] ∧
      (handleEvent (ObjectID.ofNat 0xd2) 50 (sampleStore 1)
        (.processPlanningComplete samplePlanning)).store.cadFiles = [sampleCad 2] ∧
      (handleEvent (ObjectID.ofNat 0xd2) 50 (sampleStore 1)
        (.processPlanningComplete samplePlanning)).store.tasks =
        [{ sampleTask with Status := .Complete, ProcessingTime := 60 }] := by
  have h := handleEvent_processPlanningComplete (ObjectID.ofNat 0xd2) 50 (sampleStore 1)
    samplePlanning (sampleCad 1) sampleTask (by decide) (by decide)
  exact ⟨h.1, h.2.1.trans (by decide), by decide, by decide⟩

/-! ## Upload pairing -/

theorem GoMap.get_set {β : Type} (m : GoMap β) (k k1 : String) (v : β) :
    GoMap.get (GoMap.set m k v) k1 = if k = k1 then some v else GoMap.get m k1 := by
  simp [GoMap.set, GoMap.get]

theorem GoMap.get_delete {β : Type} (m : GoMap β) (k k1 : String) :
    GoMap.get (GoMap.delete m k) k1 = if k = k1 then none else GoMap.get m k1 := by
  induction m with
  | nil => simp [GoMap.delete, GoMap.get]
  | cons e m ih =>
    obtain ⟨a, v⟩ := e
    unfold GoMap.delete at ih ⊢
    by_cases ha : a = k
    · subst ha
      rw [List.filter_cons_of_neg (by simp), ih]
      by_cases h1 : a = k1
      · simp [h1]
      · simp [GoMap.get, h1]
    · rw [List.filter_cons_of_pos (by simpa using ha)]
      by_cases h1 : a = k1
      · subst h1
        simp [GoMap.get, Ne.symm ha]
      · simp only [GoMap.get, h1, if_false]
        exact ih

theorem uploadStep_too_big (MaxUploadSize : Int) (projectFolder material : String)
    (id : ObjectID) (s : UploadState) (p : UploadPart) (h : p.header.Size > MaxUploadSize) :
    ∃ e, uploadStep MaxUploadSize projectFolder material id s p = (s, some e) := by
  unfold uploadStep
  simp only [if_pos h]
  exact ⟨_, rfl⟩

theorem uploadStep_bad_ext (MaxUploadSize : Int) (projectFolder material : String)
    (id : ObjectID) (s : UploadState) (p : UploadPart) (h : ¬ acceptedExt (partExt p)) :
    ∃ e, uploadStep MaxUploadSize projectFolder material id s p = (s, some e) := by
  by_cases hsz : p.header.Size > MaxUploadSize
  · exact uploadStep_too_big _ _ _ _ _ _ hsz
  · have hx : filepathExt p.header.Filename ≠ ".stp" ∧ filepathExt p.header.Filename ≠ ".step" ∧
        filepathExt p.header.Filename ≠ ".obj" := by
      unfold acceptedExt partExt at h
      tauto
    unfold uploadStep
    simp only [if_neg hsz, if_pos hx]
    exact ⟨_, rfl⟩

theorem uploadStep_fault (MaxUploadSize : Int) (projectFolder material : String)
    (id : ObjectID) (s : UploadState) (p : UploadPart) (f : Fault) (h : p.fault = some f) :
    ∃ e, (uploadStep MaxUploadSize projectFolder material id s p).2 = some e := by
  by_cases hsz : p.header.Size > MaxUploadSize
  · obtain ⟨e, he⟩ := uploadStep_too_big MaxUploadSize projectFolder material id s p hsz
    exact ⟨e, by rw [he]⟩
  by_cases hacc : acceptedExt (partExt p)
  swap
  · obtain ⟨e, he⟩ := uploadStep_bad_ext MaxUploadSize projectFolder material id s p hacc
    exact ⟨e, by rw [he]⟩
  have hx : ¬ (filepathExt p.header.Filename ≠ ".stp" ∧
      filepathExt p.header.Filename ≠ ".step" ∧ filepathExt p.header.Filename ≠ ".obj") := by
    unfold acceptedExt partExt at hacc
    tauto
  unfold uploadStep
  simp only [if_neg hsz, if_neg hx, h]
  cases f <;> cases s.tempCache.get (FileNameWithoutExtSlice p.header.Filename) <;> simp

/-- The step on the first part of a base filename. -/
theorem uploadStep_first (MaxUploadSize : Int) (projectFolder material : String)
    (id : ObjectID) (s : UploadState) (p : UploadPart)
    (hsz : p.header.Size ≤ MaxUploadSize) (hacc : acceptedExt (partExt p))
    (hf : p.fault = none) (hget : s.tempCache.get (baseName p) = none) :
    uploadStep MaxUploadSize projectFolder material id s p =
      ({ s with
         written := s.written ++ [uploadPath projectFolder p.nowNano (partExt p)]
         tempCache := s.tempCache.set (baseName p) (storageKey projectFolder p)
         fileCache := s.fileCache.set (storageKey projectFolder p)
           (firstRecord projectFolder material id p)
         created := s.created ++ [firstRecord projectFolder material id p] }, none) := by
  have hx : ¬ (filepathExt p.header.Filename ≠ ".stp" ∧
      filepathExt p.header.Filename ≠ ".step" ∧ filepathExt p.header.Filename ≠ ".obj") := by
    unfold acceptedExt partExt at hacc
    tauto
  unfold baseName at hget
  unfold uploadStep
  simp only [if_neg (not_lt.mpr hsz), if_neg hx, hf, hget, GoMap.get_set]
  simp [firstRecord, storageKey, baseName, partExt]

/-- The step on a part whose base filename is in `tempCache`. -/
theorem uploadStep_second (MaxUploadSize : Int) (projectFolder material : String)
    (id : ObjectID) (s : UploadState) (p : UploadPart) (key : String)
    (hsz : p.header.Size ≤ MaxUploadSize) (hacc : acceptedExt (partExt p))
    (hf : p.fault = none) (hget : s.tempCache.get (baseName p) = some key) :
    uploadStep MaxUploadSize projectFolder material id s p =
      ({ s with
         written := s.written ++ [uploadPath projectFolder (ParseInt key) (partExt p)]
         updated := s.updated ++ [secondRecord projectFolder s p]
         uploadedFiles := s.uploadedFiles ++ [secondRecord projectFolder s p]
         tempCache := s.tempCache.delete (baseName p) }, none) := by
  have hx : ¬ (filepathExt p.header.Filename ≠ ".stp" ∧
      filepathExt p.header.Filename ≠ ".step" ∧ filepathExt p.header.Filename ≠ ".obj") := by
    unfold acceptedExt partExt at hacc
    tauto
  have hget1 := hget
  unfold baseName at hget
  unfold uploadStep
  simp only [if_neg (not_lt.mpr hsz), if_neg hx, hf, hget]
  simp [secondRecord, hget1, baseName, partExt, hget]

/-- A step succeeds exactly on a part of accepted size and extension handled without fault. -/
theorem uploadStep_eq_none_iff (MaxUploadSize : Int) (projectFolder material : String)
    (id : ObjectID) (s : UploadState) (p : UploadPart) :
    (uploadStep MaxUploadSize projectFolder material id s p).2 = none ↔
      p.header.Size ≤ MaxUploadSize ∧ acceptedExt (partExt p) ∧ p.fault = none := by
  constructor
  · intro h
    refine ⟨?_, ?_, ?_⟩
    · by_contra hsz
      obtain ⟨e, he⟩ := uploadStep_too_big MaxUploadSize projectFolder material id s p
        (not_le.mp hsz)
      rw [he] at h
      simp at h
    · by_contra hacc
      obtain ⟨e, he⟩ := uploadStep_bad_ext MaxUploadSize projectFolder material id s p hacc
      rw [he] at h
      simp at h
    · cases hf : p.fault with
      | none => rfl
      | some f =>
        obtain ⟨e, he⟩ := uploadStep_fault MaxUploadSize projectFolder material id s p f hf
        rw [he] at h
        simp at h
  · rintro ⟨hsz, hacc, hf⟩
    cases hget : s.tempCache.get (baseName p) with
    | none => rw [uploadStep_first _ _ _ _ _ _ hsz hacc hf hget]
    | some key => rw [uploadStep_second _ _ _ _ _ _ key hsz hacc hf hget]

theorem uploadLoop_append (MaxUploadSize : Int) (projectFolder material : String)
    (id : ObjectID) (s : UploadState) (pre rest : List UploadPart) :
    uploadLoop MaxUploadSize projectFolder material id s (pre ++ rest) =
      match uploadLoop MaxUploadSize projectFolder material id s pre with
      | (s1, some e) => (s1, some e)
      | (s1, none) => uploadLoop MaxUploadSize projectFolder material id s1 rest := by
  induction pre generalizing s with
  | nil => simp [uploadLoop]
  | cons p pre ih =>
    simp only [List.cons_append, uploadLoop]
    rcases hstep : uploadStep MaxUploadSize projectFolder material id s p with ⟨s1, _ | e⟩
    · simp only []
      exact ih s1
    · simp

/-- The loop stops at a part of wrong extension or size with the state it reached before it. -/
theorem uploadLoop_stops_at_bad (MaxUploadSize : Int) (projectFolder material : String)
    (id : ObjectID) (s : UploadState) (pre post : List UploadPart) (bad : UploadPart)
    (hbad : bad.header.Size > MaxUploadSize ∨ ¬ acceptedExt (partExt bad)) :
    ∃ e, uploadLoop MaxUploadSize projectFolder material id s (pre ++ bad :: post) =
      ((uploadLoop MaxUploadSize projectFolder material id s pre).1, some e) := by
  rw [uploadLoop_append]
  rcases hpre : uploadLoop MaxUploadSize projectFolder material id s pre with ⟨s1, _ | e⟩
  · simp only [uploadLoop]
    obtain ⟨e, he⟩ : ∃ e, uploadStep MaxUploadSize projectFolder material id s1 bad =
        (s1, some e) := by
      rcases hbad with h | h
      · exact uploadStep_too_big _ _ _ _ _ _ h
      · exact uploadStep_bad_ext _ _ _ _ _ _ h
    rw [he]
    exact ⟨e, rfl⟩
  · exact ⟨e, rfl⟩

/-- A request with no part or an odd number of parts leaves no effect, with or without a
material value. -/
theorem uploadHandler_zero_or_odd_state (UploadBalanced : List FileHeader → Bool)
    (MaxUploadSize : Int) (r : UploadRequest) (projectFolder : String) (id : ObjectID)
    (hcount : r.files.length = 0 ∨ r.files.length % 2 = 1) :
    (uploadHandler UploadBalanced MaxUploadSize r projectFolder id).1 = UploadState.init := by
  unfold uploadHandler
  split_ifs with h1
  · rfl
  · cases r.material with
    | nil => rfl
    | cons m ms =>
      simp only []
      split_ifs with h2 h3 h4
      · rfl
      · rfl
      · rfl
      · rcases hcount with h | h
        · exact absurd h h2
        · omega

/-- C5 fails as stated: the request with the single part `part.stp` and no material value
does not return an error, whatever the balance check and the size ceiling, because the handler
indexes the material values before it counts the parts. -/
theorem uploadHandler_odd_no_material_counterexample :
    [samplePart "part.stp" 10 100 1].length % 2 = 1 ∧
      ∀ (UploadBalanced : List FileHeader → Bool) (MaxUploadSize : Int),
        (uploadHandler UploadBalanced MaxUploadSize
          ⟨false, [samplePart "part.stp" 10 100 1], []⟩ "/uploads/u/p" (ObjectID.ofNat 0xb1)).2 =
          .panic ∧
        ∀ e, (uploadHandler UploadBalanced MaxUploadSize
          ⟨false, [samplePart "part.stp" 10 100 1], []⟩ "/uploads/u/p" (ObjectID.ofNat 0xb1)).2 ≠
          .error e :=
  ⟨by decide, fun _ _ => ⟨rfl, fun e h => by cases h⟩⟩

/-- C5 as amended: for an upload request whose number of file parts is zero or odd,
`uploadHandler` ends in its initial state, with no file written, no CADFile created and none
updated; and when the request carries a material value, or its form does not parse, the
handler returns an error. -/
theorem uploadHandler_rejects_zero_or_odd (UploadBalanced : List FileHeader → Bool)
    (MaxUploadSize : Int) (r : UploadRequest) (projectFolder : String) (id : ObjectID)
    (hcount : r.files.length = 0 ∨ r.files.length % 2 = 1) :
    (uploadHandler UploadBalanced MaxUploadSize r projectFolder id).1 = UploadState.init ∧
      (uploadHandler UploadBalanced MaxUploadSize r projectFolder id).1.written = [] ∧
      (uploadHandler UploadBalanced MaxUploadSize r projectFolder id).1.created = [] ∧
      (uploadHandler UploadBalanced MaxUploadSize r projectFolder id).1.updated = [] ∧
      ((r.material ≠ [] ∨ r.parseErr = true) →
        ∃ e, (uploadHandler UploadBalanced MaxUploadSize r projectFolder id).2 = .error e) := by
  refine ⟨uploadHandler_zero_or_odd_state _ _ _ _ _ hcount, ?_⟩
  rw [uploadHandler_zero_or_odd_state _ _ _ _ _ hcount]
  refine ⟨rfl, rfl, rfl, ?_⟩
  intro hreq
  unfold uploadHandler
  split_ifs with h1
  · exact ⟨_, rfl⟩
  · cases hm : r.material with
    | nil =>
      rcases hreq with h | h
      · exact absurd hm h
      · exact absurd h h1
    | cons m ms =>
      simp only []
      split_ifs with h2 h3 h4
      · exact ⟨_, rfl⟩
      · exact ⟨_, rfl⟩
      · exact ⟨_, rfl⟩
      · rcases hcount with h | h
        · exact absurd h h2
        · omega

/-- Witness of the amended C5 on a request with the single part `part.stp` and a material
value. -/
theorem uploadHandler_rejects_zero_or_odd_witness :
    (uploadHandler stepObjBalanced 1048576
        ⟨false, [samplePart "part.stp" 10 100 1], ["steel"]⟩ "/uploads/u/p"
        (ObjectID.ofNat 0xb1)).1 = UploadState.init ∧
      (uploadHandler stepObjBalanced 1048576
        ⟨false, [samplePart "part.stp" 10 100 1], ["steel"]⟩ "/uploads/u/p"
        (ObjectID.ofNat 0xb1)).2 =
        .error (.message "Each STEP file must be uploaded with its corresponding obj file") :=
  ⟨(uploadHandler_rejects_zero_or_odd stepObjBalanced 1048576
      ⟨false, [samplePart "part.stp" 10 100 1], ["steel"]⟩ "/uploads/u/p" (ObjectID.ofNat 0xb1)
      (by decide)).1, by decide⟩

theorem uploadLoop_cons_ok (MaxUploadSize : Int) (projectFolder material : String)
    (id : ObjectID) (s s2 : UploadState) (p : UploadPart) (rest : List UploadPart)
    (h : uploadLoop MaxUploadSize projectFolder material id s (p :: rest) = (s2, none)) :
    ∃ s1, uploadStep MaxUploadSize projectFolder material id s p = (s1, none) ∧
      uploadLoop MaxUploadSize projectFolder material id s1 rest = (s2, none) := by
  rw [uploadLoop] at h
  rcases hstep : uploadStep MaxUploadSize projectFolder material id s p with ⟨s1, _ | e⟩
  · rw [hstep] at h
    exact ⟨s1, rfl, h⟩
  · rw [hstep] at h
    simp at h

/-- What a successful step is: the part is acceptable, and the state moves as for a first part
or as for a second part, by whether the base filename is in `tempCache`. -/
theorem uploadStep_ok_cases (MaxUploadSize : Int) (projectFolder material : String)
    (id : ObjectID) (s s1 : UploadState) (p : UploadPart)
    (h : uploadStep MaxUploadSize projectFolder material id s p = (s1, none)) :
    (s.tempCache.get (baseName p) = none ∧
      s1 = { s with
        written := s.written ++ [uploadPath projectFolder p.nowNano (partExt p)]
        tempCache := s.tempCache.set (baseName p) (storageKey projectFolder p)
        fileCache := s.fileCache.set (storageKey projectFolder p)
          (firstRecord projectFolder material id p)
        created := s.created ++ [firstRecord projectFolder material id p] }) ∨
    (∃ key, s.tempCache.get (baseName p) = some key ∧
      s1 = { s with
        written := s.written ++ [uploadPath projectFolder (ParseInt key) (partExt p)]
        updated := s.updated ++ [secondRecord projectFolder s p]
        uploadedFiles := s.uploadedFiles ++ [secondRecord projectFolder s p]
        tempCache := s.tempCache.delete (baseName p) }) := by
  have hok : (uploadStep MaxUploadSize projectFolder material id s p).2 = none := by rw [h]
  obtain ⟨hsz, hacc, hf⟩ := (uploadStep_eq_none_iff _ _ _ _ _ _).mp hok
  cases hget : s.tempCache.get (baseName p) with
  | none =>
    left
    rw [uploadStep_first _ _ _ _ _ _ hsz hacc hf hget] at h
    exact ⟨rfl, (Prod.mk.inj h).1.symm⟩
  | some key =>
    right
    rw [uploadStep_second _ _ _ _ _ _ key hsz hacc hf hget] at h
    exact ⟨key, rfl, (Prod.mk.inj h).1.symm⟩

/-- Along a successful loop the records passed to Update are the records returned. -/
theorem uploadLoop_updated (MaxUploadSize : Int) (projectFolder material : String)
    (id : ObjectID) (ps : List UploadPart) (s s2 : UploadState)
    (h : uploadLoop MaxUploadSize projectFolder material id s ps = (s2, none)) :
    ∃ l, s2.updated = s.updated ++ l ∧ s2.uploadedFiles = s.uploadedFiles ++ l := by
  induction ps generalizing s with
  | nil =>
    rw [uploadLoop] at h
    obtain rfl := (Prod.mk.inj h).1
    exact ⟨[], by simp, by simp⟩
  | cons p rest ih =>
    obtain ⟨s1, hstep, hrest⟩ := uploadLoop_cons_ok _ _ _ _ _ _ _ _ h
    obtain ⟨l, h1, h2⟩ := ih s1 hrest
    rcases uploadStep_ok_cases _ _ _ _ _ _ _ hstep with ⟨_, rfl⟩ | ⟨key, _, rfl⟩
    · exact ⟨l, h1, h2⟩
    · exact ⟨secondRecord projectFolder s p :: l, by simpa using h1, by simpa using h2⟩

/-- Along a successful loop the number of Create calls is the number of base filenames that
are met while not in `tempCache`, when no base filename has more than two parts left (one, if it
is in `tempCache`). -/
theorem uploadLoop_created (MaxUploadSize : Int) (projectFolder material : String)
    (id : ObjectID) (ps : List UploadPart) (s s2 : UploadState)
    (h : uploadLoop MaxUploadSize projectFolder material id s ps = (s2, none))
    (hpending : ∀ b, s.tempCache.get b ≠ none → (ps.map baseName).count b ≤ 1)
    (htwice : ∀ b, (ps.map baseName).count b ≤ 2) :
    s2.created.length = s.created.length +
      ((ps.map baseName).toFinset.filter (fun b => s.tempCache.get b = none)).card := by
  induction ps generalizing s with
  | nil =>
    rw [uploadLoop] at h
    obtain rfl := (Prod.mk.inj h).1
    simp
  | cons p rest ih =>
    obtain ⟨s1, hstep, hrest⟩ := uploadLoop_cons_ok _ _ _ _ _ _ _ _ h
    have hcount : ∀ x, (rest.map baseName).count x ≤ ((p :: rest).map baseName).count x := by
      intro x
      rw [List.map_cons, List.count_cons]
      omega
    rcases uploadStep_ok_cases _ _ _ _ _ _ _ hstep with ⟨hget, rfl⟩ | ⟨key, hget, rfl⟩
    · have hb : (rest.map baseName).count (baseName p) ≤ 1 := by
        have := htwice (baseName p)
        rw [List.map_cons, List.count_cons_self] at this
        omega
      have ih1 := ih _ hrest
        (by
          intro x hx
          simp only [GoMap.get_set] at hx
          by_cases hxb : baseName p = x
          · exact hxb ▸ hb
          · rw [if_neg hxb] at hx
            exact le_trans (hcount x) (hpending x hx))
        (fun x => le_trans (hcount x) (htwice x))
      rw [ih1]
      simp only [List.length_append, List.length_singleton, List.map_cons, List.toFinset_cons]
      have hfilter : (rest.map baseName).toFinset.filter
          (fun b => (s.tempCache.set (baseName p) (storageKey projectFolder p)).get b = none) =
          ((rest.map baseName).toFinset.filter (fun b => s.tempCache.get b = none)).erase
            (baseName p) := by
        ext x
        simp only [Finset.mem_filter, Finset.mem_erase, GoMap.get_set]
        by_cases hxb : baseName p = x
        · simp [hxb]
        · simp [hxb, Ne.symm hxb]
      rw [hfilter, Finset.filter_insert, if_pos hget]
      have hc := Finset.card_erase_add_one (Finset.mem_insert_self (baseName p)
        ((rest.map baseName).toFinset.filter (fun b => s.tempCache.get b = none)))
      rw [Finset.erase_insert_eq_erase] at hc
      omega
    · have hb : (rest.map baseName).count (baseName p) = 0 := by
        have := hpending (baseName p) (by simp [hget])
        rw [List.map_cons, List.count_cons_self] at this
        omega
      have hnot : baseName p ∉ (rest.map baseName).toFinset := by
        rw [List.mem_toFinset]
        exact List.count_eq_zero.mp hb
      have ih1 := ih _ hrest
        (by
          intro x hx
          simp only [GoMap.get_delete] at hx
          by_cases hxb : baseName p = x
          · simp [hxb] at hx
          · rw [if_neg hxb] at hx
            exact le_trans (hcount x) (hpending x hx))
        (fun x => le_trans (hcount x) (htwice x))
      rw [ih1]
      simp only [List.map_cons, List.toFinset_cons]
      have hfilter : (rest.map baseName).toFinset.filter
          (fun b => (s.tempCache.delete (baseName p)).get b = none) =
          (rest.map baseName).toFinset.filter (fun b => s.tempCache.get b = none) := by
        apply Finset.filter_congr
        intro x hx
        have hxb : baseName p ≠ x := fun hxb => hnot (hxb ▸ hx)
        simp [GoMap.get_delete, hxb]
      rw [hfilter, Finset.filter_insert, if_neg (by simp [hget])]

/-- Every record passed to Update along a successful loop is passed while handling a part
whose base filename was met before (in `seen`, which covers `tempCache`, or earlier in the loop). -/
theorem uploadLoop_updated_second (MaxUploadSize : Int) (projectFolder material : String)
    (id : ObjectID) (ps : List UploadPart) (s s2 : UploadState) (seen : List String)
    (h : uploadLoop MaxUploadSize projectFolder material id s ps = (s2, none))
    (hseen : ∀ b, s.tempCache.get b ≠ none → b ∈ seen) :
    ∀ c ∈ s2.updated, c ∈ s.updated ∨
      ∃ pre p post, ps = pre ++ p :: post ∧
        (baseName p ∈ seen ∨ baseName p ∈ pre.map baseName) ∧
        (uploadStep MaxUploadSize projectFolder material id
          (uploadLoop MaxUploadSize projectFolder material id s pre).1 p).1.updated =
          (uploadLoop MaxUploadSize projectFolder material id s pre).1.updated ++ [c] := by
  induction ps generalizing s seen with
  | nil =>
    rw [uploadLoop] at h
    obtain rfl := (Prod.mk.inj h).1
    exact fun c hc => Or.inl hc
  | cons p rest ih =>
    obtain ⟨s1, hstep, hrest⟩ := uploadLoop_cons_ok _ _ _ _ _ _ _ _ h
    have hloop : ∀ pre, uploadLoop MaxUploadSize projectFolder material id s (p :: pre) =
        uploadLoop MaxUploadSize projectFolder material id s1 pre := by
      intro pre
      rw [uploadLoop, hstep]
    have hseen1 : ∀ b, s1.tempCache.get b ≠ none → b ∈ baseName p :: seen := by
      intro b hb
      rcases uploadStep_ok_cases _ _ _ _ _ _ _ hstep with ⟨_, rfl⟩ | ⟨key, _, rfl⟩
      · simp only [GoMap.get_set] at hb
        by_cases hpb : baseName p = b
        · exact hpb ▸ List.mem_cons_self _ _
        · rw [if_neg hpb] at hb
          exact List.mem_cons_of_mem _ (hseen b hb)
      · simp only [GoMap.get_delete] at hb
        by_cases hpb : baseName p = b
        · simp [hpb] at hb
        · rw [if_neg hpb] at hb
          exact List.mem_cons_of_mem _ (hseen b hb)
    intro c hc
    rcases ih s1 (baseName p :: seen) hrest hseen1 c hc with h1 | ⟨pre, q, post, hps, hq, hupd⟩
    · rcases uploadStep_ok_cases _ _ _ _ _ _ _ hstep with ⟨_, rfl⟩ | ⟨key, hget, rfl⟩
      · exact Or.inl h1
      · rcases List.mem_append.mp h1 with h2 | h2
        · exact Or.inl h2
        · right
          refine ⟨[], p, rest, rfl, Or.inl (hseen _ (by simp [hget])), ?_⟩
          simp only [uploadLoop, hstep]
          rw [List.mem_singleton.mp h2]
    · right
      refine ⟨p :: pre, q, post, by rw [hps]; rfl, ?_, ?_⟩
      · rcases hq with hq | hq
        · rcases List.mem_cons.mp hq with hq | hq
          · exact Or.inr (by simp [hq])
          · exact Or.inl hq
        · exact Or.inr (by simp [hq])
      · rw [hloop]
        exact hupd

/-- The handler on a request that passes the checks made before the loop. -/
theorem uploadHandler_eq_loop (UploadBalanced : List FileHeader → Bool)
    (MaxUploadSize : Int) (r : UploadRequest) (projectFolder : String) (id : ObjectID)
    (m : String) (ms : List String)
    (h1 : r.parseErr = false) (hm : r.material = m :: ms) (h2 : r.files.length ≠ 0)
    (h3 : r.files.length % 2 = 0)
    (h4 : UploadBalanced (r.files.map (fun p => p.header)) = true) :
    uploadHandler UploadBalanced MaxUploadSize r projectFolder id =
      match uploadLoop MaxUploadSize projectFolder m id UploadState.init r.files with
      | (s1, some e) => (s1, .error e)
      | (s1, none) => (s1, .ok s1.uploadedFiles) := by
  unfold uploadHandler
  simp only [h1, hm, h4]
  simp [h2, h3]

/-- What an accepted request is: it parses, has a material value, passes the balance check, and
its loop ends without error in the returned state. -/
theorem uploadHandler_ok (UploadBalanced : List FileHeader → Bool)
    (MaxUploadSize : Int) (r : UploadRequest) (projectFolder : String) (id : ObjectID)
    (uploaded : List CADFile)
    (hok : (uploadHandler UploadBalanced MaxUploadSize r projectFolder id).2 = .ok uploaded) :
    uploadLoop MaxUploadSize projectFolder (r.material.headD "") id UploadState.init r.files =
        ((uploadHandler UploadBalanced MaxUploadSize r projectFolder id).1, none) ∧
      uploaded = (uploadHandler UploadBalanced MaxUploadSize r projectFolder id).1.uploadedFiles := by
  have h1 : r.parseErr = false := by
    by_contra h
    simp [uploadHandler, h] at hok
  cases hm : r.material with
  | nil => simp [uploadHandler, h1, hm] at hok
  | cons m ms =>
    have h2 : r.files.length ≠ 0 := by
      intro h
      simp [uploadHandler, h1, hm, h] at hok
    have h3 : r.files.length % 2 = 0 := by
      by_contra h
      simp [uploadHandler, h1, hm, h2, h] at hok
    have h4 : UploadBalanced (r.files.map (fun p => p.header)) = true := by
      by_contra h
      simp [uploadHandler, h1, hm, h2, h3, h] at hok
    rw [uploadHandler_eq_loop _ _ _ _ _ m ms h1 hm h2 h3 h4] at hok ⊢
    simp only [List.headD_cons]
    rcases hloop : uploadLoop MaxUploadSize projectFolder m id UploadState.init r.files
      with ⟨s1, _ | e⟩
    · rw [hloop] at hok
      simp only [UploadResult.ok.injEq] at hok
      exact ⟨rfl, hok.symm⟩
    · rw [hloop] at hok
      simp at hok

/-- What the loop does with a base filename on four parts. Under the sample balance check,
which lets the request `part.stp`, `part.obj`, `part.stp`, `part.obj` through, the handler
returns two records and makes two Create calls for the one base filename. Whether
`helper.UploadBalanced` lets such a request through is not known from the sources. -/
theorem uploadHandler_repeated_base_counterexample :
    (∃ l, (uploadHandler stepObjBalanced 1048576
        ⟨false, [samplePart "part.stp" 10 100 1, samplePart "part.obj" 10 101 2,
          samplePart "part.stp" 10 102 3, samplePart "part.obj" 10 103 4], ["steel"]⟩
        "/uploads/u/p" (ObjectID.ofNat 0xb1)).2 = .ok l ∧ l.length = 2) ∧
      (uploadHandler stepObjBalanced 1048576
        ⟨false, [samplePart "part.stp" 10 100 1, samplePart "part.obj" 10 101 2,
          samplePart "part.stp" 10 102 3, samplePart "part.obj" 10 103 4], ["steel"]⟩
        "/uploads/u/p" (ObjectID.ofNat 0xb1)).1.created.length = 2 ∧
      (([samplePart "part.stp" 10 100 1, samplePart "part.obj" 10 101 2,
          samplePart "part.stp" 10 102 3, samplePart "part.obj" 10 103 4].map
        baseName).dedup).length = 1 := by
  refine ⟨⟨_, rfl, by decide⟩, by decide, by decide⟩

/-- Effects of an accepted upload request, whatever the balance check: the number of Create
calls is the number of distinct base filenames whenever no base filename has more than two
parts; the records passed to Update are the records returned; and every returned record was
passed to Update while a part was handled whose base filename had been met on an earlier part
of the request. -/
theorem uploadHandler_accepted_effects (UploadBalanced : List FileHeader → Bool)
    (MaxUploadSize : Int) (r : UploadRequest) (projectFolder : String) (id : ObjectID)
    (uploaded : List CADFile)
    (hok : (uploadHandler UploadBalanced MaxUploadSize r projectFolder id).2 = .ok uploaded) :
    ((∀ b, (r.files.map baseName).count b ≤ 2) →
        (uploadHandler UploadBalanced MaxUploadSize r projectFolder id).1.created.length =
          ((r.files.map baseName).dedup).length) ∧
      (uploadHandler UploadBalanced MaxUploadSize r projectFolder id).1.updated = uploaded ∧
      ∀ c ∈ uploaded, ∃ pre p post, r.files = pre ++ p :: post ∧
        baseName p ∈ pre.map baseName ∧
        (uploadStep MaxUploadSize projectFolder (r.material.headD "") id
          (uploadLoop MaxUploadSize projectFolder (r.material.headD "") id
            UploadState.init pre).1 p).1.updated =
          (uploadLoop MaxUploadSize projectFolder (r.material.headD "") id
            UploadState.init pre).1.updated ++ [c] := by
  obtain ⟨hloop, hup⟩ := uploadHandler_ok _ _ _ _ _ _ hok
  obtain ⟨l, hl1, hl2⟩ := uploadLoop_updated _ _ _ _ _ _ _ hloop
  have hupdated : (uploadHandler UploadBalanced MaxUploadSize r projectFolder id).1.updated =
      uploaded := by
    rw [hup, hl1, hl2]
    rfl
  refine ⟨?_, hupdated, ?_⟩
  · intro htwice
    have h := uploadLoop_created _ _ _ _ _ _ _ hloop
      (fun b hb => absurd rfl hb) htwice
    rw [h, ← List.card_toFinset]
    simp [UploadState.init, GoMap.get]
  · intro c hc
    rw [← hupdated] at hc
    rcases uploadLoop_updated_second _ _ _ _ _ _ _ [] hloop (fun b hb => absurd rfl hb) c hc
      with h | ⟨pre, p, post, hps, hp, hstep⟩
    · simp [UploadState.init] at h
    · refine ⟨pre, p, post, hps, ?_, hstep⟩
      rcases hp with hp | hp
      · simp at hp
      · exact hp

/-- The effects of the sample request of two pairs. -/
theorem uploadHandler_accepted_effects_witness :
    ((∀ b, (sampleUpload.files.map baseName).count b ≤ 2) →
        (uploadHandler stepObjBalanced 1048576 sampleUpload "/uploads/u/p"
          (ObjectID.ofNat 0xb1)).1.created.length =
          ((sampleUpload.files.map baseName).dedup).length) ∧
      (uploadHandler stepObjBalanced 1048576 sampleUpload "/uploads/u/p"
          (ObjectID.ofNat 0xb1)).1.updated =
        (uploadHandler stepObjBalanced 1048576 sampleUpload "/uploads/u/p"
          (ObjectID.ofNat 0xb1)).1.uploadedFiles ∧
      ∀ c ∈ (uploadHandler stepObjBalanced 1048576 sampleUpload "/uploads/u/p"
          (ObjectID.ofNat 0xb1)).1.uploadedFiles,
        ∃ pre p post, sampleUpload.files = pre ++ p :: post ∧
          baseName p ∈ pre.map baseName ∧
          (uploadStep 1048576 "/uploads/u/p" (sampleUpload.material.headD "")
            (ObjectID.ofNat 0xb1)
            (uploadLoop 1048576 "/uploads/u/p" (sampleUpload.material.headD "")
              (ObjectID.ofNat 0xb1) UploadState.init pre).1 p).1.updated =
            (uploadLoop 1048576 "/uploads/u/p" (sampleUpload.material.headD "")
              (ObjectID.ofNat 0xb1) UploadState.init pre).1.updated ++ [c] :=
  uploadHandler_accepted_effects stepObjBalanced 1048576 sampleUpload "/uploads/u/p"
    (ObjectID.ofNat 0xb1)
    (uploadHandler stepObjBalanced 1048576 sampleUpload "/uploads/u/p"
      (ObjectID.ofNat 0xb1)).1.uploadedFiles (by decide)

theorem uploadPath_ne_empty (projectFolder : String) (newName : Int) (ext : String) :
    uploadPath projectFolder newName ext ≠ "" := by
  intro h
  have h1 := congrArg String.length h
  simp only [uploadPath, String.length_append] at h1
  have h2 : "/".length = 1 := by decide
  have h3 : "".length = 0 := by decide
  omega

theorem formatCount_cons (b : String) (k : Bool) (p : UploadPart) (rest : List UploadPart) :
    formatCount b k (p :: rest) = formatCount b k rest +
      if baseName p = b ∧ isStepExt (partExt p) = k then 1 else 0 := by
  unfold formatCount
  rw [List.countP_cons]
  congr 1
  by_cases h1 : baseName p = b <;> by_cases h2 : isStepExt (partExt p) = k <;> simp [h1, h2]

theorem formatCount_cons_of_ne (b : String) (k : Bool) (p : UploadPart)
    (rest : List UploadPart) (h : baseName p ≠ b) :
    formatCount b k (p :: rest) = formatCount b k rest := by
  rw [formatCount_cons]
  simp [h]

theorem countP_baseName (b : String) (ps : List UploadPart) :
    ps.countP (fun q => decide (baseName q = b)) =
      formatCount b true ps + formatCount b false ps := by
  induction ps with
  | nil => simp [formatCount]
  | cons p rest ih =>
    rw [List.countP_cons, formatCount_cons, formatCount_cons, ih]
    by_cases h1 : baseName p = b <;> cases h2 : isStepExt (partExt p) <;> simp [h1] <;> omega

theorem pending_count_set (m : GoMap String) (b key : String) (rest : List UploadPart)
    (hget : m.get b = none) :
    rest.countP (fun q => ((m.set b key).get (baseName q)).isSome) =
      rest.countP (fun q => (m.get (baseName q)).isSome) +
        rest.countP (fun q => decide (baseName q = b)) := by
  induction rest with
  | nil => simp
  | cons q rest ih =>
    rw [List.countP_cons, List.countP_cons, List.countP_cons, ih, GoMap.get_set]
    by_cases hq : b = baseName q
    · have hq2 : baseName q = b := hq.symm
      simp [hq2, hget]
      omega
    · have hq2 : baseName q ≠ b := fun h => hq h.symm
      simp [hq, hq2]
      omega

theorem pending_count_delete (m : GoMap String) (b : String) (rest : List UploadPart)
    (hb : ∀ q ∈ rest, baseName q ≠ b) :
    rest.countP (fun q => ((m.delete b).get (baseName q)).isSome) =
      rest.countP (fun q => (m.get (baseName q)).isSome) := by
  apply List.countP_congr
  intro q hq
  have := hb q hq
  rw [GoMap.get_delete, if_neg (fun h => this h.symm)]

/-- The pairing loop on parts that are acceptable and in the state `PairingInv`: it ends
without error, every record it returns has both locations, and twice the number of returned
records is the number of parts plus the number of parts whose base filename is in `tempCache`. -/
theorem uploadLoop_pairs (MaxUploadSize : Int) (projectFolder material : String)
    (id : ObjectID) (ps : List UploadPart) (s : UploadState)
    (hinv : PairingInv projectFolder s ps)
    (hacc : ∀ p ∈ ps, p.header.Size ≤ MaxUploadSize ∧ acceptedExt (partExt p) ∧
      p.fault = none) :
    ∃ s2 new, uploadLoop MaxUploadSize projectFolder material id s ps = (s2, none) ∧
      s2.uploadedFiles = s.uploadedFiles ++ new ∧
      (∀ c ∈ new, c.StepURL ≠ "" ∧ c.ObjpURL ≠ "") ∧
      2 * new.length =
        ps.length + ps.countP (fun q => (s.tempCache.get (baseName q)).isSome) := by
  induction ps generalizing s with
  | nil => exact ⟨s, [], rfl, by simp, by simp, by simp⟩
  | cons p rest ih =>
    obtain ⟨hnd, hkeys, hnone, hsome⟩ := hinv
    obtain ⟨hsz, hext, hf⟩ := hacc p (List.mem_cons_self _ _)
    have hacc1 : ∀ q ∈ rest, q.header.Size ≤ MaxUploadSize ∧ acceptedExt (partExt q) ∧
        q.fault = none := fun q hq => hacc q (List.mem_cons_of_mem _ hq)
    rw [List.map_cons, List.nodup_cons] at hnd
    have hkeys1 : ∀ b k, s.tempCache.get b = some k →
        k ≠ storageKey projectFolder p ∧ k ∉ rest.map (storageKey projectFolder) := by
      intro b k hb
      have := hkeys b k hb
      rw [List.map_cons, List.mem_cons, not_or] at this
      exact this
    cases hget : s.tempCache.get (baseName p) with
    | none =>
      have hstep := uploadStep_first MaxUploadSize projectFolder material id s p hsz hext hf hget
      have hcnt := hnone _ hget
      rw [formatCount_cons, formatCount_cons] at hcnt
      have hrest : (isStepExt (partExt p) = true →
            formatCount (baseName p) true rest = 0 ∧ formatCount (baseName p) false rest = 1) ∧
          (isStepExt (partExt p) = false →
            formatCount (baseName p) true rest = 1 ∧ formatCount (baseName p) false rest = 0) := by
        cases hk : isStepExt (partExt p) <;> simp [hk] at hcnt ⊢ <;> omega
      have hinv1 : PairingInv projectFolder
          { s with
            written := s.written ++ [uploadPath projectFolder p.nowNano (partExt p)]
            tempCache := s.tempCache.set (baseName p) (storageKey projectFolder p)
            fileCache := s.fileCache.set (storageKey projectFolder p)
              (firstRecord projectFolder material id p)
            created := s.created ++ [firstRecord projectFolder material id p] } rest := by
        refine ⟨hnd.2, ?_, ?_, ?_⟩
        · intro x k hx
          simp only [GoMap.get_set] at hx
          by_cases hxb : baseName p = x
          · rw [if_pos hxb] at hx
            obtain rfl := Option.some.inj hx
            exact hnd.1
          · rw [if_neg hxb] at hx
            exact (hkeys1 x k hx).2
        · intro x hx
          simp only [GoMap.get_set] at hx
          by_cases hxb : baseName p = x
          · rw [if_pos hxb] at hx
            simp at hx
          · rw [if_neg hxb] at hx
            have := hnone x hx
            rwa [formatCount_cons_of_ne _ _ _ _ hxb, formatCount_cons_of_ne _ _ _ _ hxb] at this
        · intro x k hx
          simp only [GoMap.get_set] at hx ⊢
          by_cases hxb : baseName p = x
          · rw [if_pos hxb] at hx
            obtain rfl := Option.some.inj hx
            subst hxb
            refine ⟨firstRecord projectFolder material id p, by simp, ?_⟩
            cases hk : isStepExt (partExt p)
            · left
              have := hrest.2 hk
              refine ⟨this.1, this.2, ?_⟩
              simp only [firstRecord, hk]
              exact uploadPath_ne_empty _ _ _
            · right
              have := hrest.1 hk
              refine ⟨this.1, this.2, ?_⟩
              simp only [firstRecord, hk]
              exact uploadPath_ne_empty _ _ _
          · rw [if_neg hxb] at hx
            obtain ⟨c, hc, hdisj⟩ := hsome x k hx
            have hk : storageKey projectFolder p ≠ k := fun h => (hkeys1 x k hx).1 h.symm
            refine ⟨c, by rw [if_neg hk]; exact hc, ?_⟩
            rwa [formatCount_cons_of_ne _ _ _ _ hxb, formatCount_cons_of_ne _ _ _ _ hxb]
              at hdisj
      obtain ⟨s2, new, hloop, hup, hurl, hlen⟩ := ih _ hinv1 hacc1
      refine ⟨s2, new, by rw [uploadLoop, hstep]; exact hloop, hup, hurl, ?_⟩
      have hone : rest.countP (fun q => decide (baseName q = baseName p)) = 1 := by
        rw [countP_baseName]
        cases hk : isStepExt (partExt p)
        · have := hrest.2 hk
          omega
        · have := hrest.1 hk
          omega
      rw [hlen]
      simp only []
      rw [pending_count_set _ _ _ _ hget, hone, List.countP_cons, hget]
      simp
      omega
    | some key =>
      have hstep := uploadStep_second MaxUploadSize projectFolder material id s p key hsz hext hf
        hget
      obtain ⟨c, hc, hdisj⟩ := hsome _ key hget
      rw [formatCount_cons, formatCount_cons] at hdisj
      have hrest : formatCount (baseName p) true rest = 0 ∧
          formatCount (baseName p) false rest = 0 ∧
          (secondRecord projectFolder s p).StepURL ≠ "" ∧
          (secondRecord projectFolder s p).ObjpURL ≠ "" := by
        have hpath := uploadPath_ne_empty projectFolder (ParseInt key) (partExt p)
        cases hk : isStepExt (partExt p)
        · simp only [hk, and_true, and_false, if_true, if_false, Bool.false_eq_true] at hdisj
          simp only [secondRecord, hget, hc, hk, Option.getD_some]
          rcases hdisj with ⟨h1, h2, h3⟩ | ⟨h1, h2, h3⟩
          · omega
          · exact ⟨by omega, by omega, h3, hpath⟩
        · simp only [hk, and_true, and_false, if_true, if_false, Bool.true_eq_false] at hdisj
          simp only [secondRecord, hget, hc, hk, Option.getD_some]
          rcases hdisj with ⟨h1, h2, h3⟩ | ⟨h1, h2, h3⟩
          · exact ⟨by omega, by omega, hpath, h3⟩
          · omega
      have hnobase : ∀ q ∈ rest, baseName q ≠ baseName p := by
        have h0 : rest.countP (fun q => decide (baseName q = baseName p)) = 0 := by
          rw [countP_baseName]
          omega
        intro q hq
        have := List.countP_eq_zero.mp h0 q hq
        simpa using this
      have hinv1 : PairingInv projectFolder
          { s with
            written := s.written ++ [uploadPath projectFolder (ParseInt key) (partExt p)]
            updated := s.updated ++ [secondRecord projectFolder s p]
            uploadedFiles := s.uploadedFiles ++ [secondRecord projectFolder s p]
            tempCache := s.tempCache.delete (baseName p) } rest := by
        refine ⟨hnd.2, ?_, ?_, ?_⟩
        · intro x k hx
          simp only [GoMap.get_delete] at hx
          by_cases hxb : baseName p = x
          · rw [if_pos hxb] at hx
            simp at hx
          · rw [if_neg hxb] at hx
            exact (hkeys1 x k hx).2
        · intro x hx
          simp only [GoMap.get_delete] at hx
          by_cases hxb : baseName p = x
          · subst hxb
            rw [hrest.1, hrest.2.1]
            exact ⟨rfl, by omega⟩
          · rw [if_neg hxb] at hx
            have := hnone x hx
            rwa [formatCount_cons_of_ne _ _ _ _ hxb, formatCount_cons_of_ne _ _ _ _ hxb] at this
        · intro x k hx
          simp only [GoMap.get_delete] at hx
          by_cases hxb : baseName p = x
          · rw [if_pos hxb] at hx
            simp at hx
          · rw [if_neg hxb] at hx
            obtain ⟨c1, hc1, hdisj1⟩ := hsome x k hx
            refine ⟨c1, hc1, ?_⟩
            rwa [formatCount_cons_of_ne _ _ _ _ hxb, formatCount_cons_of_ne _ _ _ _ hxb]
              at hdisj1
      obtain ⟨s2, new, hloop, hup, hurl, hlen⟩ := ih _ hinv1 hacc1
      refine ⟨s2, secondRecord projectFolder s p :: new, by rw [uploadLoop, hstep]; exact hloop,
        by rw [hup]; simp, ?_, ?_⟩
      · intro c1 hc1
        rcases List.mem_cons.mp hc1 with rfl | hc1
        · exact ⟨hrest.2.2.1, hrest.2.2.2⟩
        · exact hurl c1 hc1
      · simp only [] at hlen
        rw [pending_count_delete _ _ _ hnobase] at hlen
        rw [List.length_cons, List.length_cons, List.countP_cons, hget]
        simp
        omega

/-! ### Storage keys -/

theorem digitChar_toNat (d : Nat) (h : d < 10) : (Nat.digitChar d).toNat = 48 + d := by
  interval_cases d <;> rfl

theorem toDigitsCore_spec (fuel n : Nat) (acc : List Char) (h : n < fuel) :
    ∃ ds, Nat.toDigitsCore 10 fuel n acc = ds ++ acc ∧ decodeRev ds.reverse = n ∧
      ds ≠ [] ∧ ∀ c ∈ ds, 48 ≤ c.toNat := by
  induction fuel generalizing n acc with
  | zero => omega
  | succ fuel ih =>
    have hd := digitChar_toNat (n % 10) (Nat.mod_lt _ (by norm_num))
    rw [Nat.toDigitsCore]
    by_cases h0 : n / 10 = 0
    · simp only [h0, if_true]
      refine ⟨[Nat.digitChar (n % 10)], rfl, ?_, by simp, ?_⟩
      · simp only [List.reverse_singleton, decodeRev, hd]
        omega
      · intro c hc
        rw [List.mem_singleton.mp hc, hd]
        omega
    · simp only [h0, if_false]
      obtain ⟨ds, h1, h2, h3, h4⟩ := ih (n / 10) (Nat.digitChar (n % 10) :: acc) (by omega)
      refine ⟨ds ++ [Nat.digitChar (n % 10)], by rw [h1]; simp, ?_, by simp, ?_⟩
      · simp only [List.reverse_append, List.reverse_singleton, List.singleton_append, decodeRev,
          hd, h2]
        omega
      · intro c hc
        rcases List.mem_append.mp hc with hc | hc
        · exact h4 c hc
        · rw [List.mem_singleton.mp hc, hd]
          omega

theorem Nat_repr_spec (n : Nat) :
    decodeRev (Nat.repr n).data.reverse = n ∧ (Nat.repr n).data ≠ [] ∧
      ∀ c ∈ (Nat.repr n).data, 48 ≤ c.toNat := by
  obtain ⟨ds, h1, h2, h3, h4⟩ := toDigitsCore_spec (n + 1) n [] (by omega)
  have : (Nat.repr n).data = ds := by
    simp [Nat.repr, Nat.toDigits, h1, List.asString]
  rw [this]
  exact ⟨h2, h3, h4⟩

theorem Nat_repr_injective (n m : Nat) (h : Nat.repr n = Nat.repr m) : n = m := by
  rw [← (Nat_repr_spec n).1, ← (Nat_repr_spec m).1, h]

theorem Int_toString_data (n : Int) :
    (∀ c ∈ (toString n).data, c ≠ '/') := by
  intro c hc
  cases n with
  | ofNat m =>
    have : toString (Int.ofNat m) = Nat.repr m := rfl
    rw [this] at hc
    have := (Nat_repr_spec m).2.2 c hc
    intro h
    rw [h] at this
    exact absurd this (by decide)
  | negSucc m =>
    have : toString (Int.negSucc m) = "-" ++ Nat.repr (m + 1) := rfl
    rw [this] at hc
    simp only [String.data_append, List.mem_append] at hc
    rcases hc with hc | hc
    · rw [List.mem_singleton] at hc
      rw [hc]
      decide
    · have := (Nat_repr_spec (m + 1)).2.2 c hc
      intro h
      rw [h] at this
      exact absurd this (by decide)

theorem Int_toString_injective (n m : Int) (h : toString n = toString m) : n = m := by
  have hneg : ∀ a b : Nat, toString (Int.ofNat a) ≠ toString (Int.negSucc b) := by
    intro a b hab
    have h1 : toString (Int.ofNat a) = Nat.repr a := rfl
    have h2 : toString (Int.negSucc b) = "-" ++ Nat.repr (b + 1) := rfl
    rw [h1, h2] at hab
    obtain ⟨_, hne, hdig⟩ := Nat_repr_spec a
    have hd : (Nat.repr a).data = '-' :: (Nat.repr (b + 1)).data := by
      rw [hab]
      rfl
    have := hdig '-' (by rw [hd]; exact List.mem_cons_self _ _)
    exact absurd this (by decide)
  cases n with
  | ofNat a =>
    cases m with
    | ofNat b =>
      have : Nat.repr a = Nat.repr b := h
      rw [Nat_repr_injective a b this]
    | negSucc b => exact absurd h (hneg a b)
  | negSucc a =>
    cases m with
    | ofNat b => exact absurd h.symm (hneg b a)
    | negSucc b =>
      have h1 : "-" ++ Nat.repr (a + 1) = "-" ++ Nat.repr (b + 1) := h
      have h2 : Nat.repr (a + 1) = Nat.repr (b + 1) := by
        have := congrArg String.data h1
        simp only [String.data_append, List.append_cancel_left_eq] at this
        exact String.ext this
      have := Nat_repr_injective _ _ h2
      have : a = b := by omega
      rw [this]

theorem extScan_stp (ds : List Char) : extScan (".stp".data.reverse ++ ds) [] = ".stp".data := by
  simp [extScan]

theorem extScan_step (ds : List Char) : extScan (".step".data.reverse ++ ds) [] = ".step".data := by
  simp [extScan]

theorem extScan_obj (ds : List Char) : extScan (".obj".data.reverse ++ ds) [] = ".obj".data := by
  simp [extScan]

/-- On an accepted extension, the storage key of a part is the decimal text of its clock
reading. -/
theorem storageKey_eq (projectFolder : String) (p : UploadPart) (h : acceptedExt (partExt p)) :
    storageKey projectFolder p = toString p.nowNano := by
  have hD := Int_toString_data p.nowNano
  have hE : ∀ c ∈ (partExt p).data, c ≠ '/' := by
    rcases h with h | h | h <;> rw [h] <;> decide
  have hExt : ∀ ds : List Char, extScan ((partExt p).data.reverse ++ ds) [] = (partExt p).data := by
    intro ds
    rcases h with h | h | h <;> rw [h]
    · exact extScan_stp ds
    · exact extScan_step ds
    · exact extScan_obj ds
  have hne : (partExt p).data ≠ [] := by
    rcases h with h | h | h <;> rw [h] <;> decide
  have hbase : filepathBase (uploadPath projectFolder p.nowNano (partExt p)) =
      ⟨(toString p.nowNano).data ++ (partExt p).data⟩ := by
    have hdata : (uploadPath projectFolder p.nowNano (partExt p)).data.reverse =
        ((partExt p).data.reverse ++ (toString p.nowNano).data.reverse) ++
          '/' :: projectFolder.data.reverse := by
      have h1 : "/".data = ['/'] := rfl
      simp [uploadPath, String.data_append, h1]
    obtain ⟨e, es, hes⟩ : ∃ e es, (partExt p).data.reverse = e :: es := by
      cases hr : (partExt p).data.reverse with
      | nil => exact absurd (List.reverse_eq_nil_iff.mp hr) hne
      | cons e es => exact ⟨e, es, rfl⟩
    have he : e ≠ '/' := hE e (by
      rw [← List.mem_reverse, hes]
      exact List.mem_cons_self _ _)
    have hdrop : List.dropWhile (fun c => decide (c = '/'))
        (uploadPath projectFolder p.nowNano (partExt p)).data.reverse =
        ((partExt p).data.reverse ++ (toString p.nowNano).data.reverse) ++
          '/' :: projectFolder.data.reverse := by
      rw [hdata, hes]
      simp [List.dropWhile_cons, he]
    have htake : List.takeWhile (fun c => decide (c ≠ '/'))
        (((partExt p).data.reverse ++ (toString p.nowNano).data.reverse) ++
          '/' :: projectFolder.data.reverse) =
        (partExt p).data.reverse ++ (toString p.nowNano).data.reverse := by
      rw [List.takeWhile_append_of_pos]
      · simp [List.takeWhile_cons]
      · intro a ha
        rcases List.mem_append.mp ha with ha | ha
        · simpa using hE a (List.mem_reverse.mp ha)
        · simpa using hD a (List.mem_reverse.mp ha)
    have hpath : (uploadPath projectFolder p.nowNano (partExt p)).data ≠ [] := by
      intro h0
      rw [h0] at hdata
      simp at hdata
    unfold filepathBase
    rw [if_neg hpath]
    simp only [hdrop, htake, List.reverse_append, List.reverse_reverse]
    rw [if_neg]
    simp [hne]
  unfold storageKey
  rw [hbase]
  unfold FileNameWithoutExtSlice filepathExt
  simp only [List.reverse_append, hExt, List.length_append, Nat.add_sub_cancel,
    List.take_left']

/-- Distinct clock readings give distinct storage keys. -/
theorem storageKeys_nodup (projectFolder : String) (ps : List UploadPart)
    (hacc : ∀ p ∈ ps, acceptedExt (partExt p))
    (hclock : (ps.map (fun p => p.nowNano)).Nodup) :
    (ps.map (storageKey projectFolder)).Nodup := by
  have hmap : ps.map (storageKey projectFolder) =
      (ps.map (fun p => p.nowNano)).map (fun n : Int => toString n) := by
    rw [List.map_map]
    apply List.map_congr_left
    intro p hp
    exact storageKey_eq projectFolder p (hacc p hp)
  rw [hmap]
  exact hclock.map (fun n m h => Int_toString_injective n m h)

/-- At entry of the handler, a request of matched pairs with distinct clock readings is in the
state `PairingInv`. -/
theorem PairingInv_init (projectFolder : String) (files : List UploadPart)
    (hpairs : MatchedPairs files) (hclock : (files.map (fun p => p.nowNano)).Nodup) :
    PairingInv projectFolder UploadState.init files := by
  refine ⟨storageKeys_nodup projectFolder files (fun p hp => (hpairs p hp).1) hclock, ?_, ?_, ?_⟩
  · intro b k hb
    simp [UploadState.init, GoMap.get] at hb
  · intro b _
    by_cases hex : ∃ p ∈ files, baseName p = b
    · obtain ⟨p, hp, rfl⟩ := hex
      obtain ⟨_, h1, h2⟩ := hpairs p hp
      omega
    · have h0 : ∀ k, formatCount b k files = 0 := by
        intro k
        unfold formatCount
        rw [List.countP_eq_zero]
        intro q hq hqb
        simp only [Bool.and_eq_true, decide_eq_true_eq] at hqb
        exact hex ⟨q, hq, hqb.1⟩
      rw [h0 true, h0 false]
      exact ⟨rfl, by omega⟩
  · intro b k hb
    simp [UploadState.init, GoMap.get] at hb

/-- C1 fails as stated: the matched pair `part.stp`, `part.obj` sent without a material value
does not succeed, whatever the balance check and the size ceiling, because the handler indexes
the material values before it looks at the parts; and the request of zero matched pairs with a
material value is answered with an error, not with zero records. -/
theorem uploadHandler_matched_pairs_counterexample :
    MatchedPairs [samplePart "part.stp" 10 100 1, samplePart "part.obj" 10 101 2] ∧
      (∀ (UploadBalanced : List FileHeader → Bool) (MaxUploadSize : Int),
        (uploadHandler UploadBalanced MaxUploadSize
          ⟨false, [samplePart "part.stp" 10 100 1, samplePart "part.obj" 10 101 2], []⟩
          "/uploads/u/p" (ObjectID.ofNat 0xb1)).2 = .panic) ∧
      MatchedPairs [] ∧
      (∀ (UploadBalanced : List FileHeader → Bool) (MaxUploadSize : Int),
        (uploadHandler UploadBalanced MaxUploadSize ⟨false, [], ["steel"]⟩
          "/uploads/u/p" (ObjectID.ofNat 0xb1)).2 =
          .error (.message "Select a file(s) to upload")) :=
  ⟨by decide, fun _ _ => rfl, by decide, fun _ _ => rfl⟩

/-- C1 as amended: for an upload request that carries a material value and is made of N matched
pairs, N at least 1 (every part of accepted extension and size, every base filename on one step
format part and one mesh part, the balance check passed, no file system or store fault, clock
readings pairwise distinct), `uploadHandler` succeeds and returns exactly N CADFile records,
each with non-empty StepURL and non-empty ObjpURL. -/
theorem uploadHandler_matched_pairs (UploadBalanced : List FileHeader → Bool)
    (MaxUploadSize : Int) (r : UploadRequest) (projectFolder : String) (id : ObjectID) (N : Nat)
    (hparse : r.parseErr = false) (hmaterial : r.material ≠ [])
    (hN : 0 < N) (hlen : r.files.length = 2 * N)
    (hpairs : MatchedPairs r.files)
    (hbalanced : UploadBalanced (r.files.map (fun p => p.header)) = true)
    (hsize : ∀ p ∈ r.files, p.header.Size ≤ MaxUploadSize)
    (hfault : ∀ p ∈ r.files, p.fault = none)
    (hclock : (r.files.map (fun p => p.nowNano)).Nodup) :
    ∃ uploaded,
      (uploadHandler UploadBalanced MaxUploadSize r projectFolder id).2 = .ok uploaded ∧
      uploaded.length = N ∧
      ∀ c ∈ uploaded, c.StepURL ≠ "" ∧ c.ObjpURL ≠ "" := by
  cases hm : r.material with
  | nil => exact absurd hm hmaterial
  | cons m ms =>
    obtain ⟨s2, new, hloop, hup, hurl, hcount⟩ := uploadLoop_pairs MaxUploadSize projectFolder
      m id r.files UploadState.init (PairingInv_init projectFolder r.files hpairs hclock)
      (fun p hp => ⟨hsize p hp, (hpairs p hp).1, hfault p hp⟩)
    rw [uploadHandler_eq_loop _ _ _ _ _ m ms hparse hm (by omega) (by omega) hbalanced, hloop]
    refine ⟨s2.uploadedFiles, rfl, ?_, ?_⟩
    · have h0 : r.files.countP
          (fun q => (UploadState.init.tempCache.get (baseName q)).isSome) = 0 := by
        rw [List.countP_eq_zero]
        intro q _
        simp [UploadState.init, GoMap.get]
      rw [hup]
      simp only [UploadState.init, List.nil_append]
      rw [h0] at hcount
      omega
    · rw [hup]
      simpa [UploadState.init] using hurl

/-- Witness of the amended C1 on the sample request of two pairs. -/
theorem uploadHandler_matched_pairs_witness :
    ∃ uploaded,
      (uploadHandler stepObjBalanced 1048576 sampleUpload "/uploads/u/p"
        (ObjectID.ofNat 0xb1)).2 = .ok uploaded ∧
      uploaded.length = 2 ∧
      ∀ c ∈ uploaded, c.StepURL ≠ "" ∧ c.ObjpURL ≠ "" :=
  uploadHandler_matched_pairs stepObjBalanced 1048576 sampleUpload "/uploads/u/p"
    (ObjectID.ofNat 0xb1) 2 (by decide) (by decide) (by decide) (by decide) (by decide)
    (by decide) (by decide) (by decide) (by decide)

/-! ## Completion handler: halting, replays, other events -/

/-- C15: for an event that is neither a FeatureRecognitionComplete nor a
ProcessPlanningComplete, `handleEvent` returns normally, makes no call on the CADFile, Task,
Tool or ProcessingPlan stores, and leaves the store as it was. -/
theorem handleEvent_other_event (newID : ObjectID) (now : Int) (s : Store) (ev : Event)
    (hfrc : ∀ e, ev ≠ .featureRecognitionComplete e)
    (hppc : ∀ e, ev ≠ .processPlanningComplete e) :
    (handleEvent newID now s ev).outcome = .done ∧
      (handleEvent newID now s ev).calls = [] ∧
      (handleEvent newID now s ev).store = s := by
  cases ev with
  | featureRecognitionComplete e => exact absurd rfl (hfrc e)
  | processPlanningComplete e => exact absurd rfl (hppc e)
  | other eventName => exact ⟨rfl, rfl, rfl⟩

/-- Witness of C15 on an event of another kind. -/
theorem handleEvent_other_event_witness :
    (handleEvent (ObjectID.ofNat 1) 0 (sampleStore 0) (.other "userRegistered")).outcome = .done ∧
      (handleEvent (ObjectID.ofNat 1) 0 (sampleStore 0) (.other "userRegistered")).calls = [] ∧
      (handleEvent (ObjectID.ofNat 1) 0 (sampleStore 0) (.other "userRegistered")).store =
        sampleStore 0 :=
  handleEvent_other_event (ObjectID.ofNat 1) 0 (sampleStore 0) (.other "userRegistered")
    (fun _ h => Event.noConfusion h) (fun _ h => Event.noConfusion h)

theorem cadFile_Find_none_of_no_record (s : Store) (oid : ObjectID)
    (h : ∀ c ∈ s.cadFiles, c.ID ≠ oid) : CadFileService.Find s oid.Hex = none := by
  unfold CadFileService.Find
  rw [ObjectIDFromHex_Hex]
  simp only []
  rw [List.find?_eq_none]
  intro c hc
  simpa using h c hc

/-- C12 fails as stated: an event whose CADFileID names no stored CADFile, while the
CADFileID of its plan names the stored sample CADFile, is handled to the end. -/
theorem handleEvent_planning_unknown_id_counterexample :
    CadFileService.Find (sampleStore 1) "0000000000000000000000ff" = none ∧
      (handleEvent (ObjectID.ofNat 0xd2) 50 (sampleStore 1)
        (.processPlanningComplete
          { samplePlanning with CADFileID := "0000000000000000000000ff" })).outcome = .done := by
  decide

/-- C12 as amended: for a ProcessPlanningComplete event whose plan carries a CADFileID that no
stored CADFile has, `handleEvent` halts the consumer at the CADFile lookup, before any write. -/
theorem handleEvent_planning_unknown_cadfile (newID : ObjectID) (now : Int) (s : Store)
    (e : ProcessPlanningComplete)
    (h : ∀ c ∈ s.cadFiles, c.ID ≠ e.ProcessingPlan.CADFileID) :
    (handleEvent newID now s (.processPlanningComplete e)).outcome =
        .fatal "Cadfile does not exist " ∧
      (handleEvent newID now s (.processPlanningComplete e)).store = s := by
  have hfind := cadFile_Find_none_of_no_record s e.ProcessingPlan.CADFileID h
  unfold handleEvent
  simp only [hfind]
  exact ⟨trivial, trivial⟩

/-- Witness of the amended C12: the plan names a CADFile that the sample store lacks. -/
theorem handleEvent_planning_unknown_cadfile_witness :
    (handleEvent (ObjectID.ofNat 0xd2) 50 (sampleStore 1)
        (.processPlanningComplete
          { samplePlanning with
            ProcessingPlan := { samplePlan with CADFileID := ObjectID.ofNat 0xff } })).outcome =
        .fatal "Cadfile does not exist " ∧
      (handleEvent (ObjectID.ofNat 0xd2) 50 (sampleStore 1)
        (.processPlanningComplete
          { samplePlanning with
            ProcessingPlan := { samplePlan with CADFileID := ObjectID.ofNat 0xff } })).store =
        sampleStore 1 :=
  handleEvent_planning_unknown_cadfile (ObjectID.ofNat 0xd2) 50 (sampleStore 1)
    { samplePlanning with
      ProcessingPlan := { samplePlan with CADFileID := ObjectID.ofNat 0xff } }
    (by decide)

theorem cadFile_Update_frame (s s1 : Store) (c : CADFile)
    (h : CadFileService.Update s c = some s1) :
    s1.tasks = s.tasks ∧ s1.plans = s.plans ∧ s1.tools = s.tools := by
  unfold CadFileService.Update at h
  cases hr : replaceFirst (fun x => decide (x.ID = c.ID)) c s.cadFiles with
  | none => simp [hr] at h
  | some l =>
    rw [hr] at h
    simp only [Option.map_some', Option.some.injEq] at h
    subst h
    exact ⟨rfl, rfl, rfl⟩

theorem task_Update_frame (s s1 : Store) (t : Task)
    (h : TaskService.Update s t = some s1) :
    s1.cadFiles = s.cadFiles ∧ s1.plans = s.plans ∧ s1.tools = s.tools := by
  unfold TaskService.Update at h
  cases hr : replaceFirst (fun x => decide (x.TaskID = t.TaskID)) t s.tasks with
  | none => simp [hr] at h
  | some l =>
    rw [hr] at h
    simp only [Option.map_some', Option.some.injEq] at h
    subst h
    exact ⟨rfl, rfl, rfl⟩

theorem replaceFirst_self {α : Type} (p : α → Bool) (x : α) (l : List α)
    (h : l.find? p = some x) : replaceFirst p x l = some l := by
  induction l with
  | nil => simp at h
  | cons y ys ih =>
    by_cases hy : p y = true
    · rw [List.find?_cons, hy] at h
      simp only [Option.some.injEq] at h
      subst h
      simp [replaceFirst, hy]
    · have hy2 : p y = false := by simpa using hy
      rw [List.find?_cons, hy2] at h
      simp [replaceFirst, hy2, ih h]

/-- Updating with the very record found under `id` leaves the store as it is. -/
theorem cadFile_Update_self (s : Store) (id : String) (c : CADFile)
    (h : CadFileService.Find s id = some c) : CadFileService.Update s c = some s := by
  obtain ⟨oid, _, hfind, hc⟩ := cadFile_Find_some h
  have hp : (fun x : CADFile => decide (x.ID = c.ID)) = (fun x => decide (x.ID = oid)) := by
    rw [hc]
  unfold CadFileService.Update
  rw [hp, replaceFirst_self _ _ _ hfind]
  rfl

/-- The same for Tasks. -/
theorem task_Update_self (s : Store) (id : String) (t : Task)
    (h : TaskService.Find s id = some t) : TaskService.Update s t = some s := by
  obtain ⟨oid, _, hfind, hc⟩ := task_Find_some h
  have hp : (fun x : Task => decide (x.TaskID = t.TaskID)) =
      (fun x => decide (x.TaskID = oid)) := by
    rw [hc]
  unfold TaskService.Update
  rw [hp, replaceFirst_self _ _ _ hfind]
  rfl

theorem resolveTools_congr (s1 s2 : Store) (h : s1.tools = s2.tools) (bs : List BendFeature) :
    resolveTools s1 bs = resolveTools s2 bs := by
  induction bs with
  | nil => rfl
  | cons b bs ih => simp only [resolveTools, ToolService.FindByAngle, h, ih]

/-- The feature recognition branch when every lookup and update succeeds. -/
theorem handleEvent_recognition_run (newID : ObjectID) (now : Int) (s s1 s2 : Store)
    (e : FeatureRecognitionComplete) (c : CADFile) (t : Task) (bends : List BendFeature)
    (hcad : CadFileService.Find s e.CADFileID = some c)
    (hres : resolveTools s e.BendFeatures = some bends)
    (hup1 : CadFileService.Update s
      { c with FeatureProps := e.FeatureProps, BendFeatures := bends } = some s1)
    (htask : TaskService.Find s1 e.TaskID = some t)
    (hup2 : TaskService.Update s1
      { t with Status := .Complete, ProcessingTime := e.FeatureProps.FRETime } = some s2) :
    (handleEvent newID now s (.featureRecognitionComplete e)).store = s2 ∧
      (handleEvent newID now s (.featureRecognitionComplete e)).outcome = .done := by
  unfold handleEvent
  simp only [hcad]
  simp only [hres]
  simp only [hup1]
  simp only [htask]
  simp only [hup2]
  exact ⟨trivial, trivial⟩

/-- C13: for a FeatureRecognitionComplete event whose CADFile, Task and bend tools are stored,
handling the event a second time right after the first leaves the store as the first handling
left it; both handlings return normally, and the store keeps its number of CADFile rows and of
Task rows. -/
theorem handleEvent_recognition_replay (newID1 newID2 : ObjectID) (now1 now2 : Int) (s : Store)
    (e : FeatureRecognitionComplete) (c : CADFile) (t : Task)
    (hcad : CadFileService.Find s e.CADFileID = some c)
    (htask : TaskService.Find s e.TaskID = some t)
    (htools : ∀ b ∈ e.BendFeatures, ∃ tool, ToolService.FindByAngle s b.Angle = some tool) :
    (handleEvent newID2 now2 (handleEvent newID1 now1 s (.featureRecognitionComplete e)).store
        (.featureRecognitionComplete e)).store =
        (handleEvent newID1 now1 s (.featureRecognitionComplete e)).store ∧
      (handleEvent newID1 now1 s (.featureRecognitionComplete e)).outcome = .done ∧
      (handleEvent newID2 now2 (handleEvent newID1 now1 s (.featureRecognitionComplete e)).store
        (.featureRecognitionComplete e)).outcome = .done ∧
      (handleEvent newID1 now1 s (.featureRecognitionComplete e)).store.cadFiles.length =
        s.cadFiles.length ∧
      (handleEvent newID1 now1 s (.featureRecognitionComplete e)).store.tasks.length =
        s.tasks.length := by
  obtain ⟨bends, hres, _⟩ := resolveTools_ok s e.BendFeatures htools
  obtain ⟨l1, hup1, hfind1, hlen1⟩ := cadFile_Update_found _ _ _
    { c with FeatureProps := e.FeatureProps, BendFeatures := bends } hcad rfl
  have htask1 : TaskService.Find { s with cadFiles := l1 } e.TaskID = some t :=
    (task_Find_congr { s with cadFiles := l1 } s rfl _).trans htask
  obtain ⟨l2, hup2, hfind2, hlen2⟩ := task_Update_found _ _ _
    { t with Status := .Complete, ProcessingTime := e.FeatureProps.FRETime } htask1 rfl
  obtain ⟨hrun1, hdone1⟩ := handleEvent_recognition_run newID1 now1 s _ _ e c t bends hcad hres
    hup1 htask1 hup2
  have hcad2 := hfind1 { s with cadFiles := l1, tasks := l2 } rfl
  have htask2 := hfind2 { s with cadFiles := l1, tasks := l2 } rfl
  have hres2 : resolveTools { s with cadFiles := l1, tasks := l2 } e.BendFeatures = some bends :=
    (resolveTools_congr { s with cadFiles := l1, tasks := l2 } s rfl _).trans hres
  obtain ⟨hrun2, hdone2⟩ := handleEvent_recognition_run newID2 now2
    { s with cadFiles := l1, tasks := l2 } { s with cadFiles := l1, tasks := l2 }
    { s with cadFiles := l1, tasks := l2 } e _ _ bends hcad2 hres2
    (cadFile_Update_self _ _ _ hcad2) htask2 (task_Update_self _ _ _ htask2)
  rw [hrun1]
  exact ⟨hrun2, hdone1, hdone2, hlen1, hlen2⟩

/-- Witness of C13 on the sample store and the sample result. -/
theorem handleEvent_recognition_replay_witness :
    (handleEvent (ObjectID.ofNat 2) 9
        (handleEvent (ObjectID.ofNat 1) 0 (sampleStore 0)
          (.featureRecognitionComplete sampleRecognition)).store
        (.featureRecognitionComplete sampleRecognition)).store =
        (handleEvent (ObjectID.ofNat 1) 0 (sampleStore 0)
          (.featureRecognitionComplete sampleRecognition)).store ∧
      (handleEvent (ObjectID.ofNat 1) 0 (sampleStore 0)
        (.featureRecognitionComplete sampleRecognition)).outcome = .done ∧
      (handleEvent (ObjectID.ofNat 2) 9
        (handleEvent (ObjectID.ofNat 1) 0 (sampleStore 0)
          (.featureRecognitionComplete sampleRecognition)).store
        (.featureRecognitionComplete sampleRecognition)).outcome = .done ∧
      (handleEvent (ObjectID.ofNat 1) 0 (sampleStore 0)
        (.featureRecognitionComplete sampleRecognition)).store.cadFiles.length =
        (sampleStore 0).cadFiles.length ∧
      (handleEvent (ObjectID.ofNat 1) 0 (sampleStore 0)
        (.featureRecognitionComplete sampleRecognition)).store.tasks.length =
        (sampleStore 0).tasks.length :=
  handleEvent_recognition_replay (ObjectID.ofNat 1) (ObjectID.ofNat 2) 0 9 (sampleStore 0)
    sampleRecognition (sampleCad 0) sampleTask (by decide) (by decide)
    (by
      intro b hb
      simp only [sampleRecognition, List.mem_cons, List.mem_singleton, List.not_mem_nil,
        or_false] at hb
      rcases hb with rfl | rfl
      · exact ⟨⟨ObjectID.ofNat 0xf2, 45⟩, by decide⟩
      · exact ⟨⟨ObjectID.ofNat 0xf1, 90⟩, by decide⟩)

/-! ## Consumer loop -/

theorem handleEvent_recognition_plans (newID : ObjectID) (now : Int) (s : Store)
    (e : FeatureRecognitionComplete) :
    (handleEvent newID now s (.featureRecognitionComplete e)).store.plans = s.plans := by
  cases h1 : CadFileService.Find s e.CADFileID with
  | none =>
    unfold handleEvent
    simp only [h1]
  | some found =>
    cases h2 : resolveTools s e.BendFeatures with
    | none =>
      unfold handleEvent
      simp only [h1]
      simp only [h2]
    | some bends =>
      cases h3 : CadFileService.Update s
          { found with FeatureProps := e.FeatureProps, BendFeatures := bends } with
      | none =>
        unfold handleEvent
        simp only [h1]
        simp only [h2]
        simp only [h3]
      | some s1 =>
        obtain ⟨_, f2, _⟩ := cadFile_Update_frame _ _ _ h3
        cases h4 : TaskService.Find s1 e.TaskID with
        | none =>
          unfold handleEvent
          simp only [h1]
          simp only [h2]
          simp only [h3]
          simp only [h4]
          exact f2
        | some task =>
          cases h5 : TaskService.Update s1
              { task with Status := .Complete, ProcessingTime := e.FeatureProps.FRETime } with
          | none =>
            unfold handleEvent
            simp only [h1]
            simp only [h2]
            simp only [h3]
            simp only [h4]
            simp only [h5]
            exact f2
          | some s2 =>
            obtain ⟨_, g2, _⟩ := task_Update_frame _ _ _ h5
            unfold handleEvent
            simp only [h1]
            simp only [h2]
            simp only [h3]
            simp only [h4]
            simp only [h5]
            exact g2.trans f2

theorem handleEvent_planning_plans (newID : ObjectID) (now : Int) (s : Store)
    (e : ProcessPlanningComplete) :
    (handleEvent newID now s (.processPlanningComplete e)).store.plans = s.plans ∨
      ∃ plan : ProcessingPlan, plan.CADFileID = e.ProcessingPlan.CADFileID ∧
        (handleEvent newID now s (.processPlanningComplete e)).store.plans =
          s.plans ++ [plan] := by
  cases h1 : CadFileService.Find s e.ProcessingPlan.CADFileID.Hex with
  | none =>
    left
    unfold handleEvent
    simp only [h1]
  | some found =>
    right
    obtain ⟨plan, hplan⟩ : ∃ plan : ProcessingPlan, plan =
        { ID := newID
          CADFileID := e.ProcessingPlan.CADFileID
          Rotations := e.ProcessingPlan.Rotations
          Flips := e.ProcessingPlan.Flips
          Tools := e.ProcessingPlan.Tools
          Modules := e.ProcessingPlan.Modules
          ProcessingTime := e.ProcessingPlan.ProcessingTime
          EstimatedManufacturingTime := e.ProcessingPlan.EstimatedManufacturingTime
          TotalToolDistance := e.ProcessingPlan.TotalToolDistance
          BendingSequences := e.ProcessingPlan.BendingSequences
          Quantity := e.ProcessingPlan.Quantity
          CreatedAt := now } := ⟨_, rfl⟩
    refine ⟨plan, by rw [hplan], ?_⟩
    cases h3 : CadFileService.Update { s with plans := s.plans ++ [plan] }
        { found with
          FeatureProps := { found.FeatureProps with ProcessLevel := e.ProcessLevel } } with
    | none =>
      unfold handleEvent
      simp only [h1]
      simp only [ProcessingPlanService.Create]
      rw [← hplan]
      simp only [h3]
    | some s2 =>
      obtain ⟨_, f2, _⟩ := cadFile_Update_frame _ _ _ h3
      cases h4 : TaskService.Find s2 e.TaskID with
      | none =>
        unfold handleEvent
        simp only [h1]
        simp only [ProcessingPlanService.Create]
        rw [← hplan]
        simp only [h3]
        simp only [h4]
        exact f2
      | some task =>
        cases h5 : TaskService.Update s2
            { task with
              Status := .Complete
              ProcessingTime := e.ProcessingPlan.EstimatedManufacturingTime } with
        | none =>
          unfold handleEvent
          simp only [h1]
          simp only [ProcessingPlanService.Create]
          rw [← hplan]
          simp only [h3]
          simp only [h4]
          simp only [h5]
          exact f2
        | some s3 =>
          obtain ⟨_, g2, _⟩ := task_Update_frame _ _ _ h5
          unfold handleEvent
          simp only [h1]
          simp only [ProcessingPlanService.Create]
          rw [← hplan]
          simp only [h3]
          simp only [h4]
          simp only [h5]
          exact g2.trans f2

/-- Handling one event adds at most one plan for a CADFile, and only when the event is a
ProcessPlanningComplete for it. -/
theorem handleEvent_planCount (newID : ObjectID) (now : Int) (s : Store) (ev : Event)
    (cad : ObjectID) :
    planCount (handleEvent newID now s ev).store cad ≤
      planCount s cad + if isPlanningFor cad ev = true then 1 else 0 := by
  cases ev with
  | other eventName => exact Nat.le_add_right _ _
  | featureRecognitionComplete e =>
    unfold planCount
    rw [handleEvent_recognition_plans]
    exact Nat.le_add_right _ _
  | processPlanningComplete e =>
    unfold planCount
    rcases handleEvent_planning_plans newID now s e with h | ⟨plan, hplan, h⟩
    · rw [h]
      exact Nat.le_add_right _ _
    · rw [h, List.countP_append, List.countP_singleton]
      simp only [isPlanningFor, hplan]
      split_ifs <;> simp_all

/-- Along the consumer loop a CADFile gains at most as many plans as ProcessPlanningComplete
deliveries are for it. -/
theorem ProcessEvents_planCount (cad : ObjectID) (ds : List Delivery) (s : Store) :
    planCount (ProcessEvents s ds) cad ≤ planCount s cad + planningDeliveries cad ds := by
  induction ds generalizing s with
  | nil => exact Nat.le_add_right _ _
  | cons d ds ih =>
    cases d with
    | failed err =>
      rw [ProcessEvents]
      have := ih s
      unfold planningDeliveries at this ⊢
      rw [List.countP_cons]
      simp only []
      omega
    | received newID now evt =>
      have hstep := handleEvent_planCount newID now s evt cad
      have hcount : planningDeliveries cad (.received newID now evt :: ds) =
          planningDeliveries cad ds + if isPlanningFor cad evt = true then 1 else 0 := by
        unfold planningDeliveries
        rw [List.countP_cons]
      rw [ProcessEvents, hcount]
      cases hout : (handleEvent newID now s evt).outcome with
      | done =>
        simp only []
        have := ih (handleEvent newID now s evt).store
        omega
      | fatal msg =>
        simp only []
        omega

/-- C18 fails as stated: from the sample store, which holds no plan, two deliveries of the same
ProcessPlanningComplete event leave two plans for the sample CADFile. -/
theorem ProcessEvents_repeated_planning_counterexample :
    (sampleStore 1).plans = [] ∧
      planCount (ProcessEvents (sampleStore 1)
        [.received (ObjectID.ofNat 0xd2) 50 (.processPlanningComplete samplePlanning),
          .received (ObjectID.ofNat 0xd3) 51 (.processPlanningComplete samplePlanning)])
        (ObjectID.ofNat 0xa1) = 2 := by
  decide

/-- A ProcessPlanningComplete event whose CADFile lookup succeeds leaves its plan in the store,
whether the Task is then found or not. -/
theorem handleEvent_planning_adds (newID : ObjectID) (now : Int) (s : Store)
    (e : ProcessPlanningComplete) (found : CADFile)
    (h1 : CadFileService.Find s e.ProcessingPlan.CADFileID.Hex = some found) :
    (handleEvent newID now s (.processPlanningComplete e)).store.plans =
      s.plans ++ [createdPlan newID now e] := by
  have hplan : createdPlan newID now e =
      { ID := newID
        CADFileID := e.ProcessingPlan.CADFileID
        Rotations := e.ProcessingPlan.Rotations
        Flips := e.ProcessingPlan.Flips
        Tools := e.ProcessingPlan.Tools
        Modules := e.ProcessingPlan.Modules
        ProcessingTime := e.ProcessingPlan.ProcessingTime
        EstimatedManufacturingTime := e.ProcessingPlan.EstimatedManufacturingTime
        TotalToolDistance := e.ProcessingPlan.TotalToolDistance
        BendingSequences := e.ProcessingPlan.BendingSequences
        Quantity := e.ProcessingPlan.Quantity
        CreatedAt := now } := rfl
  have h11 : CadFileService.Find { s with plans := s.plans ++ [createdPlan newID now e] }
      e.ProcessingPlan.CADFileID.Hex = some found :=
    (cadFile_Find_congr { s with plans := s.plans ++ [createdPlan newID now e] } s rfl
      _).trans h1
  obtain ⟨l1, hup1, -, -⟩ := cadFile_Update_found _ _ _
    { found with FeatureProps := { found.FeatureProps with ProcessLevel := e.ProcessLevel } }
    h11 rfl
  cases h4 : TaskService.Find s e.TaskID with
  | none =>
    have h41 : TaskService.Find
        { s with cadFiles := l1, plans := s.plans ++ [createdPlan newID now e] } e.TaskID =
        none :=
      (task_Find_congr
        { s with cadFiles := l1, plans := s.plans ++ [createdPlan newID now e] } s rfl
        _).trans h4
    have hrun : (handleEvent newID now s (.processPlanningComplete e)).store =
        { s with cadFiles := l1, plans := s.plans ++ [createdPlan newID now e] } := by
      unfold handleEvent
      simp only [h1]
      simp only [ProcessingPlanService.Create]
      rw [← hplan]
      simp only [hup1]
      simp only [h41]
    rw [hrun]
  | some task =>
    have h41 : TaskService.Find
        { s with cadFiles := l1, plans := s.plans ++ [createdPlan newID now e] } e.TaskID =
        some task :=
      (task_Find_congr
        { s with cadFiles := l1, plans := s.plans ++ [createdPlan newID now e] } s rfl
        _).trans h4
    obtain ⟨l2, hup2, -, -⟩ := task_Update_found _ _ _
      { task with
        Status := .Complete
        ProcessingTime := e.ProcessingPlan.EstimatedManufacturingTime } h41 rfl
    have hrun : (handleEvent newID now s (.processPlanningComplete e)).store =
        { s with
          cadFiles := l1, tasks := l2
          plans := s.plans ++ [createdPlan newID now e] } := by
      unfold handleEvent
      simp only [h1]
      simp only [ProcessingPlanService.Create]
      rw [← hplan]
      simp only [hup1]
      simp only [h41]
      simp only [hup2]
    rw [hrun]

/-- A ProcessPlanningComplete event whose CADFile and Task are found is handled to the end, and
afterwards both are still found under the same ids. -/
theorem handleEvent_planning_run (newID : ObjectID) (now : Int) (s : Store)
    (e : ProcessPlanningComplete) (found : CADFile) (task : Task)
    (h1 : CadFileService.Find s e.ProcessingPlan.CADFileID.Hex = some found)
    (h4 : TaskService.Find s e.TaskID = some task) :
    (handleEvent newID now s (.processPlanningComplete e)).outcome = .done ∧
      CadFileService.Find (handleEvent newID now s (.processPlanningComplete e)).store
          e.ProcessingPlan.CADFileID.Hex = some (plannedCadFile found e) ∧
      TaskService.Find (handleEvent newID now s (.processPlanningComplete e)).store e.TaskID =
        some (completedTask task e.ProcessingPlan.EstimatedManufacturingTime) := by
  have hplan : createdPlan newID now e =
      { ID := newID
        CADFileID := e.ProcessingPlan.CADFileID
        Rotations := e.ProcessingPlan.Rotations
        Flips := e.ProcessingPlan.Flips
        Tools := e.ProcessingPlan.Tools
        Modules := e.ProcessingPlan.Modules
        ProcessingTime := e.ProcessingPlan.ProcessingTime
        EstimatedManufacturingTime := e.ProcessingPlan.EstimatedManufacturingTime
        TotalToolDistance := e.ProcessingPlan.TotalToolDistance
        BendingSequences := e.ProcessingPlan.BendingSequences
        Quantity := e.ProcessingPlan.Quantity
        CreatedAt := now } := rfl
  have h11 : CadFileService.Find { s with plans := s.plans ++ [createdPlan newID now e] }
      e.ProcessingPlan.CADFileID.Hex = some found :=
    (cadFile_Find_congr { s with plans := s.plans ++ [createdPlan newID now e] } s rfl
      _).trans h1
  obtain ⟨l1, hup1, hfind1, -⟩ := cadFile_Update_found _ _ _
    { found with FeatureProps := { found.FeatureProps with ProcessLevel := e.ProcessLevel } }
    h11 rfl
  have h41 : TaskService.Find
      { s with cadFiles := l1, plans := s.plans ++ [createdPlan newID now e] } e.TaskID =
      some task :=
    (task_Find_congr
      { s with cadFiles := l1, plans := s.plans ++ [createdPlan newID now e] } s rfl
      _).trans h4
  obtain ⟨l2, hup2, hfind2, -⟩ := task_Update_found _ _ _
    { task with
      Status := .Complete
      ProcessingTime := e.ProcessingPlan.EstimatedManufacturingTime } h41 rfl
  have hrun : (handleEvent newID now s (.processPlanningComplete e)).store =
        { s with
          cadFiles := l1, tasks := l2
          plans := s.plans ++ [createdPlan newID now e] } ∧
      (handleEvent newID now s (.processPlanningComplete e)).outcome = .done := by
    unfold handleEvent
    simp only [h1]
    simp only [ProcessingPlanService.Create]
    rw [← hplan]
    simp only [hup1]
    simp only [h41]
    simp only [hup2]
    exact ⟨trivial, trivial⟩
  rw [hrun.1]
  exact ⟨hrun.2, hfind1 _ rfl, hfind2 _ rfl⟩

/-- Every handled ProcessPlanningComplete event whose CADFile lookup succeeds adds exactly one
plan for that CADFile. -/
theorem handleEvent_planning_planCount (newID : ObjectID) (now : Int) (s : Store)
    (e : ProcessPlanningComplete) (found : CADFile)
    (h1 : CadFileService.Find s e.ProcessingPlan.CADFileID.Hex = some found) :
    planCount (handleEvent newID now s (.processPlanningComplete e)).store
        e.ProcessingPlan.CADFileID =
      planCount s e.ProcessingPlan.CADFileID + 1 := by
  unfold planCount
  rw [handleEvent_planning_adds newID now s e found h1, List.countP_append,
    List.countP_singleton]
  simp [createdPlan]

/-- Deliveries of one ProcessPlanningComplete event for a stored CADFile and a stored Task
are all handled, and each adds a plan. -/
theorem ProcessEvents_repeated (e : ProcessPlanningComplete) (rs : List Delivery) (s : Store)
    (hcad : ∃ found, CadFileService.Find s e.ProcessingPlan.CADFileID.Hex = some found)
    (htask : ∃ task, TaskService.Find s e.TaskID = some task)
    (hrs : ∀ d ∈ rs, ∃ newID now, d = .received newID now (.processPlanningComplete e)) :
    planCount (ProcessEvents s rs) e.ProcessingPlan.CADFileID =
      planCount s e.ProcessingPlan.CADFileID + rs.length := by
  induction rs generalizing s with
  | nil => rfl
  | cons d rest ih =>
    obtain ⟨newID, now, rfl⟩ := hrs d (List.mem_cons_self _ _)
    obtain ⟨found, h1⟩ := hcad
    obtain ⟨task, h4⟩ := htask
    obtain ⟨hdone, hc, ht⟩ := handleEvent_planning_run newID now s e found task h1 h4
    have hcount := handleEvent_planning_planCount newID now s e found h1
    rw [ProcessEvents]
    simp only [hdone]
    rw [ih _ ⟨_, hc⟩ ⟨_, ht⟩ (fun x hx => hrs x (List.mem_cons_of_mem _ hx)), hcount,
      List.length_cons]
    omega

/-- C18 as amended: in the store reached from one without plans by the consumer loop on any
deliveries, a CADFile has at most as many plans as ProcessPlanningComplete deliveries were for
it, and at most one when at most one such delivery was for it; every handled
ProcessPlanningComplete event whose CADFile lookup succeeds adds exactly one plan for that
CADFile; and deliveries of one such event for a stored CADFile and a stored Task leave the
CADFile with as many plans as there were deliveries. -/
theorem ProcessEvents_plans_bounded (s : Store) (ds : List Delivery) (cad : ObjectID)
    (hempty : s.plans = []) :
    planCount (ProcessEvents s ds) cad ≤ planningDeliveries cad ds ∧
      (planningDeliveries cad ds ≤ 1 → planCount (ProcessEvents s ds) cad ≤ 1) ∧
      (∀ (t : Store) (newID : ObjectID) (now : Int) (e : ProcessPlanningComplete),
        (∃ found, CadFileService.Find t e.ProcessingPlan.CADFileID.Hex = some found) →
        planCount (handleEvent newID now t (.processPlanningComplete e)).store
            e.ProcessingPlan.CADFileID =
          planCount t e.ProcessingPlan.CADFileID + 1) ∧
      (∀ (e : ProcessPlanningComplete) (rs : List Delivery),
        (∃ found, CadFileService.Find s e.ProcessingPlan.CADFileID.Hex = some found) →
        (∃ task, TaskService.Find s e.TaskID = some task) →
        (∀ d ∈ rs, ∃ newID now, d = .received newID now (.processPlanningComplete e)) →
        planCount (ProcessEvents s rs) e.ProcessingPlan.CADFileID = rs.length) := by
  have h := ProcessEvents_planCount cad ds s
  have h0 : ∀ c, planCount s c = 0 := by
    intro c
    unfold planCount
    rw [hempty]
    rfl
  rw [h0, Nat.zero_add] at h
  refine ⟨h, fun h1 => le_trans h h1, ?_, ?_⟩
  · rintro t newID now e ⟨found, hfound⟩
    exact handleEvent_planning_planCount newID now t e found hfound
  · intro e rs hcad htask hrs
    rw [ProcessEvents_repeated e rs s hcad htask hrs, h0, Nat.zero_add]

/-- Witness of the amended C18: three deliveries of the sample planning result leave the sample
CADFile with three plans. -/
theorem ProcessEvents_plans_bounded_witness :
    planCount (ProcessEvents (sampleStore 1)
        [.received (ObjectID.ofNat 0xd2) 50 (.processPlanningComplete samplePlanning),
          .received (ObjectID.ofNat 0xd3) 51 (.processPlanningComplete samplePlanning),
          .received (ObjectID.ofNat 0xd4) 52 (.processPlanningComplete samplePlanning)])
        samplePlanning.ProcessingPlan.CADFileID = 3 :=
  (ProcessEvents_plans_bounded (sampleStore 1) [] (ObjectID.ofNat 0xa1) (by decide)).2.2.2
    samplePlanning
    [.received (ObjectID.ofNat 0xd2) 50 (.processPlanningComplete samplePlanning),
      .received (ObjectID.ofNat 0xd3) 51 (.processPlanningComplete samplePlanning),
      .received (ObjectID.ofNat 0xd4) 52 (.processPlanningComplete samplePlanning)]
    ⟨sampleCad 1, by decide⟩ ⟨sampleTask, by decide⟩
    (by
      intro d hd
      simp only [List.mem_cons, List.mem_singleton, List.not_mem_nil, or_false] at hd
      rcases hd with rfl | rfl | rfl
      · exact ⟨_, _, rfl⟩
      · exact ⟨_, _, rfl⟩
      · exact ⟨_, _, rfl⟩)

/-! ## Work dispatcher: emission order and emission outcome -/

/-- C20: for a found CADFile at ProcessLevel 0 or 1, whatever the emitter reports, the run of
`ProcessCADFile` ends in the same store, with the same status, body, emitted events and cleared
keys; the store gains the Task in status Processing and the reply is the 200 success also when
the emitter fails on every event, in which case no event is delivered. -/
theorem ProcessCADFile_ignores_emit_outcome (env : DispatchEnv) (w : World) (r : Request)
    (uid : ObjectID) (cadFile : CADFile) (ok1 ok2 : OutEvent → Bool)
    (htoken : r.tokenErr = false) (hclaims : r.claimsOk = true) (hprofile : r.profileErr = false)
    (huid : ObjectIDFromHex r.userID = some uid)
    (hfind : CadFileService.Find w.store r.param = some cadFile)
    (hlevel : cadFile.FeatureProps.ProcessLevel = 0 ∨ cadFile.FeatureProps.ProcessLevel = 1) :
    (ProcessCADFile { env with emitOk := ok1 } w r).store =
        (ProcessCADFile { env with emitOk := ok2 } w r).store ∧
      (ProcessCADFile { env with emitOk := ok1 } w r).headers =
        (ProcessCADFile { env with emitOk := ok2 } w r).headers ∧
      (ProcessCADFile { env with emitOk := ok1 } w r).bodies =
        (ProcessCADFile { env with emitOk := ok2 } w r).bodies ∧
      (ProcessCADFile { env with emitOk := ok1 } w r).emitted =
        (ProcessCADFile { env with emitOk := ok2 } w r).emitted ∧
      (ProcessCADFile { env with emitOk := ok1 } w r).cleared =
        (ProcessCADFile { env with emitOk := ok2 } w r).cleared ∧
      (ProcessCADFile { env with emitOk := fun _ => false } w r).delivered = w.delivered ∧
      (∃ task, task.Status = .Processing ∧
        (ProcessCADFile { env with emitOk := fun _ => false } w r).store.tasks =
          w.store.tasks ++ [task]) ∧
      (ProcessCADFile { env with emitOk := fun _ => false } w r).headers = w.headers ++ [200] ∧
      ∃ body, body.status = true ∧
        (ProcessCADFile { env with emitOk := fun _ => false } w r).bodies = w.bodies ++ [body] := by
  rcases hlevel with hlevel | hlevel
  · simp [ProcessCADFile, htoken, hclaims, hprofile, huid, hfind, hlevel, TaskService.Create,
      World.reply, ExtractBendFeatures, World.emit, BuildResponse]
  · simp [ProcessCADFile, htoken, hclaims, hprofile, huid, hfind, hlevel, TaskService.Create,
      World.reply, GenerateProcessingPlan, World.emit, BuildResponse]

/-- Witness of C20 on the sample CADFile at level 0, with an emitter that always succeeds and
one that always fails. -/
theorem ProcessCADFile_ignores_emit_outcome_witness :
    (ProcessCADFile { sampleEnv with emitOk := fun _ => true } (sampleWorld 0 [])
        (sampleRequest (ObjectID.ofNat 0xa1))).store =
        (ProcessCADFile { sampleEnv with emitOk := fun _ => false } (sampleWorld 0 [])
          (sampleRequest (ObjectID.ofNat 0xa1))).store ∧
      (ProcessCADFile { sampleEnv with emitOk := fun _ => false } (sampleWorld 0 [])
        (sampleRequest (ObjectID.ofNat 0xa1))).delivered = [] ∧
      (ProcessCADFile { sampleEnv with emitOk := fun _ => false } (sampleWorld 0 [])
        (sampleRequest (ObjectID.ofNat 0xa1))).headers = [200] := by
  have h := ProcessCADFile_ignores_emit_outcome sampleEnv (sampleWorld 0 [])
    (sampleRequest (ObjectID.ofNat 0xa1)) sampleUser (sampleCad 0) (fun _ => true)
    (fun _ => false) (by decide) (by decide) (by decide) (by decide) (by decide)
    (Or.inl (by decide))
  exact ⟨h.1, h.2.2.2.2.2.1, h.2.2.2.2.2.2.2.1⟩

/-! ## Upload pairing: missing material, names, second sightings -/

/-- C19: for a form that parses and has no material value, `uploadHandler` does not return an
error: it fails on the index into the empty material list, before the file count is looked at
and before any effect, whatever parts the form has. -/
theorem uploadHandler_no_material_panics (UploadBalanced : List FileHeader → Bool)
    (MaxUploadSize : Int) (r : UploadRequest) (projectFolder : String) (id : ObjectID)
    (hparse : r.parseErr = false) (hmaterial : r.material = []) :
    uploadHandler UploadBalanced MaxUploadSize r projectFolder id =
      (UploadState.init, .panic) := by
  unfold uploadHandler
  simp [hparse, hmaterial]

/-- Witness of C19 on a form without material and without parts, and on one with two parts. -/
theorem uploadHandler_no_material_panics_witness :
    uploadHandler stepObjBalanced 1048576 ⟨false, [], []⟩ "/uploads/u/p" (ObjectID.ofNat 0xb1) =
        (UploadState.init, .panic) ∧
      uploadHandler stepObjBalanced 1048576
        ⟨false, [samplePart "part.stp" 10 100 1, samplePart "part.obj" 10 101 2], []⟩
        "/uploads/u/p" (ObjectID.ofNat 0xb1) = (UploadState.init, .panic) :=
  ⟨uploadHandler_no_material_panics stepObjBalanced 1048576 ⟨false, [], []⟩ "/uploads/u/p"
      (ObjectID.ofNat 0xb1) rfl rfl,
    uploadHandler_no_material_panics stepObjBalanced 1048576
      ⟨false, [samplePart "part.stp" 10 100 1, samplePart "part.obj" 10 101 2], []⟩
      "/uploads/u/p" (ObjectID.ofNat 0xb1) rfl rfl⟩

/-! ### Second sightings -/

theorem uploadLoop_append_ok (MaxUploadSize : Int) (projectFolder material : String)
    (id : ObjectID) (s s2 : UploadState) (pre rest : List UploadPart)
    (h : uploadLoop MaxUploadSize projectFolder material id s (pre ++ rest) = (s2, none)) :
    ∃ s1, uploadLoop MaxUploadSize projectFolder material id s pre = (s1, none) ∧
      uploadLoop MaxUploadSize projectFolder material id s1 rest = (s2, none) := by
  rw [uploadLoop_append] at h
  rcases hpre : uploadLoop MaxUploadSize projectFolder material id s pre with ⟨s1, _ | e⟩
  · rw [hpre] at h
    exact ⟨s1, rfl, h⟩
  · rw [hpre] at h
    simp at h

/-- Parts handled without error are of accepted size and extension and meet no fault. -/
theorem uploadLoop_ok_parts (MaxUploadSize : Int) (projectFolder material : String)
    (id : ObjectID) (ps : List UploadPart) (s s2 : UploadState)
    (h : uploadLoop MaxUploadSize projectFolder material id s ps = (s2, none)) :
    ∀ p ∈ ps, p.header.Size ≤ MaxUploadSize ∧ acceptedExt (partExt p) ∧ p.fault = none := by
  induction ps generalizing s with
  | nil => simp
  | cons q rest ih =>
    obtain ⟨s1, hstep, hrest⟩ := uploadLoop_cons_ok _ _ _ _ _ _ _ _ h
    intro p hp
    rcases List.mem_cons.mp hp with rfl | hp
    · exact (uploadStep_eq_none_iff _ _ _ _ s p).mp (by rw [hstep])
    · exact ih s1 hrest p hp

/-- The loop leaves the `tempCache` entry of a base filename alone while no part has it. -/
theorem uploadLoop_tempCache_frame (MaxUploadSize : Int) (projectFolder material : String)
    (id : ObjectID) (ps : List UploadPart) (s s2 : UploadState) (b : String)
    (h : uploadLoop MaxUploadSize projectFolder material id s ps = (s2, none))
    (hb : b ∉ ps.map baseName) : s2.tempCache.get b = s.tempCache.get b := by
  induction ps generalizing s with
  | nil =>
    rw [uploadLoop] at h
    rw [(Prod.mk.inj h).1]
  | cons p rest ih =>
    obtain ⟨s1, hstep, hrest⟩ := uploadLoop_cons_ok _ _ _ _ _ _ _ _ h
    rw [List.map_cons, List.mem_cons, not_or] at hb
    have hne : baseName p ≠ b := fun h => hb.1 h.symm
    rw [ih s1 hrest hb.2]
    rcases uploadStep_ok_cases _ _ _ _ _ _ _ hstep with ⟨_, rfl⟩ | ⟨key, _, rfl⟩
    · simp only [GoMap.get_set, if_neg hne]
    · simp only [GoMap.get_delete, if_neg hne]

/-- The loop leaves the `fileCache` entry of a storage key alone while no part gets that key. -/
theorem uploadLoop_fileCache_frame (MaxUploadSize : Int) (projectFolder material : String)
    (id : ObjectID) (ps : List UploadPart) (s s2 : UploadState) (k : String)
    (h : uploadLoop MaxUploadSize projectFolder material id s ps = (s2, none))
    (hk : k ∉ ps.map (storageKey projectFolder)) : s2.fileCache.get k = s.fileCache.get k := by
  induction ps generalizing s with
  | nil =>
    rw [uploadLoop] at h
    rw [(Prod.mk.inj h).1]
  | cons p rest ih =>
    obtain ⟨s1, hstep, hrest⟩ := uploadLoop_cons_ok _ _ _ _ _ _ _ _ h
    rw [List.map_cons, List.mem_cons, not_or] at hk
    have hne : storageKey projectFolder p ≠ k := fun h => hk.1 h.symm
    rw [ih s1 hrest hk.2]
    rcases uploadStep_ok_cases _ _ _ _ _ _ _ hstep with ⟨_, rfl⟩ | ⟨key, _, rfl⟩
    · simp only [GoMap.get_set, if_neg hne]
    · rfl

theorem uploadLoop_created_mono (MaxUploadSize : Int) (projectFolder material : String)
    (id : ObjectID) (ps : List UploadPart) (s s2 : UploadState)
    (h : uploadLoop MaxUploadSize projectFolder material id s ps = (s2, none)) :
    ∀ c ∈ s.created, c ∈ s2.created := by
  induction ps generalizing s with
  | nil =>
    rw [uploadLoop] at h
    rw [(Prod.mk.inj h).1]
    exact fun c hc => hc
  | cons p rest ih =>
    obtain ⟨s1, hstep, hrest⟩ := uploadLoop_cons_ok _ _ _ _ _ _ _ _ h
    intro c hc
    apply ih s1 hrest
    rcases uploadStep_ok_cases _ _ _ _ _ _ _ hstep with ⟨_, rfl⟩ | ⟨key, _, rfl⟩
    · exact List.mem_append_left _ hc
    · exact hc

/-- The state the loop reaches when `q` is the only part so far with the base filename `b`:
`tempCache` maps `b` to the storage key of `q`, `fileCache` maps that key to the record created
for `q`, and that record is among the created ones. -/
theorem uploadLoop_after_first (MaxUploadSize : Int) (projectFolder material : String)
    (id : ObjectID) (before between : List UploadPart) (q : UploadPart) (s : UploadState)
    (hrun : uploadLoop MaxUploadSize projectFolder material id UploadState.init
      (before ++ q :: between) = (s, none))
    (hbefore : baseName q ∉ before.map baseName)
    (hbetween : baseName q ∉ between.map baseName)
    (hclock : ((q :: between).map (fun p => p.nowNano)).Nodup) :
    s.tempCache.get (baseName q) = some (storageKey projectFolder q) ∧
      s.fileCache.get (storageKey projectFolder q) =
        some (firstRecord projectFolder material id q) ∧
      firstRecord projectFolder material id q ∈ s.created := by
  obtain ⟨sa, ha, hrest⟩ := uploadLoop_append_ok _ _ _ _ _ _ _ _ hrun
  obtain ⟨sq, hstep, hbet⟩ := uploadLoop_cons_ok _ _ _ _ _ _ _ _ hrest
  have hnone : sa.tempCache.get (baseName q) = none := by
    rw [uploadLoop_tempCache_frame _ _ _ _ _ _ _ _ ha hbefore]
    rfl
  have hparts := uploadLoop_ok_parts _ _ _ _ _ _ _ hrest
  have hkeys := storageKeys_nodup projectFolder (q :: between) (fun p hp => (hparts p hp).2.1)
    hclock
  rw [List.map_cons, List.nodup_cons] at hkeys
  rcases uploadStep_ok_cases _ _ _ _ _ _ _ hstep with ⟨_, rfl⟩ | ⟨key, hkey, _⟩
  · refine ⟨?_, ?_, ?_⟩
    · rw [uploadLoop_tempCache_frame _ _ _ _ _ _ _ _ hbet hbetween]
      simp [GoMap.get_set]
    · rw [uploadLoop_fileCache_frame _ _ _ _ _ _ _ _ hbet hkeys.1]
      simp [GoMap.get_set]
    · exact uploadLoop_created_mono _ _ _ _ _ _ _ hbet _ (by simp)
  · rw [hnone] at hkey
    simp at hkey

/-- What the loop does with a second sighting of the same format as the first. Under the sample
balance check, which lets the request `part.stp`, `part.step`, `part.obj`, `part.obj` through,
the record passed to Update for the second part has the stored step location overwritten and
its mesh location left empty. Whether `helper.UploadBalanced` lets such a request through is
not known from the sources. -/
theorem uploadHandler_same_format_counterexample :
    ((uploadHandler stepObjBalanced 1048576
        ⟨false, [samplePart "part.stp" 10 100 1, samplePart "part.step" 10 101 2,
          samplePart "part.obj" 10 102 3, samplePart "part.obj" 10 103 4], ["steel"]⟩
        "/uploads/u/p" (ObjectID.ofNat 0xb1)).1.created.map (fun c => (c.StepURL, c.ObjpURL))).head? =
        some ("/uploads/u/p/100.stp", "") ∧
      ((uploadHandler stepObjBalanced 1048576
        ⟨false, [samplePart "part.stp" 10 100 1, samplePart "part.step" 10 101 2,
          samplePart "part.obj" 10 102 3, samplePart "part.obj" 10 103 4], ["steel"]⟩
        "/uploads/u/p" (ObjectID.ofNat 0xb1)).1.updated.map (fun c => (c.StepURL, c.ObjpURL))).head? =
        some ("/uploads/u/p/100.step", "") ∧
      (uploadHandler stepObjBalanced 1048576
        ⟨false, [samplePart "part.stp" 10 100 1, samplePart "part.step" 10 101 2,
          samplePart "part.obj" 10 102 3, samplePart "part.obj" 10 103 4], ["steel"]⟩
        "/uploads/u/p" (ObjectID.ofNat 0xb1)).1.written =
        ["/uploads/u/p/100.stp", "/uploads/u/p/100.step", "/uploads/u/p/102.obj",
          "/uploads/u/p/102.obj"] := by
  decide

/-- A second sighting: let `q` be the only part before `p` with the base filename of `p`, the
parts up to `p` being handled without error and the clock readings from `q` on being distinct,
and let `p` be acceptable. Then handling `p` passes one record to Update and returns it; the
record
equals the one created for `q` in identity, name, material, size, creation time, project and
feature data; when `p` is of the other format than `q` it keeps the location stored for `q` and
has the other location set to the file written for `p`; no Create is issued, and the base
filename is no longer in `tempCache`. -/
theorem uploadStep_second_sighting (MaxUploadSize : Int) (projectFolder material : String)
    (id : ObjectID) (before between : List UploadPart) (q p : UploadPart) (s : UploadState)
    (hrun : uploadLoop MaxUploadSize projectFolder material id UploadState.init
      (before ++ q :: between) = (s, none))
    (hbase : baseName q = baseName p)
    (hbefore : baseName p ∉ before.map baseName)
    (hbetween : baseName p ∉ between.map baseName)
    (hclock : ((q :: between).map (fun x => x.nowNano)).Nodup)
    (hsize : p.header.Size ≤ MaxUploadSize) (hext : acceptedExt (partExt p))
    (hfault : p.fault = none) :
    ∃ c path,
      uploadStep MaxUploadSize projectFolder material id s p =
        ({ s with
           written := s.written ++ [path]
           updated := s.updated ++ [c]
           uploadedFiles := s.uploadedFiles ++ [c]
           tempCache := s.tempCache.delete (baseName p) }, none) ∧
      (s.tempCache.delete (baseName p)).get (baseName p) = none ∧
      firstRecord projectFolder material id q ∈ s.created ∧
      c.ID = (firstRecord projectFolder material id q).ID ∧
      c.FileName = (firstRecord projectFolder material id q).FileName ∧
      c.Material = (firstRecord projectFolder material id q).Material ∧
      c.Filesize = (firstRecord projectFolder material id q).Filesize ∧
      c.CreatedAt = (firstRecord projectFolder material id q).CreatedAt ∧
      c.ProjectID = (firstRecord projectFolder material id q).ProjectID ∧
      c.FeatureProps = (firstRecord projectFolder material id q).FeatureProps ∧
      c.BendFeatures = (firstRecord projectFolder material id q).BendFeatures ∧
      (isStepExt (partExt q) = true → isStepExt (partExt p) = false →
        c.StepURL = (firstRecord projectFolder material id q).StepURL ∧
        (firstRecord projectFolder material id q).StepURL ≠ "" ∧ c.ObjpURL = path) ∧
      (isStepExt (partExt q) = false → isStepExt (partExt p) = true →
        c.ObjpURL = (firstRecord projectFolder material id q).ObjpURL ∧
        (firstRecord projectFolder material id q).ObjpURL ≠ "" ∧ c.StepURL = path) := by
  rw [← hbase] at hbefore hbetween
  obtain ⟨hget, hfile, hcreated⟩ := uploadLoop_after_first MaxUploadSize projectFolder material
    id before between q s hrun hbefore hbetween hclock
  rw [hbase] at hget
  have hstep := uploadStep_second MaxUploadSize projectFolder material id s p
    (storageKey projectFolder q) hsize hext hfault hget
  refine ⟨secondRecord projectFolder s p,
    uploadPath projectFolder (ParseInt (storageKey projectFolder q)) (partExt p), hstep,
    by simp [GoMap.get_delete], hcreated, ?_⟩
  cases hp : isStepExt (partExt p) <;> cases hq : isStepExt (partExt q) <;>
    simp [secondRecord, hget, hfile, hp, hq, firstRecord, uploadPath_ne_empty]

/-- The second sighting `part.obj` arriving after `part.stp` and `bracket.obj`. -/
theorem uploadStep_second_sighting_witness :
    ∃ c path,
      uploadStep 1048576 "/uploads/u/p" "steel" (ObjectID.ofNat 0xb1) sampleAfterFirst
          (samplePart "part.obj" 10 102 3) =
        ({ sampleAfterFirst with
           written := sampleAfterFirst.written ++ [path]
           updated := sampleAfterFirst.updated ++ [c]
           uploadedFiles := sampleAfterFirst.uploadedFiles ++ [c]
           tempCache := sampleAfterFirst.tempCache.delete "part" }, none) ∧
      path = "/uploads/u/p/100.obj" ∧
      c.StepURL = "/uploads/u/p/100.stp" ∧ c.ObjpURL = "/uploads/u/p/100.obj" ∧
      c.FileName = "part.stp" ∧ c.ID = ObjectID.ofNat 1 ∧
      (sampleAfterFirst.tempCache.delete "part").get "part" = none := by
  obtain ⟨c, path, hstep, hgone, -, -, hname, -, -, -, -, -, -, hurl, -⟩ :=
    uploadStep_second_sighting 1048576 "/uploads/u/p" "steel" (ObjectID.ofNat 0xb1) []
      [samplePart "bracket.obj" 10 101 2] (samplePart "part.stp" 10 100 1)
      (samplePart "part.obj" 10 102 3) sampleAfterFirst (by decide) (by decide) (by decide)
      (by decide) (by decide) (by decide) (by decide) (by decide)
  have hpath : path = "/uploads/u/p/100.obj" := by
    have h := congrArg (fun x => x.1.written) hstep
    have hw : (uploadStep 1048576 "/uploads/u/p" "steel" (ObjectID.ofNat 0xb1) sampleAfterFirst
        (samplePart "part.obj" 10 102 3)).1.written =
        sampleAfterFirst.written ++ ["/uploads/u/p/100.obj"] := by decide
    simp only [] at h
    rw [hw] at h
    simpa using h.symm
  have hid : c.ID = ObjectID.ofNat 1 := by
    have h := congrArg (fun x => x.1.updated.map (fun c => c.ID)) hstep
    have hw : (uploadStep 1048576 "/uploads/u/p" "steel" (ObjectID.ofNat 0xb1) sampleAfterFirst
        (samplePart "part.obj" 10 102 3)).1.updated.map (fun c => c.ID) =
        [ObjectID.ofNat 1] := by decide
    simp only [] at h
    rw [hw] at h
    have hu : sampleAfterFirst.updated = [] := by decide
    rw [hu] at h
    simpa using h.symm
  obtain ⟨h1, -, h3⟩ := hurl (by decide) (by decide)
  refine ⟨c, path, hstep, hpath, ?_, ?_, ?_, hid, hgone⟩
  · rw [h1]
    decide
  · rw [h3, hpath]
  · rw [hname]
    decide

/-! ### Names of the returned records -/

/-- The pairing state after a first sighting; the other part of the pair is still to come. -/
theorem PairingInv_first (projectFolder material : String) (id : ObjectID) (s : UploadState)
    (p : UploadPart) (rest : List UploadPart)
    (hinv : PairingInv projectFolder s (p :: rest))
    (hget : s.tempCache.get (baseName p) = none) :
    PairingInv projectFolder
        { s with
          written := s.written ++ [uploadPath projectFolder p.nowNano (partExt p)]
          tempCache := s.tempCache.set (baseName p) (storageKey projectFolder p)
          fileCache := s.fileCache.set (storageKey projectFolder p)
            (firstRecord projectFolder material id p)
          created := s.created ++ [firstRecord projectFolder material id p] } rest ∧
      baseName p ∈ rest.map baseName := by
  obtain ⟨hnd, hkeys, hnone, hsome⟩ := hinv
  rw [List.map_cons, List.nodup_cons] at hnd
  have hkeys1 : ∀ b k, s.tempCache.get b = some k →
      k ≠ storageKey projectFolder p ∧ k ∉ rest.map (storageKey projectFolder) := by
    intro b k hb
    have := hkeys b k hb
    rw [List.map_cons, List.mem_cons, not_or] at this
    exact this
  have hcnt := hnone _ hget
  rw [formatCount_cons, formatCount_cons] at hcnt
  have hrest : (isStepExt (partExt p) = true →
        formatCount (baseName p) true rest = 0 ∧ formatCount (baseName p) false rest = 1) ∧
      (isStepExt (partExt p) = false →
        formatCount (baseName p) true rest = 1 ∧ formatCount (baseName p) false rest = 0) := by
    cases hk : isStepExt (partExt p) <;> simp [hk] at hcnt ⊢ <;> omega
  refine ⟨⟨hnd.2, ?_, ?_, ?_⟩, ?_⟩
  · intro x k hx
    simp only [GoMap.get_set] at hx
    by_cases hxb : baseName p = x
    · rw [if_pos hxb] at hx
      obtain rfl := Option.some.inj hx
      exact hnd.1
    · rw [if_neg hxb] at hx
      exact (hkeys1 x k hx).2
  · intro x hx
    simp only [GoMap.get_set] at hx
    by_cases hxb : baseName p = x
    · rw [if_pos hxb] at hx
      simp at hx
    · rw [if_neg hxb] at hx
      have := hnone x hx
      rwa [formatCount_cons_of_ne _ _ _ _ hxb, formatCount_cons_of_ne _ _ _ _ hxb] at this
  · intro x k hx
    simp only [GoMap.get_set] at hx ⊢
    by_cases hxb : baseName p = x
    · rw [if_pos hxb] at hx
      obtain rfl := Option.some.inj hx
      subst hxb
      refine ⟨firstRecord projectFolder material id p, by simp, ?_⟩
      cases hk : isStepExt (partExt p)
      · left
        have := hrest.2 hk
        refine ⟨this.1, this.2, ?_⟩
        simp only [firstRecord, hk]
        exact uploadPath_ne_empty _ _ _
      · right
        have := hrest.1 hk
        refine ⟨this.1, this.2, ?_⟩
        simp only [firstRecord, hk]
        exact uploadPath_ne_empty _ _ _
    · rw [if_neg hxb] at hx
      obtain ⟨c, hc, hdisj⟩ := hsome x k hx
      have hk : storageKey projectFolder p ≠ k := fun h => (hkeys1 x k hx).1 h.symm
      refine ⟨c, by rw [if_neg hk]; exact hc, ?_⟩
      rwa [formatCount_cons_of_ne _ _ _ _ hxb, formatCount_cons_of_ne _ _ _ _ hxb]
        at hdisj
  · have hone : rest.countP (fun q => decide (baseName q = baseName p)) = 1 := by
      rw [countP_baseName]
      cases hk : isStepExt (partExt p)
      · have := hrest.2 hk
        omega
      · have := hrest.1 hk
        omega
    have hpos : 0 < rest.countP (fun q => decide (baseName q = baseName p)) := by omega
    obtain ⟨q, hq, hqb⟩ := List.countP_pos_iff.mp hpos
    exact List.mem_map.mpr ⟨q, hq, by simpa using hqb⟩

/-- The pairing state after a second sighting; no further part has that base filename. -/
theorem PairingInv_second (projectFolder : String) (s : UploadState)
    (p : UploadPart) (rest : List UploadPart) (key : String)
    (hinv : PairingInv projectFolder s (p :: rest))
    (hget : s.tempCache.get (baseName p) = some key) :
    PairingInv projectFolder
        { s with
          written := s.written ++ [uploadPath projectFolder (ParseInt key) (partExt p)]
          updated := s.updated ++ [secondRecord projectFolder s p]
          uploadedFiles := s.uploadedFiles ++ [secondRecord projectFolder s p]
          tempCache := s.tempCache.delete (baseName p) } rest ∧
      baseName p ∉ rest.map baseName := by
  obtain ⟨hnd, hkeys, hnone, hsome⟩ := hinv
  rw [List.map_cons, List.nodup_cons] at hnd
  have hkeys1 : ∀ b k, s.tempCache.get b = some k →
      k ≠ storageKey projectFolder p ∧ k ∉ rest.map (storageKey projectFolder) := by
    intro b k hb
    have := hkeys b k hb
    rw [List.map_cons, List.mem_cons, not_or] at this
    exact this
  obtain ⟨c, hc, hdisj⟩ := hsome _ key hget
  rw [formatCount_cons, formatCount_cons] at hdisj
  have hrest : formatCount (baseName p) true rest = 0 ∧
      formatCount (baseName p) false rest = 0 := by
    cases hk : isStepExt (partExt p)
    · simp only [hk, and_true, and_false, if_true, if_false, Bool.false_eq_true] at hdisj
      rcases hdisj with ⟨h1, h2, h3⟩ | ⟨h1, h2, h3⟩
      · omega
      · exact ⟨by omega, by omega⟩
    · simp only [hk, and_true, and_false, if_true, if_false, Bool.true_eq_false] at hdisj
      rcases hdisj with ⟨h1, h2, h3⟩ | ⟨h1, h2, h3⟩
      · exact ⟨by omega, by omega⟩
      · omega
  have hnobase : ∀ q ∈ rest, baseName q ≠ baseName p := by
    have h0 : rest.countP (fun q => decide (baseName q = baseName p)) = 0 := by
      rw [countP_baseName]
      omega
    intro q hq
    have := List.countP_eq_zero.mp h0 q hq
    simpa using this
  refine ⟨⟨hnd.2, ?_, ?_, ?_⟩, ?_⟩
  · intro x k hx
    simp only [GoMap.get_delete] at hx
    by_cases hxb : baseName p = x
    · rw [if_pos hxb] at hx
      simp at hx
    · rw [if_neg hxb] at hx
      exact (hkeys1 x k hx).2
  · intro x hx
    simp only [GoMap.get_delete] at hx
    by_cases hxb : baseName p = x
    · subst hxb
      rw [hrest.1, hrest.2]
      exact ⟨rfl, by omega⟩
    · rw [if_neg hxb] at hx
      have := hnone x hx
      rwa [formatCount_cons_of_ne _ _ _ _ hxb, formatCount_cons_of_ne _ _ _ _ hxb] at this
  · intro x k hx
    simp only [GoMap.get_delete] at hx
    by_cases hxb : baseName p = x
    · rw [if_pos hxb] at hx
      simp at hx
    · rw [if_neg hxb] at hx
      obtain ⟨c1, hc1, hdisj1⟩ := hsome x k hx
      refine ⟨c1, hc1, ?_⟩
      rwa [formatCount_cons_of_ne _ _ _ _ hxb, formatCount_cons_of_ne _ _ _ _ hxb]
        at hdisj1
  · intro hmem
    obtain ⟨q, hq, hqb⟩ := List.mem_map.mp hmem
    exact hnobase q hq hqb

/-- Along a loop of matched parts the records returned are named, up to order, by the distinct
base filenames of the parts, each followed by ".stp". -/
theorem uploadLoop_names (MaxUploadSize : Int) (projectFolder material : String)
    (id : ObjectID) (ps : List UploadPart) (s : UploadState)
    (hinv : PairingInv projectFolder s ps) (hnames : NamesInv s)
    (hacc : ∀ p ∈ ps, p.header.Size ≤ MaxUploadSize ∧ acceptedExt (partExt p) ∧
      p.fault = none) :
    ∃ s2 new, uploadLoop MaxUploadSize projectFolder material id s ps = (s2, none) ∧
      s2.uploadedFiles = s.uploadedFiles ++ new ∧
      (new.map (fun c => c.FileName)).Perm
        (((ps.map baseName).dedup).map (fun b => b ++ ".stp")) := by
  induction ps generalizing s with
  | nil => exact ⟨s, [], rfl, by simp, by simp⟩
  | cons p rest ih =>
    obtain ⟨hsz, hext, hf⟩ := hacc p (List.mem_cons_self _ _)
    have hacc1 : ∀ q ∈ rest, q.header.Size ≤ MaxUploadSize ∧ acceptedExt (partExt q) ∧
        q.fault = none := fun q hq => hacc q (List.mem_cons_of_mem _ hq)
    have hkeys1 : ∀ b k, s.tempCache.get b = some k → k ≠ storageKey projectFolder p := by
      intro b k hb
      have := hinv.2.1 b k hb
      rw [List.map_cons, List.mem_cons, not_or] at this
      exact this.1
    cases hget : s.tempCache.get (baseName p) with
    | none =>
      have hstep := uploadStep_first MaxUploadSize projectFolder material id s p hsz hext hf hget
      obtain ⟨hinv1, hmem⟩ := PairingInv_first projectFolder material id s p rest hinv hget
      have hnames1 : NamesInv
          { s with
            written := s.written ++ [uploadPath projectFolder p.nowNano (partExt p)]
            tempCache := s.tempCache.set (baseName p) (storageKey projectFolder p)
            fileCache := s.fileCache.set (storageKey projectFolder p)
              (firstRecord projectFolder material id p)
            created := s.created ++ [firstRecord projectFolder material id p] } := by
        intro x k hx
        simp only [GoMap.get_set] at hx ⊢
        by_cases hxb : baseName p = x
        · rw [if_pos hxb] at hx
          obtain rfl := Option.some.inj hx
          subst hxb
          exact ⟨firstRecord projectFolder material id p, by simp, rfl⟩
        · rw [if_neg hxb] at hx
          obtain ⟨c, hc, hn⟩ := hnames x k hx
          have hk : storageKey projectFolder p ≠ k := fun h => hkeys1 x k hx h.symm
          exact ⟨c, by rw [if_neg hk]; exact hc, hn⟩
      obtain ⟨s2, new, hloop, hup, hperm⟩ := ih _ hinv1 hnames1 hacc1
      refine ⟨s2, new, by rw [uploadLoop, hstep]; exact hloop, hup, ?_⟩
      rw [List.map_cons, List.dedup_cons_of_mem hmem]
      exact hperm
    | some key =>
      have hstep := uploadStep_second MaxUploadSize projectFolder material id s p key hsz hext hf
        hget
      obtain ⟨hinv1, hmem⟩ := PairingInv_second projectFolder s p rest key hinv hget
      obtain ⟨c, hc, hn⟩ := hnames _ key hget
      have hname : (secondRecord projectFolder s p).FileName = baseName p ++ ".stp" := by
        cases hk : isStepExt (partExt p) <;>
          simp only [secondRecord, hget, hc, hk, Option.getD_some] <;> exact hn
      have hnames1 : NamesInv
          { s with
            written := s.written ++ [uploadPath projectFolder (ParseInt key) (partExt p)]
            updated := s.updated ++ [secondRecord projectFolder s p]
            uploadedFiles := s.uploadedFiles ++ [secondRecord projectFolder s p]
            tempCache := s.tempCache.delete (baseName p) } := by
        intro x k hx
        simp only [GoMap.get_delete] at hx
        by_cases hxb : baseName p = x
        · rw [if_pos hxb] at hx
          simp at hx
        · rw [if_neg hxb] at hx
          exact hnames x k hx
      obtain ⟨s2, new, hloop, hup, hperm⟩ := ih _ hinv1 hnames1 hacc1
      refine ⟨s2, secondRecord projectFolder s p :: new, by rw [uploadLoop, hstep]; exact hloop,
        by rw [hup]; simp, ?_⟩
      rw [List.map_cons, List.map_cons, List.dedup_cons_of_not_mem hmem, List.map_cons, hname]
      exact List.Perm.cons _ hperm

/-- C11: for an upload request made of matched pairs that `uploadHandler` accepts (N pairs, N
at least 1, a material value present, the balance check passed, sizes within the ceiling, no
fault, clock readings pairwise distinct, the formats of a pair in either order), the names of
the returned records are, up to order, the distinct base filenames of the parts each followed
by ".stp", one record per distinct base filename. For the parts `part.stp`, `part.obj`,
`bracket.stp`, `bracket.obj` with one material value the result is the two records named
`part.stp` and `bracket.stp`, in that order, each with both locations set. -/
theorem uploadHandler_record_names (UploadBalanced : List FileHeader → Bool)
    (MaxUploadSize : Int) (r : UploadRequest) (projectFolder : String) (id : ObjectID) (N : Nat)
    (hparse : r.parseErr = false) (hmaterial : r.material ≠ [])
    (hN : 0 < N) (hlen : r.files.length = 2 * N)
    (hpairs : MatchedPairs r.files)
    (hbalanced : UploadBalanced (r.files.map (fun p => p.header)) = true)
    (hsize : ∀ p ∈ r.files, p.header.Size ≤ MaxUploadSize)
    (hfault : ∀ p ∈ r.files, p.fault = none)
    (hclock : (r.files.map (fun p => p.nowNano)).Nodup) :
    (∃ uploaded,
      (uploadHandler UploadBalanced MaxUploadSize r projectFolder id).2 = .ok uploaded ∧
      (uploaded.map (fun c => c.FileName)).Perm
        (((r.files.map baseName).dedup).map (fun b => b ++ ".stp")) ∧
      (uploaded.map (fun c => c.FileName)).Nodup) ∧
    ((uploadHandler stepObjBalanced 1048576 sampleUpload "/uploads/u/p" (ObjectID.ofNat 0xb1)).2 =
        .ok (uploadHandler stepObjBalanced 1048576 sampleUpload "/uploads/u/p"
          (ObjectID.ofNat 0xb1)).1.uploadedFiles ∧
      (uploadHandler stepObjBalanced 1048576 sampleUpload "/uploads/u/p"
          (ObjectID.ofNat 0xb1)).1.uploadedFiles.map
            (fun c => (c.FileName, c.StepURL, c.ObjpURL)) =
        [("part.stp", "/uploads/u/p/100.stp", "/uploads/u/p/100.obj"),
          ("bracket.stp", "/uploads/u/p/102.stp", "/uploads/u/p/102.obj")]) := by
  refine ⟨?_, by decide⟩
  cases hm : r.material with
  | nil => exact absurd hm hmaterial
  | cons m ms =>
    obtain ⟨s2, new, hloop, hup, hperm⟩ := uploadLoop_names MaxUploadSize projectFolder
      m id r.files UploadState.init (PairingInv_init projectFolder r.files hpairs hclock)
      (by intro b k hb; simp [UploadState.init, GoMap.get] at hb)
      (fun p hp => ⟨hsize p hp, (hpairs p hp).1, hfault p hp⟩)
    rw [uploadHandler_eq_loop _ _ _ _ _ m ms hparse hm (by omega) (by omega) hbalanced, hloop]
    have hup1 : s2.uploadedFiles = new := by
      rw [hup]
      simp [UploadState.init]
    refine ⟨s2.uploadedFiles, rfl, by rw [hup1]; exact hperm, ?_⟩
    rw [hup1, hperm.nodup_iff]
    refine List.Nodup.map ?_ (List.nodup_dedup _)
    intro a b hab
    have h := congrArg String.data hab
    simp only [String.data_append] at h
    exact String.ext (List.append_cancel_right h)

/-- Witness of C11: a request of two pairs whose mesh parts arrive first. -/
theorem uploadHandler_record_names_witness :
    ∃ uploaded,
      (uploadHandler stepObjBalanced 1048576
        ⟨false, [samplePart "part.obj" 10 100 1, samplePart "bracket.obj" 10 101 2,
          samplePart "bracket.step" 10 102 3, samplePart "part.stp" 10 103 4], ["steel"]⟩
        "/uploads/u/p" (ObjectID.ofNat 0xb1)).2 = .ok uploaded ∧
      (uploaded.map (fun c => c.FileName)).Perm ["bracket.stp", "part.stp"] ∧
      (uploaded.map (fun c => c.FileName)).Nodup := by
  have hnames : (((([samplePart "part.obj" 10 100 1, samplePart "bracket.obj" 10 101 2,
      samplePart "bracket.step" 10 102 3, samplePart "part.stp" 10 103 4] :
        List UploadPart).map baseName).dedup).map (fun b => b ++ ".stp")) =
      ["bracket.stp", "part.stp"] := by decide
  obtain ⟨uploaded, hok, hperm, hnodup⟩ := (uploadHandler_record_names stepObjBalanced 1048576
    ⟨false, [samplePart "part.obj" 10 100 1, samplePart "bracket.obj" 10 101 2,
      samplePart "bracket.step" 10 102 3, samplePart "part.stp" 10 103 4], ["steel"]⟩
    "/uploads/u/p" (ObjectID.ofNat 0xb1) 2 (by decide) (by decide) (by decide) (by decide)
    (by decide) (by decide) (by decide) (by decide) (by decide)).1
  simp only [] at hperm
  rw [hnames] at hperm
  exact ⟨uploaded, hok, hperm, hnodup⟩

/-! ## CAD file deletion -/

/-- C21: when `DeleteCADFile` reaches `cadFileService.Delete` (token and claims accepted, the
CADFile found, the plan deletion without error) and that call returns a delete count of 0
together with no error, the run ends in a call of `Error()` on a nil error value with no status
code and no body written and no file removed; and no run of the handler ever writes the
"File not found: " response. -/
theorem DeleteCADFile_zero_count
    (planDelete cadFileDelete : Store → String → Store × Int × Option String)
    (w : World) (r : Request) (cadFile : CADFile) (s1 s2 : Store) (n : Int)
    (htoken : r.tokenErr = false) (hclaims : r.claimsOk = true)
    (hfind : CadFileService.Find w.store r.param = some cadFile)
    (hplan : planDelete w.store r.param = (s1, n, none))
    (hdelete : cadFileDelete s1 r.param = (s2, 0, none)) :
    DeleteCADFile planDelete cadFileDelete w r = ⟨{ w with store := s2 }, [], .nilError⟩ ∧
      ∀ (pd cd : Store → String → Store × Int × Option String) (w0 : World) (r0 : Request)
        (e : String),
        BuildErrorResponse "File not found: " e .empty ∈
            (DeleteCADFile pd cd w0 r0).world.bodies →
          BuildErrorResponse "File not found: " e .empty ∈ w0.bodies := by
  constructor
  · unfold DeleteCADFile
    simp only [htoken, hclaims, hfind, hplan, hdelete]
    simp
  · intro pd cd w0 r0 e
    unfold DeleteCADFile
    by_cases h1 : r0.tokenErr = true
    · simp [h1, World.reply, BuildErrorResponse]
    · by_cases h2 : r0.claimsOk = true
      · cases h3 : CadFileService.Find w0.store r0.param with
        | none => simp [h1, h2, h3, World.reply, BuildErrorResponse]
        | some c =>
          rcases h4 : pd w0.store r0.param with ⟨t1, k1, _ | e1⟩
          · rcases h5 : cd t1 r0.param with ⟨t2, k2, _ | e2⟩
            · by_cases h6 : 0 = k2
              · simp [h1, h2, h3, h4, h5, h6]
              · simp [h1, h2, h3, h4, h5, h6, World.reply, BuildErrorResponse, BuildResponse]
            · simp [h1, h2, h3, h4, h5, World.reply, BuildErrorResponse]
          · simp [h1, h2, h3, h4, World.reply, BuildErrorResponse]
      · simp [h1, h2]

/-- Witness of C21: the sample CADFile is found, and both store calls report a count of 0
without error. -/
theorem DeleteCADFile_zero_count_witness :
    DeleteCADFile deleteNothing deleteNothing (sampleWorld 0 [])
        (sampleRequest (ObjectID.ofNat 0xa1)) =
      ⟨sampleWorld 0 [], [], .nilError⟩ :=
  (DeleteCADFile_zero_count deleteNothing deleteNothing (sampleWorld 0 [])
    (sampleRequest (ObjectID.ofNat 0xa1)) (sampleCad 0) (sampleWorld 0 []).store
    (sampleWorld 0 []).store 0 (by decide) (by decide) (by decide) (by decide) (by decide)).1

/-! ## Registration checks -/

/-- C22: the length guard of `isEmailValid` is false for every string, so for every address,
of whatever length, the result is decided by the pattern match and the MX lookup alone. -/
theorem isEmailValid_length_guard (MatchString : String → String → Bool)
    (LookupMX : String → Option (List MX)) (email : String) :
    ¬ (email.utf8ByteSize < 5 ∧ email.utf8ByteSize > 254) ∧
      isEmailValid MatchString LookupMX email =
        if !MatchString emailPattern email then some false
        else
          match (Split email '@')[1]? with
          | none => none
          | some host =>
            match LookupMX host with
            | none => some false
            | some mx => if mx.length = 0 then some false else some true := by
  have hguard : ¬ (email.utf8ByteSize < 5 ∧ email.utf8ByteSize > 254) := by omega
  refine ⟨hguard, ?_⟩
  unfold isEmailValid
  rw [if_neg hguard]

/-- Witness of C22: the three byte address `a@b` is accepted once the matcher and the lookup
accept it. -/
theorem isEmailValid_length_guard_witness :
    ("a@b".utf8ByteSize < 5) ∧
      isEmailValid (fun _ _ => true) (fun host => some [⟨host, 10⟩]) "a@b" = some true :=
  ⟨by decide,
    (isEmailValid_length_guard (fun _ _ => true) (fun host => some [⟨host, 10⟩]) "a@b").2.trans
      (by decide)⟩

/-- What one turn of the loop of `isPasswordValid` does to each flag. -/
theorem passwordStep_flags (IsUpper IsLower IsNumber IsPunct IsSymbol : Char → Bool)
    (f : PasswordFlags) (c : Char) :
    (passwordStep IsUpper IsLower IsNumber IsPunct IsSymbol f c).hasUpper =
        (f.hasUpper || IsUpper c) ∧
      (passwordStep IsUpper IsLower IsNumber IsPunct IsSymbol f c).hasLower =
        (f.hasLower || (!IsUpper c && IsLower c)) ∧
      (passwordStep IsUpper IsLower IsNumber IsPunct IsSymbol f c).hasNumber =
        (f.hasNumber || (!IsUpper c && !IsLower c && IsNumber c)) ∧
      (passwordStep IsUpper IsLower IsNumber IsPunct IsSymbol f c).hasSpecial =
        (f.hasSpecial ||
          (!IsUpper c && !IsLower c && !IsNumber c && (IsPunct c || IsSymbol c))) := by
  unfold passwordStep
  cases hU : IsUpper c <;> cases hL : IsLower c <;> cases hN : IsNumber c <;>
    cases hP : IsPunct c <;> cases hS : IsSymbol c <;> simp

/-- The flags after the loop of `isPasswordValid` over the characters `l`. -/
theorem passwordFlags_foldl (IsUpper IsLower IsNumber IsPunct IsSymbol : Char → Bool)
    (l : List Char) (f : PasswordFlags) :
    (l.foldl (passwordStep IsUpper IsLower IsNumber IsPunct IsSymbol) f).hasUpper =
        (f.hasUpper || l.any IsUpper) ∧
      (l.foldl (passwordStep IsUpper IsLower IsNumber IsPunct IsSymbol) f).hasLower =
        (f.hasLower || l.any (fun c => !IsUpper c && IsLower c)) ∧
      (l.foldl (passwordStep IsUpper IsLower IsNumber IsPunct IsSymbol) f).hasNumber =
        (f.hasNumber || l.any (fun c => !IsUpper c && !IsLower c && IsNumber c)) ∧
      (l.foldl (passwordStep IsUpper IsLower IsNumber IsPunct IsSymbol) f).hasSpecial =
        (f.hasSpecial || l.any (fun c =>
          !IsUpper c && !IsLower c && !IsNumber c && (IsPunct c || IsSymbol c))) := by
  induction l generalizing f with
  | nil => simp
  | cons c cs ih =>
    obtain ⟨h1, h2, h3, h4⟩ := ih (passwordStep IsUpper IsLower IsNumber IsPunct IsSymbol f c)
    obtain ⟨g1, g2, g3, g4⟩ := passwordStep_flags IsUpper IsLower IsNumber IsPunct IsSymbol f c
    simp only [List.foldl_cons, List.any_cons]
    rw [h1, h2, h3, h4, g1, g2, g3, g4]
    simp only [Bool.or_assoc, and_self]

/-- C23: for every string `s`, the classes of the `unicode` package being pairwise disjoint
(upper case letters, lower case letters, number characters, punctuation or symbol characters),
`isPasswordValid s` is true if and only if `s` is at least 7 bytes long and contains at least
one upper case letter, one lower case letter, one number character and one punctuation or
symbol character. -/
theorem isPasswordValid_iff (IsUpper IsLower IsNumber IsPunct IsSymbol : Char → Bool)
    (hUL : ∀ c, IsUpper c = true → IsLower c = false)
    (hUN : ∀ c, IsUpper c = true → IsNumber c = false)
    (hUS : ∀ c, IsUpper c = true → IsPunct c = false ∧ IsSymbol c = false)
    (hLN : ∀ c, IsLower c = true → IsNumber c = false)
    (hLS : ∀ c, IsLower c = true → IsPunct c = false ∧ IsSymbol c = false)
    (hNS : ∀ c, IsNumber c = true → IsPunct c = false ∧ IsSymbol c = false)
    (s : String) :
    isPasswordValid IsUpper IsLower IsNumber IsPunct IsSymbol s = true ↔
      7 ≤ s.utf8ByteSize ∧
        (∃ c ∈ s.data, IsUpper c = true) ∧
        (∃ c ∈ s.data, IsLower c = true) ∧
        (∃ c ∈ s.data, IsNumber c = true) ∧
        (∃ c ∈ s.data, IsPunct c = true ∨ IsSymbol c = true) := by
  obtain ⟨h1, h2, h3, h4⟩ := passwordFlags_foldl IsUpper IsLower IsNumber IsPunct IsSymbol
    s.data ⟨false, false, false, false⟩
  have hlower : s.data.any (fun c => !IsUpper c && IsLower c) = true ↔
      ∃ c ∈ s.data, IsLower c = true := by
    rw [List.any_eq_true]
    constructor
    · rintro ⟨c, hc, h⟩
      simp only [Bool.and_eq_true] at h
      exact ⟨c, hc, h.2⟩
    · rintro ⟨c, hc, h⟩
      refine ⟨c, hc, ?_⟩
      have hu : IsUpper c = false := by
        cases hU : IsUpper c
        · rfl
        · rw [hUL c hU] at h
          exact absurd h (by decide)
      simp [hu, h]
  have hnumber : s.data.any (fun c => !IsUpper c && !IsLower c && IsNumber c) = true ↔
      ∃ c ∈ s.data, IsNumber c = true := by
    rw [List.any_eq_true]
    constructor
    · rintro ⟨c, hc, h⟩
      simp only [Bool.and_eq_true] at h
      exact ⟨c, hc, h.2⟩
    · rintro ⟨c, hc, h⟩
      refine ⟨c, hc, ?_⟩
      have hu : IsUpper c = false := by
        cases hU : IsUpper c
        · rfl
        · rw [hUN c hU] at h
          exact absurd h (by decide)
      have hl : IsLower c = false := by
        cases hL : IsLower c
        · rfl
        · rw [hLN c hL] at h
          exact absurd h (by decide)
      simp [hu, hl, h]
  have hspecial : s.data.any (fun c =>
        !IsUpper c && !IsLower c && !IsNumber c && (IsPunct c || IsSymbol c)) = true ↔
      ∃ c ∈ s.data, IsPunct c = true ∨ IsSymbol c = true := by
    rw [List.any_eq_true]
    constructor
    · rintro ⟨c, hc, h⟩
      simp only [Bool.and_eq_true, Bool.or_eq_true] at h
      exact ⟨c, hc, h.2⟩
    · rintro ⟨c, hc, h⟩
      refine ⟨c, hc, ?_⟩
      have hu : IsUpper c = false := by
        cases hU : IsUpper c
        · rfl
        · obtain ⟨hp, hs⟩ := hUS c hU
          rw [hp, hs] at h
          simp at h
      have hl : IsLower c = false := by
        cases hL : IsLower c
        · rfl
        · obtain ⟨hp, hs⟩ := hLS c hL
          rw [hp, hs] at h
          simp at h
      have hn : IsNumber c = false := by
        cases hN : IsNumber c
        · rfl
        · obtain ⟨hp, hs⟩ := hNS c hN
          rw [hp, hs] at h
          simp at h
      simp only [hu, hl, hn, Bool.not_false, Bool.true_and, Bool.or_eq_true]
      exact h
  have hupper : s.data.any IsUpper = true ↔ ∃ c ∈ s.data, IsUpper c = true :=
    List.any_eq_true
  unfold isPasswordValid
  simp only [h1, h2, h3, h4, Bool.false_or]
  rw [Bool.and_eq_true, Bool.and_eq_true, Bool.and_eq_true, Bool.and_eq_true, hupper, hlower,
    hnumber, hspecial, decide_eq_true_eq]
  simp only [ge_iff_le, and_assoc]

/-- Witness of C23 with the ASCII parts of the classes, on `Passw0rd!`. -/
theorem isPasswordValid_iff_witness :
    isPasswordValid asciiUpper asciiLower asciiNumber asciiPunct asciiSymbol "Passw0rd!" = true ∧
      (isPasswordValid asciiUpper asciiLower asciiNumber asciiPunct asciiSymbol "Passw0rd" = true ↔
        7 ≤ "Passw0rd".utf8ByteSize ∧
          (∃ c ∈ "Passw0rd".data, asciiUpper c = true) ∧
          (∃ c ∈ "Passw0rd".data, asciiLower c = true) ∧
          (∃ c ∈ "Passw0rd".data, asciiNumber c = true) ∧
          (∃ c ∈ "Passw0rd".data, asciiPunct c = true ∨ asciiSymbol c = true)) :=
  ⟨by decide,
    isPasswordValid_iff asciiUpper asciiLower asciiNumber asciiPunct asciiSymbol
      (by
        intro c
        simp only [asciiUpper, asciiLower, decide_eq_true_eq, decide_eq_false_iff_not]
        omega)
      (by
        intro c
        simp only [asciiUpper, asciiNumber, decide_eq_true_eq, decide_eq_false_iff_not]
        omega)
      (by
        intro c
        simp only [asciiUpper, asciiPunct, asciiSymbol, decide_eq_true_eq,
          decide_eq_false_iff_not, List.mem_cons, List.mem_singleton, List.not_mem_nil,
          or_false]
        omega)
      (by
        intro c
        simp only [asciiLower, asciiNumber, decide_eq_true_eq, decide_eq_false_iff_not]
        omega)
      (by
        intro c
        simp only [asciiLower, asciiPunct, asciiSymbol, decide_eq_true_eq,
          decide_eq_false_iff_not, List.mem_cons, List.mem_singleton, List.not_mem_nil,
          or_false]
        omega)
      (by
        intro c
        simp only [asciiNumber, asciiPunct, asciiSymbol, decide_eq_true_eq,
          decide_eq_false_iff_not, List.mem_cons, List.mem_singleton, List.not_mem_nil,
          or_false]
        omega)
      "Passw0rd"⟩

/-! ## Upload pairing: a rejected part -/

theorem uploadStep_reject (MaxUploadSize : Int) (projectFolder material : String)
    (id : ObjectID) (s : UploadState) (p : UploadPart)
    (h : p.header.Size > MaxUploadSize ∨ ¬ acceptedExt (partExt p)) :
    uploadStep MaxUploadSize projectFolder material id s p =
      (s, some (partRejection MaxUploadSize p)) := by
  by_cases hsz : p.header.Size > MaxUploadSize
  · unfold uploadStep partRejection
    simp only [if_pos hsz]
  · have hacc : ¬ acceptedExt (partExt p) := by
      rcases h with h | h
      · exact absurd h hsz
      · exact h
    have hx : filepathExt p.header.Filename ≠ ".stp" ∧ filepathExt p.header.Filename ≠ ".step" ∧
        filepathExt p.header.Filename ≠ ".obj" := by
      unfold acceptedExt partExt at hacc
      tauto
    unfold uploadStep partRejection partExt
    simp only [if_neg hsz, if_pos hx]

/-- The loop runs to the end over parts that are acceptable and meet no fault. -/
theorem uploadLoop_total (MaxUploadSize : Int) (projectFolder material : String)
    (id : ObjectID) (ps : List UploadPart) (s : UploadState)
    (h : ∀ p ∈ ps, p.header.Size ≤ MaxUploadSize ∧ acceptedExt (partExt p) ∧ p.fault = none) :
    ∃ s2, uploadLoop MaxUploadSize projectFolder material id s ps = (s2, none) := by
  induction ps generalizing s with
  | nil => exact ⟨s, rfl⟩
  | cons p rest ih =>
    have hp := (uploadStep_eq_none_iff MaxUploadSize projectFolder material id s p).mpr
      (h p (List.mem_cons_self _ _))
    rcases hstep : uploadStep MaxUploadSize projectFolder material id s p with ⟨s1, _ | e⟩
    · obtain ⟨s2, h2⟩ := ih s1 (fun q hq => h q (List.mem_cons_of_mem _ hq))
      exact ⟨s2, by rw [uploadLoop, hstep]; exact h2⟩
    · rw [hstep] at hp
      simp at hp

/-- Every part the loop handles without error has one file written and one CADFile created or
updated. -/
theorem uploadLoop_ok_counts (MaxUploadSize : Int) (projectFolder material : String)
    (id : ObjectID) (ps : List UploadPart) (s s2 : UploadState)
    (h : uploadLoop MaxUploadSize projectFolder material id s ps = (s2, none)) :
    s2.written.length = s.written.length + ps.length ∧
      s2.created.length + s2.updated.length =
        s.created.length + s.updated.length + ps.length := by
  induction ps generalizing s with
  | nil =>
    rw [uploadLoop] at h
    rw [(Prod.mk.inj h).1]
    exact ⟨rfl, rfl⟩
  | cons p rest ih =>
    obtain ⟨s1, hstep, hrest⟩ := uploadLoop_cons_ok _ _ _ _ _ _ _ _ h
    obtain ⟨h1, h2⟩ := ih s1 hrest
    rcases uploadStep_ok_cases _ _ _ _ _ _ _ hstep with ⟨_, rfl⟩ | ⟨key, _, rfl⟩
    · simp only [List.length_append, List.length_singleton, List.length_cons,
        List.length_nil] at h1 h2 ⊢
      omega
    · simp only [List.length_append, List.length_singleton, List.length_cons,
        List.length_nil] at h1 h2 ⊢
      omega

/-- C6 fails as stated: in the balanced request `part.obj`, `part.stp` whose second part is
over the size ceiling, `uploadHandler` returns the size error only after it has written the file
of the first part and created its CADFile; and the same parts sent without a material value
are not answered with an error at all. -/
theorem uploadHandler_late_reject_counterexample :
    (samplePart "part.stp" 2000000 101 2).header.Size > 1048576 ∧
      (uploadHandler stepObjBalanced 1048576
        ⟨false, [samplePart "part.obj" 10 100 1, samplePart "part.stp" 2000000 101 2], ["steel"]⟩
        "/uploads/u/p" (ObjectID.ofNat 0xb1)).2 =
        .error (.message
          "The uploaded image is too big: part.stp. Please use an image less than 1MB in size") ∧
      (uploadHandler stepObjBalanced 1048576
        ⟨false, [samplePart "part.obj" 10 100 1, samplePart "part.stp" 2000000 101 2], ["steel"]⟩
        "/uploads/u/p" (ObjectID.ofNat 0xb1)).1.written = ["/uploads/u/p/100.obj"] ∧
      (uploadHandler stepObjBalanced 1048576
        ⟨false, [samplePart "part.obj" 10 100 1, samplePart "part.stp" 2000000 101 2], ["steel"]⟩
        "/uploads/u/p" (ObjectID.ofNat 0xb1)).1.created =
        [{ CADFile.zero with
           ID := ObjectID.ofNat 1
           FileName := "part.stp"
           ObjpURL := "/uploads/u/p/100.obj"
           Material := "steel"
           Filesize := 10
           CreatedAt := 1700000000
           ProjectID := ObjectID.ofNat 0xb1 }] ∧
      (uploadHandler stepObjBalanced 1048576
        ⟨false, [samplePart "part.obj" 10 100 1, samplePart "part.stp" 2000000 101 2], []⟩
        "/uploads/u/p" (ObjectID.ofNat 0xb1)).2 = .panic := by
  decide

/-- C6 as amended: for an upload request with a material value that contains a part of wrong
extension or size, at whatever position, `uploadHandler` returns an error. When the request
fails a check made before the loop (parsing, even count, balance) the state is the initial one.
Otherwise the state is the one the loop reaches on the parts before that part, so that nothing
is written, created or updated for that part or any later one; and when the parts before it are
acceptable and meet no fault, the loop has handled each of them (one file written and one
CADFile created or updated per part), the error is the size or format error of that part, and
nothing at all has been written only if that part is the first. -/
theorem uploadHandler_rejects_bad_part (UploadBalanced : List FileHeader → Bool)
    (MaxUploadSize : Int) (r : UploadRequest) (projectFolder : String) (id : ObjectID)
    (m : String) (ms : List String) (pre post : List UploadPart) (bad : UploadPart)
    (hmaterial : r.material = m :: ms)
    (hfiles : r.files = pre ++ bad :: post)
    (hbad : bad.header.Size > MaxUploadSize ∨ ¬ acceptedExt (partExt bad)) :
    (∃ e, (uploadHandler UploadBalanced MaxUploadSize r projectFolder id).2 = .error e) ∧
      ((r.parseErr = true ∨ r.files.length % 2 = 1 ∨
          UploadBalanced (r.files.map (fun p => p.header)) = false) →
        (uploadHandler UploadBalanced MaxUploadSize r projectFolder id).1 = UploadState.init) ∧
      ((r.parseErr = false ∧ r.files.length % 2 = 0 ∧
          UploadBalanced (r.files.map (fun p => p.header)) = true) →
        (uploadHandler UploadBalanced MaxUploadSize r projectFolder id).1 =
            (uploadLoop MaxUploadSize projectFolder m id UploadState.init pre).1 ∧
          ((∀ p ∈ pre, p.header.Size ≤ MaxUploadSize ∧ acceptedExt (partExt p) ∧
              p.fault = none) →
            uploadLoop MaxUploadSize projectFolder m id UploadState.init pre =
                ((uploadHandler UploadBalanced MaxUploadSize r projectFolder id).1, none) ∧
              (uploadHandler UploadBalanced MaxUploadSize r projectFolder id).2 =
                .error (partRejection MaxUploadSize bad) ∧
              (uploadHandler UploadBalanced MaxUploadSize r projectFolder id).1.written.length =
                pre.length ∧
              (uploadHandler UploadBalanced MaxUploadSize r projectFolder id).1.created.length +
                  (uploadHandler UploadBalanced MaxUploadSize r projectFolder id).1.updated.length =
                pre.length ∧
              ((uploadHandler UploadBalanced MaxUploadSize r projectFolder id).1.written = [] ↔
                pre = []))) := by
  have hlen : r.files.length ≠ 0 := by
    rw [hfiles]
    simp
  by_cases h1 : r.parseErr = true
  · have hrun : uploadHandler UploadBalanced MaxUploadSize r projectFolder id =
        (UploadState.init, .error .parse) := by
      unfold uploadHandler
      simp only [h1, if_true]
    rw [hrun]
    exact ⟨⟨_, rfl⟩, fun _ => rfl, fun h => by simp [h1] at h⟩
  by_cases h3 : r.files.length % 2 = 0
  swap
  · have hrun : uploadHandler UploadBalanced MaxUploadSize r projectFolder id =
        (UploadState.init, .error (.message
          "Each STEP file must be uploaded with its corresponding obj file")) := by
      unfold uploadHandler
      simp only [h1, hmaterial]
      simp [hlen, h3]
    rw [hrun]
    exact ⟨⟨_, rfl⟩, fun _ => rfl, fun h => absurd h.2.1 h3⟩
  by_cases h4 : UploadBalanced (r.files.map (fun p => p.header)) = true
  swap
  · have hrun : uploadHandler UploadBalanced MaxUploadSize r projectFolder id =
        (UploadState.init, .error (.message
          "Unbalanced: Each STEP file must be uploaded with its corresponding obj file")) := by
      unfold uploadHandler
      simp only [h1, hmaterial]
      simp [hlen, h3, h4]
    rw [hrun]
    exact ⟨⟨_, rfl⟩, fun _ => rfl, fun h => absurd h.2.2 h4⟩
  have hp : r.parseErr = false := by
    cases hpe : r.parseErr
    · rfl
    · exact absurd hpe h1
  have hrun := uploadHandler_eq_loop UploadBalanced MaxUploadSize r projectFolder id m ms hp
    hmaterial hlen h3 h4
  obtain ⟨e, he⟩ := uploadLoop_stops_at_bad MaxUploadSize projectFolder m id
    UploadState.init pre post bad hbad
  rw [hfiles] at hrun
  rw [he] at hrun
  simp only [] at hrun
  rw [hrun]
  refine ⟨⟨_, rfl⟩, ?_, ?_⟩
  · intro h
    rcases h with h | h | h
    · exact absurd h h1
    · omega
    · rw [h4] at h
      exact absurd h (by decide)
  · intro _
    refine ⟨rfl, ?_⟩
    intro hok
    obtain ⟨s1, hs1⟩ := uploadLoop_total MaxUploadSize projectFolder m id pre UploadState.init hok
    obtain ⟨hw, hcu⟩ := uploadLoop_ok_counts _ _ _ _ _ _ _ hs1
    have he2 : uploadLoop MaxUploadSize projectFolder m id UploadState.init
        (pre ++ bad :: post) = (s1, some (partRejection MaxUploadSize bad)) := by
      rw [uploadLoop_append, hs1]
      simp only [uploadLoop]
      rw [uploadStep_reject _ _ _ _ _ _ hbad]
    rw [he2] at he
    have hee : e = partRejection MaxUploadSize bad := by
      have := (Prod.mk.inj he).2
      exact (Option.some.inj this).symm
    rw [hs1]
    simp only [UploadState.init, List.length_nil, Nat.zero_add] at hw hcu
    refine ⟨rfl, by rw [hee], hw, hcu, ?_⟩
    constructor
    · intro hnil
      rw [hnil] at hw
      exact List.length_eq_zero.mp hw.symm
    · intro hnil
      rw [hnil] at hw
      exact List.length_eq_zero.mp hw

/-- Witness of the amended C6 on the request of the counterexample: the state at the error is
the one after the first part, whose file is written and whose CADFile is created. -/
theorem uploadHandler_rejects_bad_part_witness :
    (uploadHandler stepObjBalanced 1048576
        ⟨false, [samplePart "part.obj" 10 100 1, samplePart "part.stp" 2000000 101 2], ["steel"]⟩
        "/uploads/u/p" (ObjectID.ofNat 0xb1)).1 =
        (uploadLoop 1048576 "/uploads/u/p" "steel" (ObjectID.ofNat 0xb1) UploadState.init
          [samplePart "part.obj" 10 100 1]).1 ∧
      (uploadHandler stepObjBalanced 1048576
        ⟨false, [samplePart "part.obj" 10 100 1, samplePart "part.stp" 2000000 101 2], ["steel"]⟩
        "/uploads/u/p" (ObjectID.ofNat 0xb1)).1.written.length = 1 :=
  ⟨((uploadHandler_rejects_bad_part stepObjBalanced 1048576
      ⟨false, [samplePart "part.obj" 10 100 1, samplePart "part.stp" 2000000 101 2], ["steel"]⟩
      "/uploads/u/p" (ObjectID.ofNat 0xb1) "steel" [] [samplePart "part.obj" 10 100 1] []
      (samplePart "part.stp" 2000000 101 2) rfl rfl (Or.inl (by decide))).2.2
        ⟨by decide, by decide, by decide⟩).1,
    (((uploadHandler_rejects_bad_part stepObjBalanced 1048576
      ⟨false, [samplePart "part.obj" 10 100 1, samplePart "part.stp" 2000000 101 2], ["steel"]⟩
      "/uploads/u/p" (ObjectID.ofNat 0xb1) "steel" [] [samplePart "part.obj" 10 100 1] []
      (samplePart "part.stp" 2000000 101 2) rfl rfl (Or.inl (by decide))).2.2
        ⟨by decide, by decide, by decide⟩).2 (by decide)).2.2.1⟩









end Fxtract
